import Mathlib

/-!
# libjwt core: token object, compact serialisation, verification

A shallow embedding of `libjwt/jwt.c` and the facts proved about it.

Conventions of the embedding.

* A C string (`char *`) is a `List Char` holding the characters before the
  terminating NUL; one `Char` stands for one C `char`.
* A byte buffer (`unsigned char *`) is a `List Nat`.
* A nullable pointer is an `Option`.
* A C `int` that carries a length or an error code is an `Int`.
* A function whose C body can store outside a buffer or release a block twice
  returns an `Option`; `none` means that the call has undefined behaviour on
  that input.
* Allocation (`malloc`, `alloca`, `BIO_new`) of a size that is not negative is
  taken to succeed, and a caller's buffer holds the bytes its length announces.
  A negative `int` size converts to a `size_t` that no allocator satisfies:
  `malloc` returns `NULL` for it.
* OpenSSL and jansson are not part of the repository.  The base64 encoder and
  the memory sink are written out from their OpenSSL sources (`EVP_EncodeBlock`,
  `b64_write`, `mem_read`), the object functions of jansson and its UTF-8 check
  from theirs; the remaining library calls (HMAC, RSA, the base64 read filter,
  the JSON reader and printer) are the fields of `Libs`, and the general
  statements hold for every `Libs`.
* `refLibs` is one instance of `Libs`, used to evaluate the embedding on
  concrete tokens.
* What is observed of a release of the key buffer is the content of the buffer
  at the call `free(jwt->key)`.

Layout: the embedding of the codec, the decoder and the encoder, the reference
instance, the claim store, the release of the key buffer, the wire format in the
words of the specification, then the theorems.
-/

namespace Jwt

/-! ## Constants and data model -/

/-- The value of `EINVAL` in `errno.h`. -/
def EINVAL : Int := 22

/-- The value of `ENOMEM` in `errno.h`. -/
def ENOMEM : Int := 12

/-- The value of `EEXIST` in `errno.h`. -/
def EEXIST : Int := 17

/-- The algorithm tags of `jwt_alg_t`. -/
inductive jwt_alg_t where
  | JWT_ALG_NONE
  | JWT_ALG_HS256
  | JWT_ALG_HS384
  | JWT_ALG_HS512
  | JWT_ALG_RS256
  deriving DecidableEq

open jwt_alg_t

/-- Modelled from the spec: the enumerator values of `jwt_alg_t`, declared in
`jwt.h`.  The five tags are numbered in declaration order from zero, so that the
zero-filled token of `jwt_new` carries `JWT_ALG_NONE`; every other integer is
outside the enumeration. -/
def jwt_alg_of_int (n : Int) : Option jwt_alg_t :=
  if n = 0 then some JWT_ALG_NONE
  else if n = 1 then some JWT_ALG_HS256
  else if n = 2 then some JWT_ALG_HS384
  else if n = 3 then some JWT_ALG_HS512
  else if n = 4 then some JWT_ALG_RS256
  else none

/-- A jansson value (`json_t`), by its `json_type`.  An object keeps its members
as a list of key and value pairs; a real number keeps its text. -/
inductive json_t where
  | JSON_OBJECT (members : List (List Char × json_t))
  | JSON_ARRAY (items : List json_t)
  | JSON_STRING (value : List Char)
  | JSON_INTEGER (value : Int)
  | JSON_REAL (text : List Char)
  | JSON_TRUE
  | JSON_FALSE
  | JSON_NULL

open json_t

/-- The token object `struct jwt`. -/
structure jwt_t where
  alg : jwt_alg_t
  key : Option (List Nat)
  key_len : Int
  grants : Option json_t

/-- The digests handed to `HMAC`: `EVP_sha256()`, `EVP_sha384()`, `EVP_sha512()`. -/
inductive EVP_MD where
  | EVP_sha256
  | EVP_sha384
  | EVP_sha512
  deriving DecidableEq

open EVP_MD

/-- The digest length in bytes (`EVP_MD_size`). -/
def EVP_MD_size : EVP_MD → Nat
  | EVP_sha256 => 32
  | EVP_sha384 => 48
  | EVP_sha512 => 64

/-- The jansson flag `JSON_COMPACT`. -/
def JSON_COMPACT : Nat := 32

/-- The jansson flag `JSON_SORT_KEYS`. -/
def JSON_SORT_KEYS : Nat := 128

/-- The jansson flag `JSON_ENCODE_ANY`. -/
def JSON_ENCODE_ANY : Nat := 512

/-- The jansson flag `JSON_REJECT_DUPLICATES`. -/
def JSON_REJECT_DUPLICATES : Nat := 1

/-- The jansson flag `JSON_INDENT(n)`. -/
def JSON_INDENT (n : Nat) : Nat := n % 32

/-- The calls into OpenSSL and jansson that the embedding does not write out.

* `HMAC md key msg`: the digest that `HMAC` stores in its result buffer; its
  length is the digest size of `md`.
* `RSA_sign key msg`: what the `EVP_DigestSign*` sequence of `jwt_sign_sha_rsa`
  produces from the PEM private key, `none` when a step fails.
* `RSA_verify key msg sig`: whether the `EVP_DigestVerify*` sequence of
  `jwt_verify_sha_rsa` accepts.
* `b64_read text`: the bytes that `BIO_read` delivers from a `BIO_f_base64`
  filter (flag `BIO_FLAGS_BASE64_NO_NL`) placed on a memory buffer holding
  `text`; the empty list when it delivers nothing.
* `json_loads text flags`, `json_dumps value flags`: the jansson parser and
  printer; `none` is their `NULL`. -/
structure Libs where
  HMAC : EVP_MD → List Nat → List Char → List Nat
  HMAC_length : ∀ md key msg, (HMAC md key msg).length = EVP_MD_size md
  RSA_sign : List Nat → List Char → Option (List Nat)
  RSA_verify : List Nat → List Char → List Nat → Bool
  b64_read : List Char → List Nat
  json_loads : List Char → Nat → Option json_t
  json_dumps : json_t → Nat → Option (List Char)

/-! ## C library string functions -/

/-- The C function `tolower` on ASCII. -/
def tolower (c : Char) : Char :=
  if 65 ≤ c.toNat ∧ c.toNat ≤ 90 then Char.ofNat (c.toNat + 32) else c

/-- The C function `strcasecmp`: zero when the strings agree up to ASCII letter
case, otherwise the difference of the first pair of folded characters that
differ. -/
def strcasecmp : List Char → List Char → Int
  | [], [] => 0
  | [], b :: _ => 0 - ((tolower b).toNat : Int)
  | a :: _, [] => ((tolower a).toNat : Int)
  | a :: as, b :: bs =>
    if tolower a = tolower b then strcasecmp as bs
    else ((tolower a).toNat : Int) - ((tolower b).toNat : Int)

/-- The C function `strcmp`. -/
def strcmp : List Char → List Char → Int
  | [], [] => 0
  | [], b :: _ => 0 - (b.toNat : Int)
  | a :: _, [] => (a.toNat : Int)
  | a :: as, b :: bs =>
    if a = b then strcmp as bs else (a.toNat : Int) - (b.toNat : Int)

/-! ## Algorithm labels and the key -/

/-- The function `jwt_alg_str`. -/
def jwt_alg_str : jwt_alg_t → List Char
  | JWT_ALG_NONE => "none".toList
  | JWT_ALG_HS256 => "HS256".toList
  | JWT_ALG_HS384 => "HS384".toList
  | JWT_ALG_HS512 => "HS512".toList
  | JWT_ALG_RS256 => "RS256".toList

/-- The function `jwt_str_alg`: the return code and the token afterwards. -/
def jwt_str_alg (jwt : jwt_t) (alg : Option (List Char)) : Int × jwt_t :=
  match alg with
  | none => (EINVAL, jwt)
  | some a =>
    if strcasecmp a "none".toList = 0 then (0, { jwt with alg := JWT_ALG_NONE })
    else if strcasecmp a "HS256".toList = 0 then (0, { jwt with alg := JWT_ALG_HS256 })
    else if strcasecmp a "HS384".toList = 0 then (0, { jwt with alg := JWT_ALG_HS384 })
    else if strcasecmp a "HS512".toList = 0 then (0, { jwt with alg := JWT_ALG_HS512 })
    else if strcasecmp a "RS256".toList = 0 then (0, { jwt with alg := JWT_ALG_RS256 })
    else (EINVAL, jwt)

/-- The function `jwt_scrub_key`: the key buffer, if any, is zero-filled and
released; afterwards the token has no key, length zero and algorithm none. -/
def jwt_scrub_key (jwt : jwt_t) : jwt_t :=
  { jwt with key := none, key_len := 0, alg := JWT_ALG_NONE }

/-- The function `jwt_set_alg`.  The argument `alg` is the integer the caller
passes for the enumeration; `key` is the caller's buffer or `NULL`. -/
def jwt_set_alg (jwt : jwt_t) (alg : Int) (key : Option (List Nat)) (len : Int) :
    Int × jwt_t :=
  let jwt := jwt_scrub_key jwt
  match jwt_alg_of_int alg with
  | some JWT_ALG_NONE =>
    if key.isSome ∨ len ≠ 0 then (EINVAL, jwt)
    else (0, { jwt with alg := JWT_ALG_NONE, key_len := len })
  | some a =>
    match key with
    | none => (EINVAL, jwt)
    | some k =>
      if ¬ (len > 0) then (EINVAL, jwt)
      else (0, { jwt with key := some (k.take len.toNat), alg := a, key_len := len })
  | none => (EINVAL, jwt)

/-- The function `jwt_get_alg` on a token that is not `NULL`. -/
def jwt_get_alg (jwt : jwt_t) : jwt_alg_t := jwt.alg

/-- The function `jwt_new`: the zero-filled token with an empty claims object. -/
def jwt_new : jwt_t :=
  { alg := JWT_ALG_NONE, key := none, key_len := 0, grants := some (JSON_OBJECT []) }

/-! ## jansson accessors -/

/-- The jansson function `json_object_get`: the value stored under `key`, `NULL`
when the key is absent or the value is not an object. -/
def json_object_get : json_t → List Char → Option json_t
  | JSON_OBJECT members, key => members.lookup key
  | _, _ => none

/-- The jansson function `json_string_value`: `NULL` unless the value is a string. -/
def json_string_value : json_t → Option (List Char)
  | JSON_STRING value => some value
  | _ => none

/-- The jansson function `json_integer_value`: zero unless the value is an integer. -/
def json_integer_value : json_t → Int
  | JSON_INTEGER value => value
  | _ => 0

/-- The function `get_js_string`.  A value that is not a string is printed with
`json_dumps`, which returns `NULL` for a `NULL` value. -/
def get_js_string (E : Libs) (js : Option json_t) (key : List Char) : Option (List Char) :=
  let js_val := js.bind (fun j => json_object_get j key)
  match js_val.bind json_string_value with
  | some val => some val
  | none => js_val.bind (fun v => E.json_dumps v (JSON_COMPACT ||| JSON_ENCODE_ANY))

/-- The function `get_js_int`. -/
def get_js_int (js : Option json_t) (key : List Char) : Int :=
  match js.bind (fun j => json_object_get j key) with
  | some js_val => json_integer_value js_val
  | none => -1

/-! ## Base64 and the OpenSSL sinks -/

/-- The base64 alphabet of RFC 4648, section 4. -/
def b64_alphabet : List Char :=
  "ABCDEFGHIJKLMNOPQRSTUVWXYZabcdefghijklmnopqrstuvwxyz0123456789+/".toList

/-- The character of a six-bit group (`conv_bin2ascii` in OpenSSL). -/
def conv_bin2ascii (n : Nat) : Char := b64_alphabet.getD (n % 64) 'A'

/-- The OpenSSL function `EVP_EncodeBlock`: standard base64 with padding. -/
def EVP_EncodeBlock : List Nat → List Char
  | a :: b :: c :: rest =>
    conv_bin2ascii (a / 4) :: conv_bin2ascii (a % 4 * 16 + b / 16) ::
      conv_bin2ascii (b % 16 * 4 + c / 64) :: conv_bin2ascii (c % 64) :: EVP_EncodeBlock rest
  | [a, b] =>
    [conv_bin2ascii (a / 4), conv_bin2ascii (a % 4 * 16 + b / 16), conv_bin2ascii (b % 16 * 4), '=']
  | [a] => [conv_bin2ascii (a / 4), conv_bin2ascii (a % 4 * 16), '=', '=']
  | [] => []

/-- The byte of a C `char` seen as `unsigned char`. -/
def byte_of_char (c : Char) : Nat := c.toNat % 256

/-- The pair of sinks set up by `BIO_push(b64, bmem)`: a `BIO_f_base64` filter
with flag `BIO_FLAGS_BASE64_NO_NL` on top of a `BIO_s_mem` buffer.  `tmp` holds
the bytes (fewer than three) that the filter has accepted and not yet encoded;
`mem` is the content of the memory buffer. -/
structure BIO_chain where
  tmp : List Nat
  mem : List Char

/-- Which end of the chain a call addresses: the filter `b64`, or the memory
buffer `bmem` directly.  A sink without a filter is addressed as `bmem`. -/
inductive BIO_handle where
  | b64
  | bmem

/-- The result of `BIO_new` for both sinks followed by `BIO_push`. -/
def BIO_new : BIO_chain := { tmp := [], mem := [] }

/-- A write through the base64 filter (`b64_write`): whole groups of three
bytes are encoded into the buffer below, the remainder waits in `tmp`. -/
def b64_write (c : BIO_chain) (data : List Nat) : BIO_chain :=
  let all := c.tmp ++ data
  let n := all.length - all.length % 3
  { tmp := List.drop n all, mem := c.mem ++ EVP_EncodeBlock (List.take n all) }

/-- The OpenSSL function `BIO_write`. -/
def BIO_write (c : BIO_chain) (h : BIO_handle) (data : List Nat) : BIO_chain :=
  match h with
  | BIO_handle.b64 => b64_write c data
  | BIO_handle.bmem => { c with mem := c.mem ++ data.map Char.ofNat }

/-- The OpenSSL function `BIO_puts` (also the single write of a `BIO_printf`). -/
def BIO_puts (c : BIO_chain) (h : BIO_handle) (s : List Char) : BIO_chain :=
  match h with
  | BIO_handle.b64 => b64_write c (s.map byte_of_char)
  | BIO_handle.bmem => { c with mem := c.mem ++ s }

/-- The OpenSSL function `BIO_flush`: the filter encodes what waits in `tmp`,
padding the last group; the memory buffer has nothing to flush. -/
def BIO_flush (c : BIO_chain) (h : BIO_handle) : BIO_chain :=
  match h with
  | BIO_handle.b64 => { tmp := [], mem := c.mem ++ EVP_EncodeBlock c.tmp }
  | BIO_handle.bmem => c

/-- The OpenSSL function `BIO_pending` on the memory buffer. -/
def BIO_pending (c : BIO_chain) : Int := (c.mem.length : Int)

/-- The OpenSSL function `BIO_read` on a `BIO_s_mem` buffer (`mem_read`): the
return value, the characters stored at the start of the destination, and the
chain afterwards.  At most `outl` characters are taken off the front of the
buffer; when nothing is copied and the buffer is empty the return value is the
end-of-data value of the sink, which `BIO_s_mem` initialises to `-1`. -/
def BIO_read (c : BIO_chain) (outl : Int) : Int × List Char × BIO_chain :=
  let ret : Int := if outl ≥ 0 ∧ outl > (c.mem.length : Int) then (c.mem.length : Int) else outl
  if ret > 0 then (ret, c.mem.take ret.toNat, { c with mem := c.mem.drop ret.toNat })
  else if c.mem.length = 0 then (-1, [], c)
  else (ret, [], c)

/-- The loop of `base64uri_encode`.  The characters still to be read are those
from index `i` on, `t` is the write index and `buf` the buffer as it stands.
The loop stores only at a `'+'` or a `'/'`; at an `'='` it moves on without
advancing `t`; at any other character it advances `t` and stores nothing.  The
terminator stored at `buf[t]` after the loop cuts the string there. -/
def base64uri_loop : List Char → Nat → List Char → List Char
  | [], t, buf => buf.take t
  | c :: rest, t, buf =>
    if c = '+' then base64uri_loop rest (t + 1) (buf.set t '-')
    else if c = '/' then base64uri_loop rest (t + 1) (buf.set t '_')
    else if c = '=' then base64uri_loop rest t buf
    else base64uri_loop rest (t + 1) buf

/-- The function `base64uri_encode`: the content of the buffer afterwards.  The
loop reads `str[i]` and writes `str[t]` with `t ≤ i`, so every read sees the
original character. -/
def base64uri_encode (str : List Char) : List Char := base64uri_loop str 0 str

/-- The loop and the padding step shared by `jwt_b64_decode` and
`bin_b64_decode`: the buffer `new` handed to the base64 read filter. -/
def b64_normalise (src : List Char) : List Char :=
  let new := src.map (fun c => if c = '-' then '+' else if c = '_' then '/' else c)
  let z := 4 - new.length % 4
  if z < 4 then new ++ List.replicate z '=' else new

/-- The content of a byte buffer read as a C string: the characters before the
first NUL. -/
def c_string (buf : List Nat) : List Char :=
  (buf.takeWhile (fun b => b % 256 ≠ 0)).map Char.ofNat

/-- The function `jwt_b64_decode`.  `BIO_pending` on the filter reports the
length of the padded text; `BIO_read` stores the decoded bytes in `buf`, which is
terminated at the returned length and parsed as JSON text. -/
def jwt_b64_decode (E : Libs) (src : List Char) : Option json_t :=
  let new := b64_normalise src
  if (new.length : Int) ≤ 0 then none
  else E.json_loads (c_string (E.b64_read new)) 0

/-- The function `bin_b64_decode`: `none` is the return value `-1`, otherwise
the decoded buffer. -/
def bin_b64_decode (E : Libs) (src : List Char) : Option (List Nat) :=
  let new := b64_normalise src
  if (new.length : Int) ≤ 0 then none
  else some (E.b64_read new)

/-! ## Writing the header and the payload -/

/-- The function `jwt_write_bio_head`. -/
def jwt_write_bio_head (jwt : jwt_t) (bio : BIO_chain) (h : BIO_handle) (pretty : Int) :
    BIO_chain :=
  let bio := BIO_puts bio h "\x7b".toList
  let bio := if pretty ≠ 0 then BIO_puts bio h "\n".toList else bio
  let bio :=
    if jwt.alg ≠ JWT_ALG_NONE then
      let bio := if pretty ≠ 0 then BIO_puts bio h "    ".toList else bio
      let bio := BIO_puts bio h
        ("\"typ\":".toList ++ (if pretty ≠ 0 then " ".toList else []) ++ "\"JWT\",".toList)
      if pretty ≠ 0 then BIO_puts bio h "\n".toList else bio
    else bio
  let bio := if pretty ≠ 0 then BIO_puts bio h "    ".toList else bio
  let bio := BIO_puts bio h
    ("\"alg\":".toList ++ (if pretty ≠ 0 then " ".toList else []) ++ "\"".toList ++
      jwt_alg_str jwt.alg ++ "\"".toList)
  let bio := if pretty ≠ 0 then BIO_puts bio h "\n".toList else bio
  let bio := BIO_puts bio h "\x7d".toList
  let bio := if pretty ≠ 0 then BIO_puts bio h "\n".toList else bio
  BIO_flush bio h

/-- The function `jwt_write_bio_body`.  `BIO_puts` measures its argument with
`strlen`, so a `NULL` from `json_dumps` (which a `NULL` claims pointer also
yields) leaves the call undefined. -/
def jwt_write_bio_body (E : Libs) (jwt : jwt_t) (bio : BIO_chain) (h : BIO_handle)
    (pretty : Int) : Option BIO_chain :=
  let flags := JSON_SORT_KEYS
  let bio := if pretty ≠ 0 then BIO_puts bio h "\n".toList else bio
  let flags := if pretty ≠ 0 then flags ||| JSON_INDENT 4 else flags ||| JSON_COMPACT
  match jwt.grants.bind (fun g => E.json_dumps g flags) with
  | none => none
  | some serial =>
    let bio := BIO_puts bio h serial
    let bio := if pretty ≠ 0 then BIO_puts bio h "\n".toList else bio
    some (BIO_flush bio h)

/-! ## Signing -/

/-- The function `jwt_sign_sha_hmac`.  The result buffer `res` is an array of
`jwt->key_len` bytes and `HMAC` stores a whole digest in it; when the digest is
longer than the array the store runs past its end and the call is undefined. -/
def jwt_sign_sha_hmac (E : Libs) (jwt : jwt_t) (out : BIO_chain) (h : BIO_handle)
    (alg : EVP_MD) (str : List Char) : Option (Int × BIO_chain) :=
  let res := E.HMAC alg ((jwt.key.getD []).take jwt.key_len.toNat) str
  if (res.length : Int) > jwt.key_len then none
  else
    let out := BIO_write out h res
    let out := BIO_flush out h
    some (0, out)

/-- The function `jwt_sign_sha_rsa`: `EINVAL` when the key does not load or a
digest step fails, otherwise the signature is written to `out`. -/
def jwt_sign_sha_rsa (E : Libs) (jwt : jwt_t) (out : BIO_chain) (h : BIO_handle)
    (str : List Char) : Option (Int × BIO_chain) :=
  match E.RSA_sign ((jwt.key.getD []).take jwt.key_len.toNat) str with
  | none => some (EINVAL, out)
  | some sig =>
    let out := BIO_write out h sig
    let out := BIO_flush out h
    some (0, out)

/-- The function `jwt_sign`. -/
def jwt_sign (E : Libs) (jwt : jwt_t) (out : BIO_chain) (h : BIO_handle) (str : List Char) :
    Option (Int × BIO_chain) :=
  match jwt.alg with
  | JWT_ALG_NONE => some (0, out)
  | JWT_ALG_HS256 => jwt_sign_sha_hmac E jwt out h EVP_sha256 str
  | JWT_ALG_HS384 => jwt_sign_sha_hmac E jwt out h EVP_sha384 str
  | JWT_ALG_HS512 => jwt_sign_sha_hmac E jwt out h EVP_sha512 str
  | JWT_ALG_RS256 => jwt_sign_sha_rsa E jwt out h str

/-! ## Verification -/

/-- The function `jwt_verify_sha_hmac`.  After `jwt_sign` the memory buffer is
read into `buf`, which is terminated at `buf[len]` for the `len` that `BIO_read`
returned; a negative `len` puts that store before the buffer.  The chain is
released by `BIO_free_all(b64)` right after the read; when the comparison fails
`ret` is `EINVAL` and the statement at the label `verify_sha_hmac_done` releases
the same chain a second time, which leaves the call undefined. -/
def jwt_verify_sha_hmac (E : Libs) (jwt : jwt_t) (token sig : List Char) : Option Int :=
  match jwt_sign E jwt BIO_new BIO_handle.b64 token with
  | none => none
  | some (ret, bio) =>
    if ret ≠ 0 then some ret
    else
      let len := BIO_pending bio
      if len < 0 then some EINVAL
      else
        match BIO_read bio len with
        | (len, buf, _) =>
          if len < 0 then none
          else
            let buf := base64uri_encode buf
            if strcmp buf sig ≠ 0 then none else some 0

/-- The function `jwt_verify_sha_rsa`. -/
def jwt_verify_sha_rsa (E : Libs) (jwt : jwt_t) (token sig : List Char) : Option Int :=
  match bin_b64_decode E sig with
  | none => some EINVAL
  | some buf =>
    if E.RSA_verify ((jwt.key.getD []).take jwt.key_len.toNat) token buf then some 0
    else some EINVAL

/-- The function `jwt_verify_signature`. -/
def jwt_verify_signature (E : Libs) (jwt : jwt_t) (token sig : List Char) : Option Int :=
  match jwt.alg with
  | JWT_ALG_NONE => if jwt.key_len ≠ 0 then some EINVAL else some 0
  | JWT_ALG_HS256 => jwt_verify_sha_hmac E jwt token sig
  | JWT_ALG_HS384 => jwt_verify_sha_hmac E jwt token sig
  | JWT_ALG_HS512 => jwt_verify_sha_hmac E jwt token sig
  | JWT_ALG_RS256 => jwt_verify_sha_rsa E jwt token sig

/-- The function `jwt_parse_body`. -/
def jwt_parse_body (E : Libs) (jwt : jwt_t) (body : List Char) : Int × jwt_t :=
  match jwt_b64_decode E body with
  | none => (EINVAL, { jwt with grants := none })
  | some js => (0, { jwt with grants := some js })

/-- The function `jwt_verify_head`. -/
def jwt_verify_head (E : Libs) (jwt : jwt_t) (head : List Char) : Int × jwt_t :=
  match jwt_b64_decode E head with
  | none => (EINVAL, jwt)
  | some js =>
    let val := get_js_string E (some js) "alg".toList
    match jwt_str_alg jwt val with
    | (ret, jwt) =>
      if ret ≠ 0 then (ret, jwt)
      else if jwt.alg ≠ JWT_ALG_NONE then
        let val := get_js_string E (some js) "typ".toList
        let ret : Int :=
          match val with
          | none => EINVAL
          | some v => if strcasecmp v "JWT".toList ≠ 0 then EINVAL else ret
        if jwt.key.isSome then
          (if ¬ (jwt.key_len > 0) then EINVAL else ret, jwt)
        else (ret, jwt_scrub_key jwt)
      else
        if jwt.key.isSome then (EINVAL, jwt) else (ret, jwt)

/-- The scan for a separator in `jwt_decode`: the characters before the first
`'.'` and those after it, or `none` when the terminating NUL comes first. -/
def find_dot : List Char → Option (List Char × List Char)
  | [] => none
  | c :: rest =>
    if c = '.' then some ([], rest)
    else
      match find_dot rest with
      | none => none
      | some (seg, tail) => some (c :: seg, tail)

/-- The function `jwt_decode`: the return value and the token stored in `*jwt`
(`none` is `NULL`).  `key` is the caller's buffer.  For a negative `key_len` the
`malloc` of the key copy fails and the function leaves through `decode_done` with
`ret` still zero from `jwt_new`. -/
def jwt_decode (E : Libs) (token : List Char) (key : List Nat) (key_len : Int) :
    Option (Int × Option jwt_t) :=
  match find_dot token with
  | none => some (EINVAL, none)
  | some (head, rest) =>
    match find_dot rest with
    | none => some (EINVAL, none)
    | some (body, sig) =>
      let new := jwt_new
      if key_len < 0 then some (0, some new)
      else
        let new :=
          if key_len ≠ 0 then
            { new with key := some (key.take key_len.toNat), key_len := key_len }
          else new
        match jwt_verify_head E new head with
        | (ret, new) =>
          if ret ≠ 0 then some (ret, none)
          else
            match jwt_parse_body E new body with
            | (ret, new) =>
              if ret ≠ 0 then some (ret, none)
              else
                let ret : Option Int :=
                  if new.alg ≠ JWT_ALG_NONE then
                    jwt_verify_signature E new (head ++ '.' :: body) sig
                  else if key_len > 0 then some EINVAL
                  else some 0
                match ret with
                | none => none
                | some ret => if ret ≠ 0 then some (ret, none) else some (0, some new)

/-! ## Encoding -/

/-- The function `jwt_encode_bio`: the return value and what has been written
to `out`.  Both reads of the memory buffer terminate `buf` at the length that
`BIO_read` returned; a negative length puts that store before the buffer. -/
def jwt_encode_bio (E : Libs) (jwt : jwt_t) (out : List Char) : Option (Int × List Char) :=
  let bio := jwt_write_bio_head jwt BIO_new BIO_handle.b64 0
  let bio := BIO_puts bio BIO_handle.bmem ".".toList
  match jwt_write_bio_body E jwt bio BIO_handle.b64 0 with
  | none => none
  | some bio =>
    let len := BIO_pending bio
    match BIO_read bio len with
    | (len, buf, bio) =>
      if len < 0 then none
      else
        let buf := base64uri_encode buf
        let out := out ++ buf
        let out := out ++ ".".toList
        match jwt_sign E jwt bio BIO_handle.b64 buf with
        | none => none
        | some (ret, bio) =>
          if ret ≠ 0 then some (ret, out)
          else
            let len2 := BIO_pending bio
            if ¬ (len2 > len) ∧ len2 < 0 then some (EINVAL, out)
            else
              match BIO_read bio len2 with
              | (len2, buf, _) =>
                if len2 < 0 then none
                else
                  let buf := base64uri_encode buf
                  let out := out ++ buf
                  some (0, out)

/-- The function `jwt_encode_str`: the string returned, `none` inside for a
`NULL` return.  The output of `jwt_encode_bio` sits in a memory buffer, which is
read into `str` and terminated at the length that `BIO_read` returned. -/
def jwt_encode_str (E : Libs) (jwt : jwt_t) : Option (Option (List Char)) :=
  match jwt_encode_bio E jwt [] with
  | none => none
  | some (errno, out) =>
    if errno ≠ 0 then some none
    else
      let bmem : BIO_chain := { tmp := [], mem := out }
      match BIO_read bmem (BIO_pending bmem) with
      | (len, str, _) => if len < 0 then none else some (some str)

/-! ## A reference instance of the library calls

The statements below hold for every `Libs`.  To evaluate the embedding on
concrete tokens one instance is written out: a base64 reader, a JSON reader and
printer for the texts that occur in tokens, and a keyed digest of the right
length. -/

/-- The six-bit value of a base64 character; `'='` counts as zero, as in the
OpenSSL table (`conv_ascii2bin`). -/
def conv_ascii2bin (c : Char) : Option Nat :=
  if c = '=' then some 0
  else
    let i := b64_alphabet.indexOf c
    if i < 64 then some i else none

/-- Groups of four base64 characters to groups of three bytes (`EVP_DecodeBlock`). -/
def EVP_DecodeBlock : List Char → Option (List Nat)
  | a :: b :: c :: d :: rest =>
    match conv_ascii2bin a, conv_ascii2bin b, conv_ascii2bin c, conv_ascii2bin d,
      EVP_DecodeBlock rest with
    | some a, some b, some c, some d, some tl =>
      some ((a * 4 + b / 16) :: (b % 16 * 16 + c / 4) :: (c % 4 * 64 + d) :: tl)
    | _, _, _, _, _ => none
  | [] => some []
  | _ => none

/-- The number of `'='` among the last two characters, counted from the end. -/
def b64_padding (text : List Char) : Nat :=
  match text.reverse with
  | '=' :: '=' :: _ => 2
  | '=' :: _ => 1
  | _ => 0

/-- The reference base64 reader, for a text whose length is a multiple of four
as `b64_normalise` produces it: the blocks are decoded and the bytes that stand
for trailing padding are dropped; a text that does not decode yields nothing. -/
def ref_b64_read (text : List Char) : List Nat :=
  match EVP_DecodeBlock text with
  | none => []
  | some bytes => bytes.take (bytes.length - b64_padding text)

/-- JSON white space. -/
def json_ws (c : Char) : Bool := c = ' ' || c = '\n' || c = '\t' || c = '\r'

/-- The characters of a JSON string up to the closing quote, and the text after
it.  Escapes and control characters are not read. -/
def json_read_string : List Char → Option (List Char × List Char)
  | [] => none
  | c :: rest =>
    if c = '"' then some ([], rest)
    else if c = '\\' ∨ c.toNat < 32 then none
    else
      match json_read_string rest with
      | none => none
      | some (s, tail) => some (c :: s, tail)

/-- The value of a run of decimal digits. -/
def json_digits_value (ds : List Char) : Nat :=
  ds.foldl (fun acc d => acc * 10 + (d.toNat - 48)) 0

/-- Storing a member in an object: an existing key keeps its place and takes the
new value, a new key goes to the end. -/
def json_members_set :
    List (List Char × json_t) → List Char → json_t → List (List Char × json_t)
  | [], k, v => [(k, v)]
  | (k0, v0) :: rest, k, v =>
    if k0 = k then (k, v) :: rest else (k0, v0) :: json_members_set rest k v

mutual
/-- The reference JSON reader for one value; `fuel` bounds the nesting and the
number of members.  Numbers are read as integers without a leading zero. -/
def json_read_value (flags : Nat) : Nat → List Char → Option (json_t × List Char)
  | 0, _ => none
  | fuel + 1, text =>
    match text.dropWhile json_ws with
    | '\x7b' :: rest =>
      (match rest.dropWhile json_ws with
       | '\x7d' :: tail => some (JSON_OBJECT [], tail)
       | _ => json_read_members flags fuel [] rest)
    | '[' :: rest =>
      (match rest.dropWhile json_ws with
       | ']' :: tail => some (JSON_ARRAY [], tail)
       | _ => json_read_items flags fuel [] rest)
    | '"' :: rest =>
      (match json_read_string rest with
       | none => none
       | some (s, tail) => some (JSON_STRING s, tail))
    | 't' :: 'r' :: 'u' :: 'e' :: tail => some (JSON_TRUE, tail)
    | 'f' :: 'a' :: 'l' :: 's' :: 'e' :: tail => some (JSON_FALSE, tail)
    | 'n' :: 'u' :: 'l' :: 'l' :: tail => some (JSON_NULL, tail)
    | '-' :: rest =>
      (match rest.takeWhile Char.isDigit with
       | [] => none
       | '0' :: _ :: _ => none
       | ds => some (JSON_INTEGER (0 - (json_digits_value ds : Int)), rest.dropWhile Char.isDigit))
    | c :: rest =>
      (match (c :: rest).takeWhile Char.isDigit with
       | [] => none
       | '0' :: _ :: _ => none
       | ds => some (JSON_INTEGER (json_digits_value ds : Int), (c :: rest).dropWhile Char.isDigit))
    | [] => none
/-- The members of an object after the opening brace or a comma. -/
def json_read_members (flags : Nat) :
    Nat → List (List Char × json_t) → List Char → Option (json_t × List Char)
  | 0, _, _ => none
  | fuel + 1, acc, text =>
    match text.dropWhile json_ws with
    | '"' :: rest =>
      (match json_read_string rest with
       | none => none
       | some (k, tail) =>
         if flags % 2 = 1 ∧ (acc.lookup k).isSome then none
         else
           match tail.dropWhile json_ws with
           | ':' :: tail =>
             (match json_read_value flags fuel tail with
              | none => none
              | some (v, tail) =>
                match tail.dropWhile json_ws with
                | ',' :: tail => json_read_members flags fuel (json_members_set acc k v) tail
                | '\x7d' :: tail => some (JSON_OBJECT (json_members_set acc k v), tail)
                | _ => none)
           | _ => none)
    | _ => none
/-- The items of an array after the opening bracket or a comma. -/
def json_read_items (flags : Nat) :
    Nat → List json_t → List Char → Option (json_t × List Char)
  | 0, _, _ => none
  | fuel + 1, acc, text =>
    match json_read_value flags fuel text with
    | none => none
    | some (v, tail) =>
      match tail.dropWhile json_ws with
      | ',' :: tail => json_read_items flags fuel (acc ++ [v]) tail
      | ']' :: tail => some (JSON_ARRAY (acc ++ [v]), tail)
      | _ => none
end

/-- The reference `json_loads`: one object or array, nothing but white space
after it.  Bit 0 of `flags` is `JSON_REJECT_DUPLICATES`. -/
def ref_json_loads (text : List Char) (flags : Nat) : Option json_t :=
  match json_read_value flags (text.length + 1) text with
  | some (JSON_OBJECT m, tail) => if tail.dropWhile json_ws = [] then some (JSON_OBJECT m) else none
  | some (JSON_ARRAY a, tail) => if tail.dropWhile json_ws = [] then some (JSON_ARRAY a) else none
  | _ => none

/-- The text of a JSON string: the characters between quotes, a quote or a
backslash escaped. -/
def json_write_string (s : List Char) : List Char :=
  '"' :: (s.flatMap (fun c => if c = '"' ∨ c = '\\' then ['\\', c] else [c])) ++ ['"']

/-- The decimal text of an integer. -/
def json_write_integer (n : Int) : List Char :=
  if n < 0 then '-' :: (Nat.toDigits 10 n.natAbs) else Nat.toDigits 10 n.natAbs

/-- The order of object keys under `JSON_SORT_KEYS`: `strcmp` order. -/
def json_key_le (a b : List Char) : Bool := decide (strcmp a b ≤ 0)

/-- Insertion of a member into a list of members sorted by key. -/
def json_members_insert (m : List Char × json_t) :
    List (List Char × json_t) → List (List Char × json_t)
  | [] => [m]
  | m0 :: rest =>
    if json_key_le m.1 m0.1 then m :: m0 :: rest else m0 :: json_members_insert m rest

/-- The members sorted by key. -/
def json_members_sort (ms : List (List Char × json_t)) : List (List Char × json_t) :=
  ms.foldr json_members_insert []

/-- The reference JSON printer for one value; `fuel` bounds the nesting.  With
`sort` the members of every object are written in key order; with `compact` the
separators carry no space. -/
def json_write_value (sort compact : Bool) : Nat → json_t → Option (List Char)
  | 0, _ => none
  | fuel + 1, JSON_OBJECT members =>
    match (if sort then json_members_sort members else members).mapM
        (fun m => (json_write_value sort compact fuel m.2).map
          (fun t => json_write_string m.1 ++ (if compact then [':'] else [':', ' ']) ++ t)) with
    | none => none
    | some parts =>
      some ('\x7b' :: List.intercalate (if compact then [','] else [',', ' ']) parts ++ ['\x7d'])
  | fuel + 1, JSON_ARRAY items =>
    match items.mapM (json_write_value sort compact fuel) with
    | none => none
    | some parts =>
      some ('[' :: List.intercalate (if compact then [','] else [',', ' ']) parts ++ [']'])
  | _ + 1, JSON_STRING value => some (json_write_string value)
  | _ + 1, JSON_INTEGER value => some (json_write_integer value)
  | _ + 1, JSON_REAL text => some text
  | _ + 1, JSON_TRUE => some "true".toList
  | _ + 1, JSON_FALSE => some "false".toList
  | _ + 1, JSON_NULL => some "null".toList

/-- The reference `json_dumps`.  Without `JSON_ENCODE_ANY` only an object or an
array is printed.  Indentation is not written and the
nesting is bounded. -/
def ref_json_dumps (v : json_t) (flags : Nat) : Option (List Char) :=
  let sort := decide (flags / JSON_SORT_KEYS % 2 = 1)
  let compact := decide (flags / JSON_COMPACT % 2 = 1)
  let any := decide (flags / JSON_ENCODE_ANY % 2 = 1)
  match v with
  | JSON_OBJECT _ => json_write_value sort compact 64 v
  | JSON_ARRAY _ => json_write_value sort compact 64 v
  | _ => if any then json_write_value sort compact 64 v else none

/-- A keyed digest of the right length that stands in for `HMAC`. -/
def ref_HMAC (md : EVP_MD) (key : List Nat) (msg : List Char) : List Nat :=
  (List.range (EVP_MD_size md)).map
    (fun i => (key.sum * (i + 1) + (msg.map byte_of_char).sum * (i + 3) + 7 * i) % 256)

/-- The reference instance of the library calls.  No RSA key loads. -/
def refLibs : Libs where
  HMAC := ref_HMAC
  HMAC_length := by intro md key msg; simp [ref_HMAC]
  RSA_sign := fun _ _ => none
  RSA_verify := fun _ _ _ => false
  b64_read := ref_b64_read
  json_loads := ref_json_loads
  json_dumps := ref_json_dumps

/-! ## jansson values and object updates

The constructors and the object functions of jansson that the claim store
calls, written out from their sources (`value.c`, `utf.c`).  An object is a table
with one entry for a key; `json_members_set` above is how an entry is stored. -/

/-- The length that a first byte announces for a UTF-8 sequence, zero for a byte
that cannot start one (`utf8_check_first`). -/
def utf8_check_first (u : Nat) : Nat :=
  if u < 128 then 1
  else if u ≤ 191 then 0
  else if u = 192 ∨ u = 193 then 0
  else if u ≤ 223 then 2
  else if u ≤ 239 then 3
  else if u ≤ 244 then 4
  else 0

/-- Whether `buffer` starts with a well-formed sequence of `size` bytes
(`utf8_check_full`): continuation bytes after the first, a code point of at most
`0x10FFFF` that is no surrogate, and no overlong form. -/
def utf8_check_full (buffer : List Nat) (size : Nat) : Bool :=
  match buffer with
  | [] => false
  | u :: rest =>
    if size < 2 ∨ 4 < size then false
    else
      let conts := rest.take (size - 1)
      if conts.any (fun c => decide (c < 128 ∨ 191 < c)) then false
      else
        let value := conts.foldl (fun v c => v * 64 + c % 64)
          (if size = 2 then u % 32 else if size = 3 then u % 16 else u % 8)
        if 1114111 < value then false
        else if 55296 ≤ value ∧ value ≤ 57343 then false
        else if (size = 2 ∧ value < 128) ∨ (size = 3 ∧ value < 2048) ∨
            (size = 4 ∧ value < 65536) then false
        else true

/-- The loop of `utf8_check_string` over the bytes still to be read; `fuel` is at
least their number. -/
def utf8_check_loop : Nat → List Nat → Bool
  | _, [] => true
  | 0, _ :: _ => false
  | fuel + 1, u :: rest =>
    let count := utf8_check_first u
    if count = 0 then false
    else if 1 < count then
      if (u :: rest).length < count then false
      else if utf8_check_full (u :: rest) count then utf8_check_loop fuel (rest.drop (count - 1))
      else false
    else utf8_check_loop fuel rest

/-- The jansson function `utf8_check_string`: whether a C string is valid UTF-8. -/
def utf8_check_string (string : List Char) : Bool :=
  utf8_check_loop string.length (string.map byte_of_char)

/-- The jansson function `json_string`: a string value, `NULL` for a text that is
not valid UTF-8. -/
def json_string (value : List Char) : Option json_t :=
  if utf8_check_string value then some (JSON_STRING value) else none

/-- The jansson function `json_integer`. -/
def json_integer (value : Int) : Option json_t := some (JSON_INTEGER value)

/-- The jansson function `json_object_set_new`: the return value and the object
afterwards.  It fails (`-1`) for a key that is not valid UTF-8, for a `NULL`
value and for a first argument that is not an object. -/
def json_object_set_new (json : Option json_t) (key : List Char) (value : Option json_t) :
    Int × Option json_t :=
  if utf8_check_string key then
    match value, json with
    | some v, some (JSON_OBJECT members) =>
      (0, some (JSON_OBJECT (json_members_set members key v)))
    | _, _ => (-1, json)
  else (-1, json)

/-- The jansson function `json_object_del`: the return value and the object
afterwards.  It fails (`-1`) when the key is not there or the first argument is
not an object. -/
def json_object_del (json : Option json_t) (key : List Char) : Int × Option json_t :=
  match json with
  | some (JSON_OBJECT members) =>
    if (members.lookup key).isSome then
      (0, some (JSON_OBJECT (members.filter (fun m => decide (m.1 ≠ key)))))
    else (-1, json)
  | _ => (-1, json)

/-- The jansson function `json_object_update`: every entry of `other` is stored
in `object`.  It fails (`-1`) unless both arguments are objects. -/
def json_object_update (object other : Option json_t) : Int × Option json_t :=
  match object, other with
  | some (JSON_OBJECT members), some (JSON_OBJECT others) =>
    (0, some (JSON_OBJECT (others.foldl (fun ms m => json_members_set ms m.1 m.2) members)))
  | _, _ => (-1, object)

/-- The jansson function `json_deep_copy`: a value is its own copy; `NULL` for
`NULL`. -/
def json_deep_copy (json : Option json_t) : Option json_t := json

/-- The jansson macro `json_is_object`. -/
def json_is_object : json_t → Bool
  | JSON_OBJECT _ => true
  | _ => false

/-- The jansson macro `json_is_array`. -/
def json_is_array : json_t → Bool
  | JSON_ARRAY _ => true
  | _ => false

/-! ## Copying a token and the claim store -/

/-- The function `jwt_dup` on a token that is not `NULL`: the value of `errno`
and the token returned (`none` is `NULL`).  The copy starts zero-filled; the key
is copied when `key_len` is not zero, which reads `key_len` bytes from `jwt->key`
and is undefined when that pointer is `NULL`; the claims are copied with
`json_deep_copy`.  No statement of the function stores `alg`. -/
def jwt_dup (jwt : jwt_t) : Option (Int × Option jwt_t) :=
  let new : jwt_t := { alg := JWT_ALG_NONE, key := none, key_len := 0, grants := none }
  let copied : Option (Option jwt_t) :=
    if jwt.key_len ≠ 0 then
      if jwt.key_len < 0 then some none
      else
        match jwt.key with
        | none => none
        | some k =>
          some (some { new with key := some (k.take jwt.key_len.toNat), key_len := jwt.key_len })
    else some (some new)
  match copied with
  | none => none
  | some none => some (ENOMEM, none)
  | some (some new) =>
    match json_deep_copy jwt.grants with
    | none => some (ENOMEM, none)
    | some g => some (0, some { new with grants := some g })

/-- The function `jwt_get_grant` on a token that is not `NULL`: the value of
`errno` and the string returned. -/
def jwt_get_grant (E : Libs) (jwt : jwt_t) (grant : Option (List Char)) :
    Int × Option (List Char) :=
  match grant with
  | none => (EINVAL, none)
  | some g =>
    if g.length = 0 then (EINVAL, none)
    else (0, get_js_string E jwt.grants g)

/-- The function `jwt_get_grant_int` on a token that is not `NULL`: the value of
`errno` and the number returned. -/
def jwt_get_grant_int (jwt : jwt_t) (grant : Option (List Char)) : Int × Int :=
  match grant with
  | none => (EINVAL, 0)
  | some g =>
    if g.length = 0 then (EINVAL, 0)
    else (0, get_js_int jwt.grants g)

/-- The function `jwt_add_grant` on a token that is not `NULL`: the return value
and the token afterwards. -/
def jwt_add_grant (E : Libs) (jwt : jwt_t) (grant val : Option (List Char)) : Int × jwt_t :=
  match grant, val with
  | some g, some v =>
    if g.length = 0 then (EINVAL, jwt)
    else if (get_js_string E jwt.grants g).isSome then (EEXIST, jwt)
    else
      match json_object_set_new jwt.grants g (json_string v) with
      | (ret, grants) => (if ret ≠ 0 then EINVAL else 0, { jwt with grants := grants })
  | _, _ => (EINVAL, jwt)

/-- The function `jwt_add_grant_int` on a token that is not `NULL`. -/
def jwt_add_grant_int (jwt : jwt_t) (grant : Option (List Char)) (val : Int) : Int × jwt_t :=
  match grant with
  | none => (EINVAL, jwt)
  | some g =>
    if g.length = 0 then (EINVAL, jwt)
    else if get_js_int jwt.grants g ≠ -1 then (EEXIST, jwt)
    else
      match json_object_set_new jwt.grants g (json_integer val) with
      | (ret, grants) => (if ret ≠ 0 then EINVAL else 0, { jwt with grants := grants })

/-- The function `jwt_add_grants_json` on a token that is not `NULL`; `json_loads`
returns `NULL` for a `NULL` text. -/
def jwt_add_grants_json (E : Libs) (jwt : jwt_t) (json : Option (List Char)) : Int × jwt_t :=
  match json.bind (fun text => E.json_loads text JSON_REJECT_DUPLICATES) with
  | none => (EINVAL, jwt)
  | some grants =>
    match json_object_update jwt.grants (some grants) with
    | (ret, g) => (if ret ≠ 0 then EINVAL else 0, { jwt with grants := g })

/-- The function `jwt_del_grant` on a token that is not `NULL`; the return value
of `json_object_del` is not looked at. -/
def jwt_del_grant (jwt : jwt_t) (grant : Option (List Char)) : Int × jwt_t :=
  match grant with
  | none => (EINVAL, jwt)
  | some g =>
    if g.length = 0 then (EINVAL, jwt)
    else (0, { jwt with grants := (json_object_del jwt.grants g).2 })

/-! ## Releasing the key buffer

The key buffer of a token is released at one place of the file, the call
`free(jwt->key)` in `jwt_scrub_key`.  What is observed of a release is the
content of the buffer at that call. -/

/-- The call `free(jwt->key)` in `jwt_scrub_key`: the content of the buffer at the
call, `none` inside when the token has no key buffer, so that nothing is
released.  Before the call `memset(jwt->key, 0, jwt->key_len)` has stored zero in
the first `key_len` bytes of the buffer; a `key_len` that is negative or larger
than the buffer takes that store outside it, which is undefined. -/
def jwt_scrub_key_free (jwt : jwt_t) : Option (Option (List Nat)) :=
  match jwt.key with
  | none => some none
  | some k =>
    if jwt.key_len < 0 ∨ (k.length : Int) < jwt.key_len then none
    else some (some (List.replicate jwt.key_len.toNat 0 ++ k.drop jwt.key_len.toNat))

/-- The function `jwt_free`, as far as the key buffer goes: nothing for `NULL`,
otherwise what its call of `jwt_scrub_key` releases. -/
def jwt_free (jwt : Option jwt_t) : Option (Option (List Nat)) :=
  match jwt with
  | none => some none
  | some j => jwt_scrub_key_free j

/-- The key buffer that `jwt_set_alg` releases: that of the call of
`jwt_scrub_key` with which it starts, whatever the arguments. -/
def jwt_set_alg_free (jwt : jwt_t) (_alg : Int) (_key : Option (List Nat)) (_len : Int) :
    Option (Option (List Nat)) :=
  jwt_scrub_key_free jwt

/-- The function `jwt_decode` up to its label `decode_done`: the value of `ret`
and the token `new` there (`none` inside is `NULL`, when no token has been made
yet). -/
def jwt_decode_new (E : Libs) (token : List Char) (key : List Nat) (key_len : Int) :
    Option (Int × Option jwt_t) :=
  match find_dot token with
  | none => some (EINVAL, none)
  | some (head, rest) =>
    match find_dot rest with
    | none => some (EINVAL, none)
    | some (body, sig) =>
      let new := jwt_new
      if key_len < 0 then some (0, some new)
      else
        let new :=
          if key_len ≠ 0 then
            { new with key := some (key.take key_len.toNat), key_len := key_len }
          else new
        match jwt_verify_head E new head with
        | (ret, new) =>
          if ret ≠ 0 then some (ret, some new)
          else
            match jwt_parse_body E new body with
            | (ret, new) =>
              if ret ≠ 0 then some (ret, some new)
              else
                let ret : Option Int :=
                  if new.alg ≠ JWT_ALG_NONE then
                    jwt_verify_signature E new (head ++ '.' :: body) sig
                  else if key_len > 0 then some EINVAL
                  else some 0
                match ret with
                | none => none
                | some ret => some (ret, some new)

/-- The key buffer that `jwt_decode` releases: at `decode_done` a `ret` other than
zero leads to `jwt_free(new)`; with `ret` zero the token is handed to the caller and
nothing is released. -/
def jwt_decode_free (E : Libs) (token : List Char) (key : List Nat) (key_len : Int) :
    Option (Option (List Nat)) :=
  match jwt_decode_new E token key key_len with
  | none => none
  | some (ret, new) => if ret ≠ 0 then jwt_free new else some none


/-! ## The wire format as the specification words it -/

/-- The URL-safe alphabet of RFC 4648, section 5. -/
def b64url_alphabet : List Char :=
  "ABCDEFGHIJKLMNOPQRSTUVWXYZabcdefghijklmnopqrstuvwxyz0123456789-_".toList

/-- The URL-safe character of a six-bit group. -/
def b64url_char (n : Nat) : Char := b64url_alphabet.getD (n % 64) 'A'

/-- Unpadded base64url of a byte string, written from RFC 4648, section 5: the
`B64U` of the specification. -/
def B64U : List Nat → List Char
  | a :: b :: c :: rest =>
    b64url_char (a / 4) :: b64url_char (a % 4 * 16 + b / 16) ::
      b64url_char (b % 16 * 4 + c / 64) :: b64url_char (c % 64) :: B64U rest
  | [a, b] => [b64url_char (a / 4), b64url_char (a % 4 * 16 + b / 16), b64url_char (b % 16 * 4)]
  | [a] => [b64url_char (a / 4), b64url_char (a % 4 * 16)]
  | [] => []

/-- The substitution that turns the standard alphabet into the URL-safe one. -/
def uri_subst (c : Char) : Char := if c = '+' then '-' else if c = '/' then '_' else c

/-- The header JSON of the specification: the unsecured layout for `none`, the
secured layout with the canonical label otherwise. -/
def spec_header (alg : jwt_alg_t) : List Char :=
  if alg = JWT_ALG_NONE then "\x7b\"alg\":\"none\"\x7d".toList
  else "\x7b\"typ\":\"JWT\",\"alg\":\"".toList ++ jwt_alg_str alg ++ "\"\x7d".toList

/-- The digest that `jwt_sign` selects for an HMAC algorithm. -/
def hmac_md : jwt_alg_t → Option EVP_MD
  | JWT_ALG_HS256 => some EVP_sha256
  | JWT_ALG_HS384 => some EVP_sha384
  | JWT_ALG_HS512 => some EVP_sha512
  | _ => none

/-- The conversion to base64url in the words of the specification: every `'='`
is deleted wherever it stands, `'+'` and `'/'` are replaced, the other characters
keep their order. -/
def spec_base64uri_encode (s : List Char) : List Char :=
  (s.filter (fun c => decide (c ≠ '='))).map uri_subst

/-! # Theorems -/

/-! ## Characters and C strings -/

/-- Two characters with the same code are the same character. -/
theorem char_toNat_inj (a b : Char) (h : a.toNat = b.toNat) : a = b := by
  have := congrArg Char.ofNat h
  simpa using this

/-- The code of the character made from a number below the surrogate range. -/
theorem char_toNat_ofNat (n : Nat) (h : n < 55296) : (Char.ofNat n).toNat = n := by
  have hv : n.isValidChar := Or.inl h
  simp [Char.ofNat, hv, Char.ofNatAux, Char.toNat, UInt32.toNat]

/-- Only NUL folds to NUL. -/
theorem tolower_toNat_zero (c : Char) (h : (tolower c).toNat = 0) : c.toNat = 0 := by
  unfold tolower at h
  split at h
  · rename_i hc
    rw [char_toNat_ofNat _ (by omega)] at h
    omega
  · exact h

/-- Where `strcasecmp` is zero on two non-empty strings, their first characters fold
to the same character and it is zero on the rest. -/
theorem strcasecmp_cons_eq_zero (c d : Char) (r s : List Char)
    (h : strcasecmp (c :: r) (d :: s) = 0) : tolower c = tolower d ∧ strcasecmp r s = 0 := by
  unfold strcasecmp at h
  by_cases hc : tolower c = tolower d
  · simp only [hc, if_true] at h
    exact ⟨hc, h⟩
  · simp only [hc, if_false] at h
    exact absurd (char_toNat_inj _ _ (by omega)) hc

/-- A string compares equal to itself under `strcasecmp`. -/
theorem strcasecmp_self (a : List Char) : strcasecmp a a = 0 := by
  induction a with
  | nil => rfl
  | cons c r ih => simp [strcasecmp, ih]

/-- Two strings without NUL that `strcasecmp` both equates with a third agree
after case folding. -/
theorem strcasecmp_fold (a x y : List Char) (hx : ∀ c ∈ x, c.toNat ≠ 0)
    (hy : ∀ c ∈ y, c.toNat ≠ 0) (h1 : strcasecmp a x = 0) (h2 : strcasecmp a y = 0) :
    x.map tolower = y.map tolower := by
  induction a generalizing x y with
  | nil =>
    cases x with
    | nil =>
      cases y with
      | nil => rfl
      | cons e u =>
        simp only [strcasecmp] at h2
        exact absurd (tolower_toNat_zero e (by omega)) (hy e (by simp))
    | cons d s =>
      simp only [strcasecmp] at h1
      exact absurd (tolower_toNat_zero d (by omega)) (hx d (by simp))
  | cons c r ih =>
    cases x with
    | nil =>
      simp only [strcasecmp] at h1
      have hc : (tolower c).toNat = 0 := by omega
      cases y with
      | nil => rfl
      | cons e u =>
        have := (strcasecmp_cons_eq_zero c e r u h2).1
        rw [this] at hc
        exact absurd (tolower_toNat_zero e hc) (hy e (by simp))
    | cons d s =>
      have h1' := strcasecmp_cons_eq_zero c d r s h1
      cases y with
      | nil =>
        simp only [strcasecmp] at h2
        have hc : (tolower c).toNat = 0 := by omega
        rw [h1'.1] at hc
        exact absurd (tolower_toNat_zero d hc) (hx d (by simp))
      | cons e u =>
        have h2' := strcasecmp_cons_eq_zero c e r u h2
        simp only [List.map_cons]
        rw [← h1'.1, ← h2'.1, ih s u (fun c hc => hx c (by simp [hc]))
          (fun c hc => hy c (by simp [hc])) h1'.2 h2'.2]

/-- A string compares equal to itself under `strcmp`. -/
theorem strcmp_self (a : List Char) : strcmp a a = 0 := by
  induction a with
  | nil => rfl
  | cons c r ih => simp [strcmp, ih]

/-- On strings without NUL, `strcmp` is zero exactly for equal strings. -/
theorem strcmp_eq_zero_iff (a b : List Char) (ha : ∀ c ∈ a, c.toNat ≠ 0)
    (hb : ∀ c ∈ b, c.toNat ≠ 0) : strcmp a b = 0 ↔ a = b := by
  constructor
  · intro h
    induction a generalizing b with
    | nil =>
      cases b with
      | nil => rfl
      | cons d s =>
        simp only [strcmp] at h
        exact absurd (by omega) (hb d (by simp))
    | cons c r ih =>
      cases b with
      | nil =>
        simp only [strcmp] at h
        exact absurd (by omega) (ha c (by simp))
      | cons d s =>
        simp only [strcmp] at h
        by_cases hcd : c = d
        · simp only [hcd, if_true] at h
          rw [hcd, ih s (fun x hx => ha x (by simp [hx])) (fun x hx => hb x (by simp [hx])) h]
        · simp only [hcd, if_false] at h
          exact absurd (char_toNat_inj _ _ (by omega)) hcd
  · intro h
    rw [h]
    exact strcmp_self b


/-! ## Algorithm labels -/

/-- No label of `jwt_alg_str` contains NUL. -/
theorem jwt_alg_str_no_nul (a : jwt_alg_t) : ∀ c ∈ jwt_alg_str a, c.toNat ≠ 0 := by
  cases a <;> decide

/-- The labels of distinct tags differ after case folding. -/
theorem jwt_alg_str_fold_inj (a b : jwt_alg_t)
    (h : (jwt_alg_str a).map tolower = (jwt_alg_str b).map tolower) : a = b := by
  cases a <;> cases b <;> first | rfl | (exact absurd h (by decide))

/-- The function `jwt_str_alg` on a string that folds to the label of `a`: it
succeeds and stores `a`. -/
theorem jwt_str_alg_label (jwt : jwt_t) (val : List Char) (a : jwt_alg_t)
    (h : strcasecmp val (jwt_alg_str a) = 0) :
    jwt_str_alg jwt (some val) = (0, { jwt with alg := a }) := by
  have key : ∀ b, strcasecmp val (jwt_alg_str b) = 0 → b = a := fun b hb =>
    jwt_alg_str_fold_inj b a
      (strcasecmp_fold val _ _ (jwt_alg_str_no_nul b) (jwt_alg_str_no_nul a) hb h)
  have k0 := key JWT_ALG_NONE
  have k1 := key JWT_ALG_HS256
  have k2 := key JWT_ALG_HS384
  have k3 := key JWT_ALG_HS512
  have k4 := key JWT_ALG_RS256
  simp only [jwt_alg_str] at k0 k1 k2 k3 k4
  unfold jwt_str_alg
  cases a <;> simp only [jwt_alg_str] at h
  · simp only [h, if_true]
  · have n0 : strcasecmp val "none".toList ≠ 0 := fun e => by cases k0 e
    simp only [n0, h, if_true, if_false]
  · have n0 : strcasecmp val "none".toList ≠ 0 := fun e => by cases k0 e
    have n1 : strcasecmp val "HS256".toList ≠ 0 := fun e => by cases k1 e
    simp only [n0, n1, h, if_true, if_false]
  · have n0 : strcasecmp val "none".toList ≠ 0 := fun e => by cases k0 e
    have n1 : strcasecmp val "HS256".toList ≠ 0 := fun e => by cases k1 e
    have n2 : strcasecmp val "HS384".toList ≠ 0 := fun e => by cases k2 e
    simp only [n0, n1, n2, h, if_true, if_false]
  · have n0 : strcasecmp val "none".toList ≠ 0 := fun e => by cases k0 e
    have n1 : strcasecmp val "HS256".toList ≠ 0 := fun e => by cases k1 e
    have n2 : strcasecmp val "HS384".toList ≠ 0 := fun e => by cases k2 e
    have n3 : strcasecmp val "HS512".toList ≠ 0 := fun e => by cases k3 e
    simp only [n0, n1, n2, n3, h, if_true, if_false]

/-- What `jwt_str_alg` can do: fail and leave the token alone, or succeed and
store a tag, which is `JWT_ALG_NONE` exactly for a label that folds to "none". -/
theorem jwt_str_alg_cases (jwt : jwt_t) (val : List Char) :
    jwt_str_alg jwt (some val) = (EINVAL, jwt) ∨
    ∃ a, jwt_str_alg jwt (some val) = (0, { jwt with alg := a }) ∧
      (a = JWT_ALG_NONE ↔ strcasecmp val "none".toList = 0) := by
  unfold jwt_str_alg
  by_cases h0 : strcasecmp val "none".toList = 0
  · right; exact ⟨JWT_ALG_NONE, by simp only [h0, if_true], by simp only [h0]⟩
  · by_cases h1 : strcasecmp val "HS256".toList = 0
    · right
      exact ⟨JWT_ALG_HS256, by simp only [h0, h1, if_true, if_false], by simp only [h0]; decide⟩
    · by_cases h2 : strcasecmp val "HS384".toList = 0
      · right
        exact ⟨JWT_ALG_HS384, by simp only [h0, h1, h2, if_true, if_false],
          by simp only [h0]; decide⟩
      · by_cases h3 : strcasecmp val "HS512".toList = 0
        · right
          exact ⟨JWT_ALG_HS512, by simp only [h0, h1, h2, h3, if_true, if_false],
            by simp only [h0]; decide⟩
        · by_cases h4 : strcasecmp val "RS256".toList = 0
          · right
            exact ⟨JWT_ALG_RS256, by simp only [h0, h1, h2, h3, h4, if_true, if_false],
              by simp only [h0]; decide⟩
          · left; simp only [h0, h1, h2, h3, h4, if_false]


/-! ## The header check -/

/-- What the scan of `jwt_decode` finds before the first separator is the longest
prefix of the token without `'.'`. -/
theorem find_dot_takeWhile (t head rest : List Char) (h : find_dot t = some (head, rest)) :
    head = t.takeWhile (fun c => c ≠ '.') := by
  induction t generalizing head rest with
  | nil => simp [find_dot] at h
  | cons c t ih =>
    by_cases hc : c = '.'
    · simp [find_dot, hc] at h
      simp [hc, h.1]
    · simp only [find_dot, hc, if_false] at h
      cases hf : find_dot t with
      | none => simp [hf] at h
      | some p =>
        obtain ⟨seg, tail⟩ := p
        simp [hf] at h
        have := ih seg tail hf
        simp [List.takeWhile, hc, ← h.1, this]

/-- The scan of `jwt_decode` on a segment without `'.'` followed by a separator. -/
theorem find_dot_append (head rest : List Char) (h : '.' ∉ head) :
    find_dot (head ++ '.' :: rest) = some (head, rest) := by
  induction head with
  | nil => simp [find_dot]
  | cons c t ih =>
    have hc : c ≠ '.' := fun e => h (by simp [e])
    have ht : '.' ∉ t := fun e => h (by simp [e])
    simp [find_dot, hc, ih ht]

/-- A header that declares "none" in any letter case: `jwt_verify_head` stores
`JWT_ALG_NONE` and fails exactly when the token carries a key. -/
theorem jwt_verify_head_none (E : Libs) (jwt : jwt_t) (head : List Char) (js : json_t)
    (val : List Char) (hjs : jwt_b64_decode E head = some js)
    (halg : get_js_string E (some js) "alg".toList = some val)
    (hnone : strcasecmp val "none".toList = 0) :
    jwt_verify_head E jwt head =
      (if jwt.key.isSome then EINVAL else 0, { jwt with alg := JWT_ALG_NONE }) := by
  unfold jwt_verify_head jwt_str_alg
  simp only [hjs, halg, hnone, if_true]
  by_cases hkey : jwt.key.isSome <;> simp [hkey]

/-- A header that declares anything but "none" and has no acceptable "typ":
`jwt_verify_head` fails. -/
theorem jwt_verify_head_typ (E : Libs) (jwt : jwt_t) (head : List Char) (js : json_t)
    (val : List Char) (hjs : jwt_b64_decode E head = some js)
    (halg : get_js_string E (some js) "alg".toList = some val)
    (hnone : strcasecmp val "none".toList ≠ 0)
    (htyp : ∀ t, get_js_string E (some js) "typ".toList = some t →
      strcasecmp t "JWT".toList ≠ 0) :
    (jwt_verify_head E jwt head).1 = EINVAL := by
  unfold jwt_verify_head
  simp only [hjs, halg]
  rcases jwt_str_alg_cases jwt val with h | ⟨a, h, ha⟩
  · simp [h, EINVAL]
  · have hne : a ≠ JWT_ALG_NONE := fun e => hnone (ha.1 e)
    simp only [h]
    cases ht : get_js_string E (some js) "typ".toList with
    | none =>
      simp only [ne_eq, not_true_eq_false, if_false, hne, not_false_eq_true, if_true]
      split_ifs <;> rfl
    | some t =>
      have := htyp t ht
      simp only [ne_eq, not_true_eq_false, if_false, hne, not_false_eq_true, if_true, this]
      split_ifs <;> rfl

/-- A header that declares the label of a signed algorithm `a` and carries
"typ" equal to "JWT" up to case: `jwt_verify_head` stores `a` when the token has a
key of positive length, fails when the key length is not positive, and scrubs
the token, algorithm included, when it has no key. -/
theorem jwt_verify_head_signed (E : Libs) (jwt : jwt_t) (head : List Char) (js : json_t)
    (val t : List Char) (a : jwt_alg_t)
    (hjs : jwt_b64_decode E head = some js)
    (halg : get_js_string E (some js) "alg".toList = some val)
    (hval : strcasecmp val (jwt_alg_str a) = 0) (ha : a ≠ JWT_ALG_NONE)
    (htyp : get_js_string E (some js) "typ".toList = some t)
    (ht : strcasecmp t "JWT".toList = 0) :
    jwt_verify_head E jwt head =
      if jwt.key.isSome then
        (if ¬ (jwt.key_len > 0) then EINVAL else 0, { jwt with alg := a })
      else (0, jwt_scrub_key { jwt with alg := a }) := by
  unfold jwt_verify_head
  simp only [hjs, halg, jwt_str_alg_label jwt val a hval, htyp, ht]
  simp only [ne_eq, not_true_eq_false, if_false, ha, not_false_eq_true, if_true]


/-! ## Base64 through the sinks -/

/-- Encoding whole groups of three bytes does not depend on what follows them. -/
theorem EVP_EncodeBlock_append (xs ys : List Nat) (h : xs.length % 3 = 0) :
    EVP_EncodeBlock (xs ++ ys) = EVP_EncodeBlock xs ++ EVP_EncodeBlock ys := by
  induction xs using EVP_EncodeBlock.induct with
  | case1 a b c rest ih =>
    have : rest.length % 3 = 0 := by simp at h; omega
    simp [EVP_EncodeBlock, ih this]
  | case2 a b => simp at h
  | case3 a => simp at h
  | case4 => simp [EVP_EncodeBlock]

/-- Two writes through the base64 filter act as one write of the concatenation. -/
theorem b64_write_write (c : BIO_chain) (d1 d2 : List Nat) :
    b64_write (b64_write c d1) d2 = b64_write c (d1 ++ d2) := by
  unfold b64_write
  simp only []
  generalize hall : c.tmp ++ d1 = all
  have e : c.tmp ++ (d1 ++ d2) = all ++ d2 := by rw [← hall, List.append_assoc]
  rw [e]
  set n1 := all.length - all.length % 3 with hn1
  have hn1le : n1 ≤ all.length := Nat.sub_le _ _
  have hn1mod : n1 % 3 = 0 := by omega
  have hdl : (List.drop n1 all ++ d2).length = all.length - n1 + d2.length := by simp
  have htl : (List.take n1 all).length = n1 := by simp [hn1le]
  set n2 := (List.drop n1 all ++ d2).length - (List.drop n1 all ++ d2).length % 3 with hn2
  have hsum : (all ++ d2).length - (all ++ d2).length % 3 = n1 + n2 := by
    simp only [List.length_append] at hn2 ⊢
    simp only [List.length_drop] at hn2
    omega
  rw [hsum]
  have hsplit : all ++ d2 = List.take n1 all ++ (List.drop n1 all ++ d2) := by
    rw [← List.append_assoc, List.take_append_drop]
  have htake : List.take (n1 + n2) (all ++ d2) =
      List.take n1 all ++ List.take n2 (List.drop n1 all ++ d2) := by
    conv_lhs => rw [hsplit]
    rw [List.take_append_eq_append_take, htl]
    simp [List.take_of_length_le (show (List.take n1 all).length ≤ n1 + n2 by omega)]
  have hdrop : List.drop (n1 + n2) (all ++ d2) = List.drop n2 (List.drop n1 all ++ d2) := by
    conv_lhs => rw [hsplit]
    rw [List.drop_append_eq_append_drop, htl]
    simp [List.drop_of_length_le (show (List.take n1 all).length ≤ n1 + n2 by omega)]
  rw [htake, hdrop, EVP_EncodeBlock_append _ _ (by rw [htl]; exact hn1mod), List.append_assoc]

/-- A write through an idle base64 filter followed by a flush leaves the padded
base64 of the bytes in the memory buffer. -/
theorem b64_write_flush (c : BIO_chain) (d : List Nat) (h : c.tmp = []) :
    BIO_flush (b64_write c d) BIO_handle.b64 =
      { tmp := [], mem := c.mem ++ EVP_EncodeBlock d } := by
  unfold BIO_flush b64_write
  simp only [h, List.nil_append]
  have hm : (List.take (d.length - d.length % 3) d).length % 3 = 0 := by
    simp; omega
  rw [List.append_assoc, ← EVP_EncodeBlock_append _ _ hm, List.take_append_drop]

/-- The base64 text of a byte string that is not empty is not empty. -/
theorem EVP_EncodeBlock_ne_nil (bs : List Nat) (h : bs ≠ []) : EVP_EncodeBlock bs ≠ [] := by
  match bs, h with
  | [a], _ => simp [EVP_EncodeBlock]
  | [a, b], _ => simp [EVP_EncodeBlock]
  | a :: b :: c :: rest, _ => simp [EVP_EncodeBlock]

/-- Reading as many characters as are pending from a memory buffer that is not
empty takes all of them. -/
theorem BIO_read_pending (c : BIO_chain) (h : c.mem ≠ []) :
    BIO_read c (BIO_pending c) = ((c.mem.length : Int), c.mem, { c with mem := [] }) := by
  have hl : 0 < c.mem.length := List.length_pos.mpr h
  unfold BIO_read BIO_pending
  have h1 : ¬ ((c.mem.length : Int) ≥ 0 ∧ (c.mem.length : Int) > (c.mem.length : Int)) := by
    omega
  simp only [h1, if_false]
  have h2 : (c.mem.length : Int) > 0 := by omega
  simp [h2]

/-- Reading from an empty memory buffer returns `-1`. -/
theorem BIO_read_pending_empty (c : BIO_chain) (h : c.mem = []) :
    BIO_read c (BIO_pending c) = (-1, [], c) := by
  unfold BIO_read BIO_pending
  simp [h]


/-! ## The in-place conversion to base64url -/

/-- Over a stretch without `'='` the loop of `base64uri_encode` keeps the write
index level with the read index and substitutes in place. -/
theorem base64uri_loop_no_pad (xs ys pre zs : List Char) (h : '=' ∉ xs) :
    base64uri_loop (xs ++ ys) pre.length (pre ++ xs ++ zs) =
      base64uri_loop ys (pre.length + xs.length) (pre ++ xs.map uri_subst ++ zs) := by
  induction xs generalizing pre with
  | nil => simp
  | cons c r ih =>
    have hc : c ≠ '=' := fun e => h (by simp [e])
    have hr : '=' ∉ r := fun e => h (by simp [e])
    have hset : ∀ d : Char, (pre ++ c :: r ++ zs).set pre.length d = (pre ++ [d]) ++ r ++ zs := by
      intro d
      simp [List.set_append]
    have hlen : (pre ++ [uri_subst c]).length = pre.length + 1 := by simp
    have ih' := ih (pre ++ [uri_subst c]) hr
    rw [hlen] at ih'
    have hfin : base64uri_loop ys (pre.length + 1 + r.length)
          (pre ++ [uri_subst c] ++ r.map uri_subst ++ zs) =
        base64uri_loop ys (pre.length + (c :: r).length)
          (pre ++ (c :: r).map uri_subst ++ zs) := by
      simp [Nat.add_assoc, Nat.add_comm 1]
    rw [← hfin, ← ih', List.cons_append, base64uri_loop]
    by_cases h1 : c = '+'
    · rw [if_pos h1, hset '-']
      simp [uri_subst, h1]
    · by_cases h2 : c = '/'
      · rw [if_neg h1, if_pos h2, hset '_']
        simp [uri_subst, h2]
      · rw [if_neg h1, if_neg h2, if_neg hc]
        simp [uri_subst, h1, h2]

/-- Over a run of `'='` the loop of `base64uri_encode` only reads on. -/
theorem base64uri_loop_pad (ys : List Char) (t : Nat) (buf : List Char)
    (h : ∀ c ∈ ys, c = '=') : base64uri_loop ys t buf = buf.take t := by
  induction ys with
  | nil => rfl
  | cons c r ih =>
    have hc : c = '=' := h c (by simp)
    subst hc
    rw [base64uri_loop, if_neg (by decide), if_neg (by decide), if_pos rfl]
    exact ih (fun x hx => h x (by simp [hx]))

/-- Where `'='` occurs only as a trailing run, `base64uri_encode` substitutes
the two characters and drops the run. -/
theorem base64uri_encode_trailing (xs pad : List Char) (h : '=' ∉ xs)
    (hp : ∀ c ∈ pad, c = '=') : base64uri_encode (xs ++ pad) = xs.map uri_subst := by
  unfold base64uri_encode
  have := base64uri_loop_no_pad xs pad [] pad h
  simp only [List.nil_append, List.length_nil, Nat.zero_add] at this
  rw [this, base64uri_loop_pad _ _ _ hp]
  simp

/-- No character of the base64 alphabet is the padding character. -/
theorem conv_bin2ascii_ne_pad (n : Nat) : conv_bin2ascii n ≠ '=' := by
  unfold conv_bin2ascii
  have h : n % 64 < 64 := Nat.mod_lt _ (by decide)
  generalize n % 64 = i at h
  interval_cases i <;> decide

/-- The substitution maps the standard alphabet onto the URL-safe one. -/
theorem uri_subst_conv_bin2ascii (n : Nat) : uri_subst (conv_bin2ascii n) = b64url_char n := by
  unfold conv_bin2ascii b64url_char
  have h : n % 64 < 64 := Nat.mod_lt _ (by decide)
  generalize n % 64 = i at h
  interval_cases i <;> decide

/-- The padded base64 text of `EVP_EncodeBlock` is a body without `'='`, which
the substitution turns into the unpadded base64url of the specification,
followed by a run of `'='` that is empty for whole groups of three bytes. -/
theorem EVP_EncodeBlock_split (bs : List Nat) :
    ∃ body pad, EVP_EncodeBlock bs = body ++ pad ∧ '=' ∉ body ∧ (∀ c ∈ pad, c = '=') ∧
      body.map uri_subst = B64U bs ∧ (bs.length % 3 = 0 → pad = []) := by
  induction bs using EVP_EncodeBlock.induct with
  | case1 a b c rest ih =>
    obtain ⟨body, pad, he, hb, hp, hm, hz⟩ := ih
    refine ⟨conv_bin2ascii (a / 4) :: conv_bin2ascii (a % 4 * 16 + b / 16) ::
      conv_bin2ascii (b % 16 * 4 + c / 64) :: conv_bin2ascii (c % 64) :: body, pad, ?_, ?_, hp,
      ?_, ?_⟩
    · simp [EVP_EncodeBlock, he]
    · simp only [List.mem_cons, not_or]
      exact ⟨(conv_bin2ascii_ne_pad _).symm, (conv_bin2ascii_ne_pad _).symm,
        (conv_bin2ascii_ne_pad _).symm, (conv_bin2ascii_ne_pad _).symm, hb⟩
    · simp [B64U, uri_subst_conv_bin2ascii, hm]
    · intro h; apply hz; simp at h; omega
  | case2 a b =>
    refine ⟨[conv_bin2ascii (a / 4), conv_bin2ascii (a % 4 * 16 + b / 16),
      conv_bin2ascii (b % 16 * 4)], ['='], ?_, ?_, ?_, ?_, ?_⟩
    · simp [EVP_EncodeBlock]
    · simp only [List.mem_cons, List.not_mem_nil, or_false, not_or]
      exact ⟨(conv_bin2ascii_ne_pad _).symm, (conv_bin2ascii_ne_pad _).symm,
        (conv_bin2ascii_ne_pad _).symm⟩
    · simp
    · simp [B64U, uri_subst_conv_bin2ascii]
    · intro h; simp at h
  | case3 a =>
    refine ⟨[conv_bin2ascii (a / 4), conv_bin2ascii (a % 4 * 16)], ['=', '='],
      ?_, ?_, ?_, ?_, ?_⟩
    · simp [EVP_EncodeBlock]
    · simp only [List.mem_cons, List.not_mem_nil, or_false, not_or]
      exact ⟨(conv_bin2ascii_ne_pad _).symm, (conv_bin2ascii_ne_pad _).symm⟩
    · simp
    · simp [B64U, uri_subst_conv_bin2ascii]
    · intro h; simp at h
  | case4 =>
    exact ⟨[], [], by simp [EVP_EncodeBlock], by simp, by simp, by simp [B64U], by simp⟩

/-- The code's two steps, padded base64 and then `base64uri_encode`, give the
unpadded base64url of the specification. -/
theorem base64uri_encode_EVP_EncodeBlock (bs : List Nat) :
    base64uri_encode (EVP_EncodeBlock bs) = B64U bs := by
  obtain ⟨body, pad, he, hb, hp, hm, _⟩ := EVP_EncodeBlock_split bs
  rw [he, base64uri_encode_trailing body pad hb hp, hm]

/-- The first two segments as `jwt_encode_bio` emits them, for a header whose
base64 text carries no padding. -/
theorem base64uri_encode_first (hdr serial : List Nat) (h : hdr.length % 3 = 0) :
    base64uri_encode (EVP_EncodeBlock hdr ++ ".".toList ++ EVP_EncodeBlock serial) =
      B64U hdr ++ ".".toList ++ B64U serial := by
  obtain ⟨b1, p1, he1, hb1, _, hm1, hz1⟩ := EVP_EncodeBlock_split hdr
  obtain ⟨b2, p2, he2, hb2, hp2, hm2, _⟩ := EVP_EncodeBlock_split serial
  have hp1 := hz1 h
  subst hp1
  rw [he1, he2, List.append_nil, ← List.append_assoc]
  rw [base64uri_encode_trailing (b1 ++ ".".toList ++ b2) p2 _ hp2]
  · simp only [List.map_append, hm1, hm2]
    rfl
  · intro hmem
    simp only [List.mem_append] at hmem
    rcases hmem with (h1 | h1) | h1
    · exact hb1 h1
    · exact absurd h1 (by decide)
    · exact hb2 h1

/-- A URL-safe character is in the URL-safe alphabet. -/
theorem b64url_char_mem (n : Nat) : b64url_char n ∈ b64url_alphabet := by
  unfold b64url_char
  have h : n % 64 < 64 := Nat.mod_lt _ (by decide)
  generalize n % 64 = i at h
  interval_cases i <;> decide

/-- Every character of an unpadded base64url text is in the URL-safe alphabet. -/
theorem B64U_mem (bs : List Nat) : ∀ c ∈ B64U bs, c ∈ b64url_alphabet := by
  induction bs using B64U.induct with
  | case1 a b c rest ih =>
    intro x hx
    simp only [B64U, List.mem_cons] at hx
    rcases hx with h | h | h | h | h
    · rw [h]; exact b64url_char_mem _
    · rw [h]; exact b64url_char_mem _
    · rw [h]; exact b64url_char_mem _
    · rw [h]; exact b64url_char_mem _
    · exact ih x h
  | case2 a b =>
    intro x hx
    simp only [B64U, List.mem_cons, List.not_mem_nil, or_false] at hx
    rcases hx with h | h | h
    · rw [h]; exact b64url_char_mem _
    · rw [h]; exact b64url_char_mem _
    · rw [h]; exact b64url_char_mem _
  | case3 a =>
    intro x hx
    simp only [B64U, List.mem_cons, List.not_mem_nil, or_false] at hx
    rcases hx with h | h
    · rw [h]; exact b64url_char_mem _
    · rw [h]; exact b64url_char_mem _
  | case4 => intro x hx; simp [B64U] at hx

/-- No unpadded base64url text contains the separator. -/
theorem B64U_no_dot (bs : List Nat) : '.' ∉ B64U bs := fun h =>
  absurd (B64U_mem bs _ h) (by decide)

/-- No unpadded base64url text contains NUL. -/
theorem B64U_no_nul (bs : List Nat) : ∀ c ∈ B64U bs, c.toNat ≠ 0 := by
  intro c hc
  have := B64U_mem bs c hc
  revert c
  have key : ∀ c ∈ b64url_alphabet, c.toNat ≠ 0 := by decide
  intro c _ hm
  exact key c hm

/-- The unpadded base64url of a byte string that is not empty is not empty. -/
theorem B64U_ne_nil (bs : List Nat) (h : bs ≠ []) : B64U bs ≠ [] := by
  match bs, h with
  | [a], _ => simp [B64U]
  | [a, b], _ => simp [B64U]
  | a :: b :: c :: rest, _ => simp [B64U]


/-! ## Header and payload writers -/

/-- The header of the specification, cut as `jwt_write_bio_head` writes it. -/
theorem spec_header_eq (alg : jwt_alg_t) :
    spec_header alg =
      "\x7b".toList ++ ((if alg ≠ JWT_ALG_NONE then "\"typ\":".toList ++ [] ++ "\"JWT\",".toList
        else []) ++ ("\"alg\":".toList ++ [] ++ "\"".toList ++ jwt_alg_str alg ++ "\"".toList ++
        "\x7d".toList)) := by
  cases alg <;> rfl

/-- The secured header is a whole number of groups of three bytes. -/
theorem spec_header_length (a : jwt_alg_t) (md : EVP_MD) (h : hmac_md a = some md) :
    ((spec_header a).map byte_of_char).length % 3 = 0 := by
  cases a <;> simp [hmac_md] at h <;> decide

/-- In compact mode `jwt_write_bio_head` hands the sink the header of the
specification, in pieces. -/
theorem jwt_write_bio_head_b64 (jwt : jwt_t) (bio : BIO_chain) (h : bio.tmp = []) :
    jwt_write_bio_head jwt bio BIO_handle.b64 0 =
      { tmp := [],
        mem := bio.mem ++ EVP_EncodeBlock ((spec_header jwt.alg).map byte_of_char) } := by
  unfold jwt_write_bio_head
  simp only [ne_eq, not_true_eq_false, if_false, BIO_puts]
  rw [spec_header_eq]
  by_cases ha : jwt.alg = JWT_ALG_NONE
  · simp only [ha, not_true_eq_false, if_false, ne_eq]
    rw [b64_write_write, b64_write_write, b64_write_flush _ _ h]
    simp only [List.map_append, List.append_assoc, List.nil_append]
  · simp only [ha, not_false_eq_true, if_true, ne_eq]
    rw [b64_write_write, b64_write_write, b64_write_write, b64_write_flush _ _ h]
    simp only [List.map_append, List.append_assoc, List.nil_append]

/-- In compact mode `jwt_write_bio_head` appends the header of the specification
to a sink without a filter. -/
theorem jwt_write_bio_head_bmem (jwt : jwt_t) (bio : BIO_chain) :
    jwt_write_bio_head jwt bio BIO_handle.bmem 0 =
      { bio with mem := bio.mem ++ spec_header jwt.alg } := by
  unfold jwt_write_bio_head
  simp only [ne_eq, not_true_eq_false, if_false, BIO_puts, BIO_flush]
  rw [spec_header_eq]
  by_cases ha : jwt.alg = JWT_ALG_NONE
  · simp only [ha, not_true_eq_false, if_false, ne_eq, List.append_assoc, List.nil_append]
  · simp only [ha, not_false_eq_true, if_true, ne_eq, List.append_assoc, List.nil_append]

/-- In compact mode `jwt_write_bio_body` leaves the padded base64 of the sorted,
compact dump of the claims in the memory buffer. -/
theorem jwt_write_bio_body_b64 (E : Libs) (jwt : jwt_t) (bio : BIO_chain) (h : bio.tmp = []) :
    jwt_write_bio_body E jwt bio BIO_handle.b64 0 =
      (jwt.grants.bind (fun g => E.json_dumps g (JSON_SORT_KEYS ||| JSON_COMPACT))).map
        (fun serial =>
          { tmp := [], mem := bio.mem ++ EVP_EncodeBlock (serial.map byte_of_char) }) := by
  unfold jwt_write_bio_body
  simp only [ne_eq, not_true_eq_false, if_false]
  cases hd : jwt.grants.bind (fun g => E.json_dumps g (JSON_SORT_KEYS ||| JSON_COMPACT)) with
  | none => rfl
  | some serial => simp only [Option.map, BIO_puts, b64_write_flush _ _ h]

/-- The state of the sinks in `jwt_encode_bio` when the header, the separator
and the payload have been written. -/
theorem jwt_encode_bio_first (E : Libs) (jwt : jwt_t) :
    jwt_write_bio_body E jwt
        (BIO_puts (jwt_write_bio_head jwt BIO_new BIO_handle.b64 0) BIO_handle.bmem ".".toList)
        BIO_handle.b64 0 =
      (jwt.grants.bind (fun g => E.json_dumps g (JSON_SORT_KEYS ||| JSON_COMPACT))).map
        (fun serial =>
          { tmp := [], mem := EVP_EncodeBlock ((spec_header jwt.alg).map byte_of_char) ++
              ".".toList ++ EVP_EncodeBlock (serial.map byte_of_char) }) := by
  rw [jwt_write_bio_head_b64 jwt BIO_new rfl]
  simp only [BIO_puts, BIO_new, List.nil_append]
  rw [jwt_write_bio_body_b64 E jwt _ rfl]


/-! ## Signing and verifying with HMAC -/

/-- An HMAC algorithm is not the algorithm none. -/
theorem hmac_md_ne_none (a : jwt_alg_t) (md : EVP_MD) (h : hmac_md a = some md) :
    a ≠ JWT_ALG_NONE := by
  intro e; rw [e] at h; simp [hmac_md] at h

/-- For an HMAC algorithm `jwt_sign` is `jwt_sign_sha_hmac` with the digest of that
algorithm. -/
theorem jwt_sign_hmac (E : Libs) (jwt : jwt_t) (out : BIO_chain) (h : BIO_handle)
    (md : EVP_MD) (str : List Char) (hmd : hmac_md jwt.alg = some md) :
    jwt_sign E jwt out h str = jwt_sign_sha_hmac E jwt out h md str := by
  unfold jwt_sign
  cases ha : jwt.alg <;> simp [ha, hmac_md] at hmd ⊢ <;> subst hmd <;> rfl

/-- With a result array too short for the digest, `jwt_sign_sha_hmac` is undefined. -/
theorem jwt_sign_sha_hmac_short (E : Libs) (jwt : jwt_t) (out : BIO_chain) (h : BIO_handle)
    (md : EVP_MD) (str : List Char) (hlen : jwt.key_len < (EVP_MD_size md : Int)) :
    jwt_sign_sha_hmac E jwt out h md str = none := by
  unfold jwt_sign_sha_hmac
  simp only [E.HMAC_length]
  simp [hlen]

/-- With a result array that holds the digest, `jwt_sign_sha_hmac` leaves the padded
base64 of the HMAC in the memory buffer. -/
theorem jwt_sign_sha_hmac_fits (E : Libs) (jwt : jwt_t) (out : BIO_chain)
    (md : EVP_MD) (str : List Char) (hlen : (EVP_MD_size md : Int) ≤ jwt.key_len)
    (ht : out.tmp = []) :
    jwt_sign_sha_hmac E jwt out BIO_handle.b64 md str =
      some (0, { tmp := [], mem := out.mem ++
        EVP_EncodeBlock (E.HMAC md ((jwt.key.getD []).take jwt.key_len.toNat) str) }) := by
  unfold jwt_sign_sha_hmac
  simp only [E.HMAC_length]
  have : ¬ ((EVP_MD_size md : Int) > jwt.key_len) := by omega
  simp only [this, if_false, BIO_write, b64_write_flush _ _ ht]

/-- For an HMAC algorithm `jwt_verify_signature` is `jwt_verify_sha_hmac`. -/
theorem jwt_verify_signature_hmac (E : Libs) (jwt : jwt_t) (md : EVP_MD) (token sig : List Char)
    (hmd : hmac_md jwt.alg = some md) :
    jwt_verify_signature E jwt token sig = jwt_verify_sha_hmac E jwt token sig := by
  unfold jwt_verify_signature
  cases ha : jwt.alg <;> simp [ha, hmac_md] at hmd ⊢

/-- With a result array too short for the digest, `jwt_verify_sha_hmac` is undefined. -/
theorem jwt_verify_sha_hmac_short (E : Libs) (jwt : jwt_t) (md : EVP_MD) (token sig : List Char)
    (hmd : hmac_md jwt.alg = some md) (hlen : jwt.key_len < (EVP_MD_size md : Int)) :
    jwt_verify_sha_hmac E jwt token sig = none := by
  unfold jwt_verify_sha_hmac
  rw [jwt_sign_hmac E jwt _ _ md _ hmd, jwt_sign_sha_hmac_short E jwt _ _ md _ hlen]

/-- The function `jwt_verify_sha_hmac` where the digest fits the result array:
the signature segment is compared with the unpadded base64url of the HMAC of the
signing input; it returns 0 when they agree and is undefined when they differ. -/
theorem jwt_verify_sha_hmac_fits (E : Libs) (jwt : jwt_t) (md : EVP_MD) (token sig : List Char)
    (hmd : hmac_md jwt.alg = some md) (hlen : (EVP_MD_size md : Int) ≤ jwt.key_len)
    (hsig : ∀ c ∈ sig, c.toNat ≠ 0) :
    jwt_verify_sha_hmac E jwt token sig =
      if sig = B64U (E.HMAC md ((jwt.key.getD []).take jwt.key_len.toNat) token)
        then some 0 else none := by
  unfold jwt_verify_sha_hmac
  rw [jwt_sign_hmac E jwt _ _ md _ hmd, jwt_sign_sha_hmac_fits E jwt _ md _ hlen rfl]
  have hne : EVP_EncodeBlock (E.HMAC md ((jwt.key.getD []).take jwt.key_len.toNat) token)
      ≠ [] := by
    apply EVP_EncodeBlock_ne_nil
    intro h0
    have := E.HMAC_length md ((jwt.key.getD []).take jwt.key_len.toNat) token
    rw [h0] at this
    cases md <;> simp [EVP_MD_size] at this
  have hnn : ∀ n : Nat, ¬ ((n : Int) < 0) := fun n => by omega
  simp only [BIO_new, List.nil_append, ne_eq, not_true_eq_false, if_false]
  have hr := BIO_read_pending
    { tmp := [],
      mem := EVP_EncodeBlock (E.HMAC md ((jwt.key.getD []).take jwt.key_len.toNat) token) }
    hne
  simp only [hr]
  simp only [BIO_pending, hnn, if_false, base64uri_encode_EVP_EncodeBlock]
  by_cases he : sig = B64U (E.HMAC md ((jwt.key.getD []).take jwt.key_len.toNat) token)
  · simp [he, strcmp_self]
  · have : strcmp (B64U (E.HMAC md ((jwt.key.getD []).take jwt.key_len.toNat) token)) sig
        ≠ 0 := fun h =>
      he ((strcmp_eq_zero_iff _ _ (B64U_no_nul _) hsig).mp h).symm
    simp [he, this]


/-! ## What holds where the digest fits the result array -/

/-- Where the digest fits the result array, `jwt_encode_str` returns the three
segments of the specification: the signing input `S`, a separator, and the
unpadded base64url of the HMAC of `S`. -/
theorem jwt_encode_str_hmac (E : Libs) (jwt : jwt_t) (md : EVP_MD) (serial : List Char)
    (hmd : hmac_md jwt.alg = some md) (hlen : (EVP_MD_size md : Int) ≤ jwt.key_len)
    (hd : jwt.grants.bind (fun g => E.json_dumps g (JSON_SORT_KEYS ||| JSON_COMPACT)) =
      some serial) :
    jwt_encode_str E jwt = some (some (
      (B64U ((spec_header jwt.alg).map byte_of_char) ++ ".".toList ++
        B64U (serial.map byte_of_char)) ++ ".".toList ++
      B64U (E.HMAC md ((jwt.key.getD []).take jwt.key_len.toNat)
        (B64U ((spec_header jwt.alg).map byte_of_char) ++ ".".toList ++
          B64U (serial.map byte_of_char))))) := by
  unfold jwt_encode_str jwt_encode_bio
  simp only [jwt_encode_bio_first, hd, Option.map]
  rw [BIO_read_pending _ (by simp)]
  have hneg : ¬ ((((EVP_EncodeBlock ((spec_header jwt.alg).map byte_of_char) ++
      ".".toList ++ EVP_EncodeBlock (serial.map byte_of_char)).length : Nat) : Int) < 0) := by
    omega
  simp only [hneg, if_false, jwt_sign_hmac E jwt _ _ md _ hmd]
  rw [jwt_sign_sha_hmac_fits E jwt _ md _ hlen rfl]
  have hne : EVP_EncodeBlock (E.HMAC md ((jwt.key.getD []).take jwt.key_len.toNat)
      (base64uri_encode (EVP_EncodeBlock ((spec_header jwt.alg).map byte_of_char) ++
        ".".toList ++ EVP_EncodeBlock (serial.map byte_of_char)))) ≠ [] := by
    apply EVP_EncodeBlock_ne_nil
    intro h0
    have := E.HMAC_length md ((jwt.key.getD []).take jwt.key_len.toNat)
      (base64uri_encode (EVP_EncodeBlock ((spec_header jwt.alg).map byte_of_char) ++
        ".".toList ++ EVP_EncodeBlock (serial.map byte_of_char)))
    rw [h0] at this
    cases md <;> simp [EVP_MD_size] at this
  simp only [List.nil_append]
  rw [BIO_read_pending _ hne]
  simp only [base64uri_encode_first _ _ (spec_header_length _ md hmd),
    base64uri_encode_EVP_EncodeBlock]
  have hnn : ∀ n : Nat, ¬ ((n : Int) < 0) := fun n => by omega
  simp only [BIO_pending, hnn, and_false, if_false, ne_eq, not_true_eq_false]
  have hr := BIO_read_pending
    { tmp := [], mem := [] ++ B64U ((spec_header jwt.alg).map byte_of_char) ++ ".".toList ++
        B64U (serial.map byte_of_char) ++ ".".toList ++
        B64U (E.HMAC md ((jwt.key.getD []).take jwt.key_len.toNat)
          (B64U ((spec_header jwt.alg).map byte_of_char) ++ ".".toList ++
            B64U (serial.map byte_of_char))) } (by simp)
  simp only [BIO_pending, List.nil_append] at hr
  simp only [List.nil_append, hr, hnn, if_false]

/-- Where the digest fits the result array, `jwt_decode` of a token with an HMAC
header and a parsing payload succeeds when the signature segment is the unpadded
base64url of the HMAC of the bytes before the second separator, and is undefined
when it is not. -/
theorem jwt_decode_hmac_fits (E : Libs) (head body sig : List Char) (key : List Nat)
    (key_len : Int) (js g : json_t) (val t : List Char) (a : jwt_alg_t) (md : EVP_MD)
    (hh : '.' ∉ head) (hb : '.' ∉ body) (hsig : ∀ c ∈ sig, c.toNat ≠ 0)
    (hjs : jwt_b64_decode E head = some js)
    (halg : get_js_string E (some js) "alg".toList = some val)
    (hval : strcasecmp val (jwt_alg_str a) = 0) (hmd : hmac_md a = some md)
    (htyp : get_js_string E (some js) "typ".toList = some t)
    (ht : strcasecmp t "JWT".toList = 0)
    (hg : jwt_b64_decode E body = some g)
    (hlen : (EVP_MD_size md : Int) ≤ key_len) :
    jwt_decode E (head ++ '.' :: (body ++ '.' :: sig)) key key_len =
      if sig = B64U (E.HMAC md (key.take key_len.toNat) (head ++ '.' :: body)) then
        some (0, some
          { alg := a, key := some (key.take key_len.toNat), key_len := key_len, grants := some g })
      else none := by
  have ha := hmac_md_ne_none a md hmd
  have hpos : (0 : Int) < EVP_MD_size md := by cases md <;> simp [EVP_MD_size]
  have hk0 : key_len ≠ 0 := by omega
  have hkp : key_len > 0 := by omega
  have hneg : ¬ key_len < 0 := by omega
  simp only [jwt_decode, find_dot_append head _ hh, find_dot_append body _ hb, hneg, if_false,
    jwt_verify_head_signed E _ head js val t a hjs halg hval ha htyp ht]
  simp only [hk0, ne_eq, not_false_eq_true, if_true, jwt_new, Option.isSome_some, hkp,
    not_true_eq_false, if_false, jwt_parse_body, hg, ha]
  rw [jwt_verify_signature_hmac E _ md _ _ hmd, jwt_verify_sha_hmac_fits E _ md _ _ hmd hlen hsig]
  simp only [Option.getD_some, List.take_take, min_self]
  by_cases he : sig = B64U (E.HMAC md (key.take key_len.toNat) (head ++ '.' :: body))
  · simp [he]
  · simp [he, EINVAL]

/-- Where the key is shorter than the digest, `jwt_decode` of a token with an HMAC
header and a parsing payload is undefined, whatever the signature segment, the
correct one included: `jwt_sign_sha_hmac` lets `HMAC` store the digest in an array
of `key_len` bytes. -/
theorem jwt_decode_hmac_short (E : Libs) (head body sig : List Char) (key : List Nat)
    (key_len : Int) (js g : json_t) (val t : List Char) (a : jwt_alg_t) (md : EVP_MD)
    (hh : '.' ∉ head) (hb : '.' ∉ body)
    (hjs : jwt_b64_decode E head = some js)
    (halg : get_js_string E (some js) "alg".toList = some val)
    (hval : strcasecmp val (jwt_alg_str a) = 0) (hmd : hmac_md a = some md)
    (htyp : get_js_string E (some js) "typ".toList = some t)
    (ht : strcasecmp t "JWT".toList = 0)
    (hg : jwt_b64_decode E body = some g)
    (hpos : 0 < key_len) (hlen : key_len < (EVP_MD_size md : Int)) :
    jwt_decode E (head ++ '.' :: (body ++ '.' :: sig)) key key_len = none := by
  have ha := hmac_md_ne_none a md hmd
  have hk0 : key_len ≠ 0 := by omega
  have hkp : key_len > 0 := by omega
  have hneg : ¬ key_len < 0 := by omega
  simp only [jwt_decode, find_dot_append head _ hh, find_dot_append body _ hb, hneg, if_false,
    jwt_verify_head_signed E _ head js val t a hjs halg hval ha htyp ht]
  simp only [hk0, ne_eq, not_false_eq_true, if_true, jwt_new, Option.isSome_some, hkp,
    not_true_eq_false, if_false, jwt_parse_body, hg, ha]
  rw [jwt_verify_signature_hmac E _ md _ _ hmd, jwt_verify_sha_hmac_short E _ md _ _ hmd hlen]

/-- Round trip where the digest fits the result array.  The library facts it
rests on are hypotheses: the base64 reader and the JSON reader give back a header
object with the emitted "alg" and "typ", and some claims object `g'` for the
emitted payload.  Then `jwt_encode_str` returns a token and `jwt_decode` of that
token under the same key succeeds with the same algorithm and the claims `g'`. -/
theorem jwt_decode_encode_fits (E : Libs) (jwt : jwt_t) (md : EVP_MD) (key : List Nat)
    (serial : List Char) (js g' : json_t)
    (hmd : hmac_md jwt.alg = some md)
    (hkey : jwt.key = some key) (hklen : jwt.key_len = (key.length : Int))
    (hfit : EVP_MD_size md ≤ key.length)
    (hd : jwt.grants.bind (fun g => E.json_dumps g (JSON_SORT_KEYS ||| JSON_COMPACT)) =
      some serial)
    (hhead : jwt_b64_decode E (B64U ((spec_header jwt.alg).map byte_of_char)) = some js)
    (halg : get_js_string E (some js) "alg".toList = some (jwt_alg_str jwt.alg))
    (htyp : get_js_string E (some js) "typ".toList = some "JWT".toList)
    (hbody : jwt_b64_decode E (B64U (serial.map byte_of_char)) = some g') :
    ∃ tok, jwt_encode_str E jwt = some (some tok) ∧
      jwt_decode E tok key (key.length : Int) = some (0, some
        { alg := jwt.alg, key := some key, key_len := (key.length : Int), grants := some g' }) := by
  have hlen : (EVP_MD_size md : Int) ≤ jwt.key_len := by rw [hklen]; exact_mod_cast hfit
  have henc := jwt_encode_str_hmac E jwt md serial hmd hlen hd
  refine ⟨_, henc, ?_⟩
  have hk : (jwt.key.getD []).take jwt.key_len.toNat = key := by
    rw [hkey, hklen]; simp
  rw [hk]
  have hdec := jwt_decode_hmac_fits E (B64U ((spec_header jwt.alg).map byte_of_char))
    (B64U (serial.map byte_of_char))
    (B64U (E.HMAC md key (B64U ((spec_header jwt.alg).map byte_of_char) ++ ".".toList ++
      B64U (serial.map byte_of_char))))
    key (key.length : Int) js g' (jwt_alg_str jwt.alg) "JWT".toList jwt.alg md
    (B64U_no_dot _) (B64U_no_dot _) (B64U_no_nul _) hhead halg (strcasecmp_self _) hmd htyp
    (by decide) hbody (by exact_mod_cast hfit)
  have htk : key.take ((key.length : Int)).toNat = key := by simp
  rw [htk] at hdec
  have hshape : B64U ((spec_header jwt.alg).map byte_of_char) ++ ".".toList ++
      B64U (serial.map byte_of_char) ++ ".".toList ++
      B64U (E.HMAC md key (B64U ((spec_header jwt.alg).map byte_of_char) ++ ".".toList ++
        B64U (serial.map byte_of_char))) =
      B64U ((spec_header jwt.alg).map byte_of_char) ++ '.' ::
        (B64U (serial.map byte_of_char) ++ '.' ::
          B64U (E.HMAC md key (B64U ((spec_header jwt.alg).map byte_of_char) ++ ".".toList ++
            B64U (serial.map byte_of_char)))) := by
    simp
  rw [hshape, hdec]
  have hin : B64U ((spec_header jwt.alg).map byte_of_char) ++ '.' ::
      B64U (serial.map byte_of_char) =
      B64U ((spec_header jwt.alg).map byte_of_char) ++ ".".toList ++
        B64U (serial.map byte_of_char) := by simp
  rw [hin, if_pos rfl]

/-- The round trip at a key of 32 bytes for HS256, evaluated on the reference
instance: the hypotheses of `jwt_decode_encode_fits` hold there. -/
theorem jwt_decode_encode_fits_example :
    ∃ tok,
      jwt_encode_str refLibs
          { alg := JWT_ALG_HS256, key := some (List.replicate 32 7), key_len := 32,
            grants := some (JSON_OBJECT [("sub".toList, JSON_STRING "user0".toList),
              ("iat".toList, JSON_INTEGER 1475980545)]) } = some (some tok) ∧
        jwt_decode refLibs tok (List.replicate 32 7) 32 = some (0, some
          { alg := JWT_ALG_HS256, key := some (List.replicate 32 7), key_len := 32,
            grants := some (JSON_OBJECT [("iat".toList, JSON_INTEGER 1475980545),
              ("sub".toList, JSON_STRING "user0".toList)]) }) :=
  jwt_decode_encode_fits refLibs
    { alg := JWT_ALG_HS256, key := some (List.replicate 32 7), key_len := 32,
      grants := some (JSON_OBJECT [("sub".toList, JSON_STRING "user0".toList),
        ("iat".toList, JSON_INTEGER 1475980545)]) }
    EVP_sha256 (List.replicate 32 7) "\x7b\"iat\":1475980545,\"sub\":\"user0\"\x7d".toList
    (JSON_OBJECT [("typ".toList, JSON_STRING "JWT".toList),
      ("alg".toList, JSON_STRING "HS256".toList)])
    (JSON_OBJECT [("iat".toList, JSON_INTEGER 1475980545),
      ("sub".toList, JSON_STRING "user0".toList)])
    (by rfl) (by rfl) (by rfl) (by decide) (by rfl) (by rfl) (by rfl) (by rfl) (by rfl)


/-! ## Claims about `jwt_decode` -/

/-- C1. A token whose header declares the algorithm "none", in any letter case, is
refused when the caller supplies a key: for every token string whose first
segment decodes to a header with such an "alg" and every `key_len > 0`,
`jwt_decode` returns `EINVAL` and stores no token. -/
theorem jwt_decode_alg_none_with_key (E : Libs) (token : List Char) (key : List Nat)
    (key_len : Int) (js : json_t) (val : List Char)
    (hk : 0 < key_len)
    (hjs : jwt_b64_decode E (token.takeWhile (fun c => c ≠ '.')) = some js)
    (halg : get_js_string E (some js) "alg".toList = some val)
    (hnone : strcasecmp val "none".toList = 0) :
    jwt_decode E token key key_len = some (EINVAL, none) := by
  cases hd : find_dot token with
  | none => simp only [jwt_decode, hd]
  | some p =>
    obtain ⟨head, rest⟩ := p
    have hh := find_dot_takeWhile _ _ _ hd
    cases hb : find_dot rest with
    | none => simp only [jwt_decode, hd, hb]
    | some q =>
      obtain ⟨body, sig⟩ := q
      simp only [jwt_decode, hd, hb]
      have hk0 : key_len ≠ 0 := by omega
      have hneg : ¬ key_len < 0 := by omega
      subst hh
      simp only [hneg, if_false, jwt_verify_head_none E _ _ js val hjs halg hnone]
      simp [hk0, EINVAL]

/-- C1 at the unsecured token with empty claims and a key of three bytes. -/
theorem jwt_decode_alg_none_with_key_witness :
    jwt_decode refLibs "eyJhbGciOiJub25lIn0.e30.".toList [1, 2, 3] 3 = some (EINVAL, none) :=
  jwt_decode_alg_none_with_key refLibs "eyJhbGciOiJub25lIn0.e30.".toList [1, 2, 3] 3
    (JSON_OBJECT [("alg".toList, JSON_STRING "none".toList)]) "none".toList
    (by decide) (by rfl) (by rfl) (by decide)

/-- C2 fails on the code.  The header of this token declares HS256 with "typ" "JWT",
the caller passes no key (`key_len == 0`), and `jwt_decode` returns 0, not `EINVAL`:
it hands back a token with the algorithm reset to none, whatever the signature
segment holds. -/
theorem jwt_decode_no_key_accepts_signed :
    get_js_string refLibs (jwt_b64_decode refLibs "eyJ0eXAiOiJKV1QiLCJhbGciOiJIUzI1NiJ9".toList)
        "alg".toList = some "HS256".toList ∧
      jwt_decode refLibs "eyJ0eXAiOiJKV1QiLCJhbGciOiJIUzI1NiJ9.e30.c2ln".toList [] 0 =
        some (0, some
          { alg := JWT_ALG_NONE, key := none, key_len := 0, grants := some (JSON_OBJECT []) }) :=
  ⟨rfl, rfl⟩

/-- C2 as amended.  For every token whose header declares one of HS256, HS384,
HS512, RS256 (any letter case) with "typ" equal to "JWT" up to case and whose
payload segment parses, `jwt_decode` called with no key (`key_len == 0`) returns 0
for every signature segment and hands back a token with algorithm none, no key,
key length zero and the parsed claims: without a key `jwt_verify_head` scrubs the
token and no signature is checked. -/
theorem jwt_decode_no_key_skips_verification (E : Libs) (head body sig : List Char)
    (key : List Nat) (js g : json_t) (val t : List Char) (a : jwt_alg_t)
    (hh : '.' ∉ head) (hb : '.' ∉ body)
    (hjs : jwt_b64_decode E head = some js)
    (halg : get_js_string E (some js) "alg".toList = some val)
    (hval : strcasecmp val (jwt_alg_str a) = 0) (ha : a ≠ JWT_ALG_NONE)
    (htyp : get_js_string E (some js) "typ".toList = some t)
    (ht : strcasecmp t "JWT".toList = 0)
    (hg : jwt_b64_decode E body = some g) :
    jwt_decode E (head ++ '.' :: (body ++ '.' :: sig)) key 0 =
      some (0, some { alg := JWT_ALG_NONE, key := none, key_len := 0, grants := some g }) := by
  simp only [jwt_decode, find_dot_append head _ hh, find_dot_append body _ hb,
    lt_self_iff_false, if_false,
    jwt_verify_head_signed E _ head js val t a hjs halg hval ha htyp ht]
  simp [jwt_new, jwt_scrub_key, jwt_parse_body, hg]

/-- C2 as amended, at an HS256 token with empty claims and an arbitrary signature
segment. -/
theorem jwt_decode_no_key_skips_verification_witness :
    jwt_decode refLibs
        ("eyJ0eXAiOiJKV1QiLCJhbGciOiJIUzI1NiJ9".toList ++ '.' ::
          ("e30".toList ++ '.' :: "c2ln".toList))
        [] 0 =
      some (0, some
        { alg := JWT_ALG_NONE, key := none, key_len := 0, grants := some (JSON_OBJECT []) }) :=
  jwt_decode_no_key_skips_verification refLibs "eyJ0eXAiOiJKV1QiLCJhbGciOiJIUzI1NiJ9".toList
    "e30".toList "c2ln".toList []
    (JSON_OBJECT [("typ".toList, JSON_STRING "JWT".toList),
      ("alg".toList, JSON_STRING "HS256".toList)])
    (JSON_OBJECT []) "HS256".toList "JWT".toList JWT_ALG_HS256
    (by decide) (by decide) (by rfl) (by rfl) (by decide) (by decide) (by rfl) (by decide) (by rfl)

/-- C3. A token whose header declares an algorithm other than "none" and has no
"typ" member, or a "typ" that is not "JWT" up to letter case, is refused: `jwt_decode`
returns `EINVAL` and stores no token, for every key of any length (`0 ≤ key_len`)
and every signature segment. -/
theorem jwt_decode_typ_required (E : Libs) (token : List Char) (key : List Nat)
    (key_len : Int) (js : json_t) (val : List Char) (hk : 0 ≤ key_len)
    (hjs : jwt_b64_decode E (token.takeWhile (fun c => c ≠ '.')) = some js)
    (halg : get_js_string E (some js) "alg".toList = some val)
    (hnone : strcasecmp val "none".toList ≠ 0)
    (htyp : ∀ t, get_js_string E (some js) "typ".toList = some t →
      strcasecmp t "JWT".toList ≠ 0) :
    jwt_decode E token key key_len = some (EINVAL, none) := by
  cases hd : find_dot token with
  | none => simp only [jwt_decode, hd]
  | some p =>
    obtain ⟨head, rest⟩ := p
    have hh := find_dot_takeWhile _ _ _ hd
    cases hb : find_dot rest with
    | none => simp only [jwt_decode, hd, hb]
    | some q =>
      obtain ⟨body, sig⟩ := q
      simp only [jwt_decode, hd, hb]
      have hneg : ¬ key_len < 0 := by omega
      subst hh
      simp only [hneg, if_false]
      generalize hv : jwt_verify_head E _ _ = r
      have := jwt_verify_head_typ E _ _ js val hjs halg hnone htyp ▸ congrArg Prod.fst hv
      obtain ⟨ret, new⟩ := r
      simp at this
      simp [← this, EINVAL]

/-- C3 at a token whose header is the HS256 header without "typ", with a key of 32
bytes and the signature segment computed from that key. -/
theorem jwt_decode_typ_required_witness :
    jwt_decode refLibs
        ("eyJhbGciOiJIUzI1NiJ9.e30".toList ++ '.' ::
          B64U (refLibs.HMAC EVP_sha256 (List.replicate 32 7) "eyJhbGciOiJIUzI1NiJ9.e30".toList))
        (List.replicate 32 7) 32 = some (EINVAL, none) :=
  jwt_decode_typ_required refLibs _ (List.replicate 32 7) 32
    (JSON_OBJECT [("alg".toList, JSON_STRING "HS256".toList)]) "HS256".toList
    (by decide) (by rfl) (by rfl) (by decide)
    (by
      intro t h
      have h2 : get_js_string refLibs
          (some (JSON_OBJECT [("alg".toList, JSON_STRING "HS256".toList)])) "typ".toList = none :=
        rfl
      rw [h2] at h
      cases h)

/-- C4 fails on the code.  For every token `h.p.s` whose header declares HS256,
HS384 or HS512 with a valid "typ" and whose payload parses, and every key with
`key_len > 0`: `jwt_decode` succeeds when the digest size (32, 48, 64) is at most
`key_len` and `s` is the unpadded base64url of the HMAC of the original bytes
`h.p`; in every other case it is undefined instead of returning `EINVAL`.  A
signature that does not match makes `jwt_verify_sha_hmac` release its sinks twice,
and a key shorter than the digest makes `jwt_sign_sha_hmac` overrun its result
array. -/
theorem jwt_decode_hmac (E : Libs) (head body sig : List Char) (key : List Nat)
    (key_len : Int) (js g : json_t) (val t : List Char) (a : jwt_alg_t) (md : EVP_MD)
    (hh : '.' ∉ head) (hb : '.' ∉ body) (hsig : ∀ c ∈ sig, c.toNat ≠ 0)
    (hjs : jwt_b64_decode E head = some js)
    (halg : get_js_string E (some js) "alg".toList = some val)
    (hval : strcasecmp val (jwt_alg_str a) = 0) (hmd : hmac_md a = some md)
    (htyp : get_js_string E (some js) "typ".toList = some t)
    (ht : strcasecmp t "JWT".toList = 0)
    (hg : jwt_b64_decode E body = some g)
    (hpos : 0 < key_len) :
    jwt_decode E (head ++ '.' :: (body ++ '.' :: sig)) key key_len =
      if (EVP_MD_size md : Int) ≤ key_len ∧
          sig = B64U (E.HMAC md (key.take key_len.toNat) (head ++ '.' :: body)) then
        some (0, some
          { alg := a, key := some (key.take key_len.toNat), key_len := key_len, grants := some g })
      else none := by
  by_cases hfit : (EVP_MD_size md : Int) ≤ key_len
  · rw [jwt_decode_hmac_fits E head body sig key key_len js g val t a md hh hb hsig hjs halg hval
      hmd htyp ht hg hfit]
    simp only [hfit, true_and]
  · rw [jwt_decode_hmac_short E head body sig key key_len js g val t a md hh hb hjs halg hval
      hmd htyp ht hg hpos (by omega)]
    simp only [hfit, false_and, if_false]

/-- C4 at the failing input: the HS256 token with empty claims under a key of 32
bytes, with a signature segment that does not match. -/
theorem jwt_decode_hmac_witness :
    jwt_decode refLibs
        ("eyJ0eXAiOiJKV1QiLCJhbGciOiJIUzI1NiJ9".toList ++ '.' ::
          ("e30".toList ++ '.' :: "c2ln".toList))
        (List.replicate 32 7) 32 = none :=
  (jwt_decode_hmac refLibs "eyJ0eXAiOiJKV1QiLCJhbGciOiJIUzI1NiJ9".toList "e30".toList
    "c2ln".toList (List.replicate 32 7) 32
    (JSON_OBJECT [("typ".toList, JSON_STRING "JWT".toList),
      ("alg".toList, JSON_STRING "HS256".toList)])
    (JSON_OBJECT []) "HS256".toList "JWT".toList JWT_ALG_HS256 EVP_sha256
    (by decide) (by decide) (by decide) (by rfl) (by rfl) (by decide) (by rfl) (by rfl)
    (by decide) (by rfl) (by decide)).trans (by rfl)

/-- C5 fails on the code.  The header of this token declares "none", the caller
passes no key, the third segment is not empty, and `jwt_decode` returns 0. -/
theorem jwt_decode_none_accepts_signature :
    get_js_string refLibs (jwt_b64_decode refLibs "eyJhbGciOiJub25lIn0".toList) "alg".toList =
        some "none".toList ∧
      jwt_decode refLibs "eyJhbGciOiJub25lIn0.e30.c2ln".toList [] 0 =
        some (0, some
          { alg := JWT_ALG_NONE, key := none, key_len := 0, grants := some (JSON_OBJECT []) }) :=
  ⟨rfl, rfl⟩

/-- C5 as amended.  For every token whose header declares "none" (any letter case),
`jwt_decode` called with no key (`key_len == 0`) never looks at the signature
segment: for every text after the second separator, empty or not, it returns 0
with the parsed claims when the payload segment parses, and `EINVAL` when it does
not. -/
theorem jwt_decode_none_ignores_signature (E : Libs) (head body sig : List Char)
    (key : List Nat) (js : json_t) (val : List Char)
    (hh : '.' ∉ head) (hb : '.' ∉ body)
    (hjs : jwt_b64_decode E head = some js)
    (halg : get_js_string E (some js) "alg".toList = some val)
    (hnone : strcasecmp val "none".toList = 0) :
    jwt_decode E (head ++ '.' :: (body ++ '.' :: sig)) key 0 =
      match jwt_b64_decode E body with
      | some g =>
        some (0, some { alg := JWT_ALG_NONE, key := none, key_len := 0, grants := some g })
      | none => some (EINVAL, none) := by
  simp only [jwt_decode, find_dot_append head _ hh, find_dot_append body _ hb,
    lt_self_iff_false, if_false, jwt_verify_head_none E _ head js val hjs halg hnone]
  cases hg : jwt_b64_decode E body with
  | none => simp [jwt_new, jwt_parse_body, hg, EINVAL]
  | some g => simp [jwt_new, jwt_parse_body, hg]

/-- C5 as amended, at the unsecured token with empty claims and a third segment
that is not empty. -/
theorem jwt_decode_none_ignores_signature_witness :
    jwt_decode refLibs
        ("eyJhbGciOiJub25lIn0".toList ++ '.' :: ("e30".toList ++ '.' :: "c2ln".toList)) [] 0 =
      some (0, some
        { alg := JWT_ALG_NONE, key := none, key_len := 0, grants := some (JSON_OBJECT []) }) :=
  jwt_decode_none_ignores_signature refLibs "eyJhbGciOiJub25lIn0".toList "e30".toList
    "c2ln".toList [] (JSON_OBJECT [("alg".toList, JSON_STRING "none".toList)]) "none".toList
    (by decide) (by decide) (by rfl) (by rfl) (by decide)


/-! ## Claims about encoding -/

/-- C6 fails on the code for a key shorter than the digest.  `jwt_set_alg` accepts
the one-byte key "k" for HS384 on a fresh token; `jwt_encode_str` of that token is
undefined, since `HMAC` stores a digest of 48 bytes in a result array of one byte,
and so is `jwt_decode`, under the same key, of the token string that the
specification has for it. -/
theorem jwt_round_trip_short_key_undefined :
    jwt_set_alg jwt_new 2 (some [107]) 1 =
        (0, { alg := JWT_ALG_HS384, key := some [107], key_len := 1,
              grants := some (JSON_OBJECT []) }) ∧
      jwt_encode_str refLibs (jwt_set_alg jwt_new 2 (some [107]) 1).2 = none ∧
      jwt_decode refLibs
        ("eyJ0eXAiOiJKV1QiLCJhbGciOiJIUzM4NCJ9.e30".toList ++ '.' ::
          B64U (refLibs.HMAC EVP_sha384 [107] "eyJ0eXAiOiJKV1QiLCJhbGciOiJIUzM4NCJ9.e30".toList))
        [107] 1 = none := by
  refine ⟨?_, ?_, ?_⟩ <;> rfl

/-- C7 fails on the code for a key shorter than the digest.  For every token with
algorithm HS256, HS384 or HS512 whose key length is below the digest size (32,
48, 64), `jwt_encode_str` is undefined: `jwt_sign_sha_hmac` lets `HMAC` store the
digest in an array of `key_len` bytes. -/
theorem jwt_encode_str_hmac_short (E : Libs) (jwt : jwt_t) (md : EVP_MD)
    (hmd : hmac_md jwt.alg = some md) (hlen : jwt.key_len < (EVP_MD_size md : Int)) :
    jwt_encode_str E jwt = none := by
  unfold jwt_encode_str jwt_encode_bio
  simp only [jwt_encode_bio_first]
  cases hd : jwt.grants.bind (fun g => E.json_dumps g (JSON_SORT_KEYS ||| JSON_COMPACT)) with
  | none => rfl
  | some serial =>
    simp only [Option.map]
    rw [BIO_read_pending _ (by simp)]
    have hneg : ¬ ((((EVP_EncodeBlock ((spec_header jwt.alg).map byte_of_char) ++
        ".".toList ++ EVP_EncodeBlock (serial.map byte_of_char)).length : Nat) : Int) < 0) := by
      omega
    simp only [hneg, if_false, jwt_sign_hmac E jwt _ _ md _ hmd,
      jwt_sign_sha_hmac_short E jwt _ _ md _ hlen]

/-- C7 at the failing input: HS384 with the one-byte key "k" and empty claims. -/
theorem jwt_encode_str_hmac_short_witness :
    jwt_encode_str refLibs
      { alg := JWT_ALG_HS384, key := some [107], key_len := 1, grants := some (JSON_OBJECT []) } =
      none :=
  jwt_encode_str_hmac_short refLibs
    { alg := JWT_ALG_HS384, key := some [107], key_len := 1, grants := some (JSON_OBJECT []) }
    EVP_sha384 (by rfl) (by decide)

/-- C8 fails on the code.  For every token with the algorithm none `jwt_encode_str`
is undefined: `jwt_sign` writes nothing, so the second `BIO_read` finds the memory
buffer empty and returns `-1`, and the terminator is stored at `buf[-1]`, before
the buffer, which still holds the first two segments. -/
theorem jwt_encode_str_none (E : Libs) (jwt : jwt_t) (h : jwt.alg = JWT_ALG_NONE) :
    jwt_encode_str E jwt = none := by
  unfold jwt_encode_str jwt_encode_bio
  simp only [jwt_encode_bio_first]
  cases hd : jwt.grants.bind (fun g => E.json_dumps g (JSON_SORT_KEYS ||| JSON_COMPACT)) with
  | none => rfl
  | some serial =>
    simp only [Option.map]
    rw [BIO_read_pending _ (by simp)]
    simp only [jwt_sign, h]
    have hneg : ¬ ((((EVP_EncodeBlock ((spec_header JWT_ALG_NONE).map byte_of_char) ++
        ".".toList ++ EVP_EncodeBlock (serial.map byte_of_char)).length : Nat) : Int) < 0) := by
      omega
    simp only [hneg, if_false]
    rw [BIO_read_pending_empty _ rfl]
    simp [BIO_pending]

/-- C8 at the failing input: the fresh token of `jwt_new`. -/
theorem jwt_encode_str_none_witness : jwt_encode_str refLibs jwt_new = none :=
  jwt_encode_str_none refLibs jwt_new rfl

/-- The algorithm none on the fresh token of `jwt_new`.  `jwt_encode_str` is undefined;
and before that point the first buffer, whose header part carries a padding
character in the middle, comes out of `base64uri_encode` with that character
still in place and its last character cut, where the specification has the two
unpadded segments. -/
theorem jwt_encode_str_none_undefined :
    jwt_encode_str refLibs jwt_new = none ∧
      base64uri_encode (EVP_EncodeBlock ((spec_header JWT_ALG_NONE).map byte_of_char) ++
        ".".toList ++ EVP_EncodeBlock ("\x7b\x7d".toList.map byte_of_char)) =
        "eyJhbGciOiJub25lIn0=.e3".toList ∧
      B64U ((spec_header JWT_ALG_NONE).map byte_of_char) ++ ".".toList ++
        B64U ("\x7b\x7d".toList.map byte_of_char) ++ ".".toList =
        "eyJhbGciOiJub25lIn0.e30.".toList := by
  refine ⟨?_, ?_, ?_⟩ <;> rfl

/-- C9. In compact mode (`pretty == 0`) `jwt_write_bio_head` emits exactly the
header of the specification: the object with the single member "alg":"none" for
the algorithm none, and for every other algorithm the object with "typ":"JWT"
first and "alg" with the label of `jwt_alg_str` second; no character emitted is
white space. -/
theorem jwt_write_bio_head_compact (jwt : jwt_t) (bio : BIO_chain) :
    jwt_write_bio_head jwt bio BIO_handle.bmem 0 =
        { bio with mem := bio.mem ++ spec_header jwt.alg } ∧
      (spec_header JWT_ALG_NONE = "\x7b\"alg\":\"none\"\x7d".toList ∧
        (jwt.alg ≠ JWT_ALG_NONE → spec_header jwt.alg =
          "\x7b\"typ\":\"JWT\",\"alg\":\"".toList ++ jwt_alg_str jwt.alg ++ "\"\x7d".toList)) ∧
      ∀ c ∈ spec_header jwt.alg, c.isWhitespace = false := by
  refine ⟨jwt_write_bio_head_bmem jwt bio, ⟨rfl, ?_⟩, ?_⟩
  · intro h; simp only [spec_header, h, if_false]
  · cases jwt.alg <;> decide


/-! ## Claims about `jwt_set_alg` -/

/-- C10. A failing `jwt_set_alg` leaves the token scrubbed: for every token, in any
state, and every argument triple, a return value other than zero comes with
algorithm none, no key and key length zero. -/
theorem jwt_set_alg_failure_scrubs (jwt : jwt_t) (alg : Int) (key : Option (List Nat))
    (len : Int) (h : (jwt_set_alg jwt alg key len).1 ≠ 0) :
    (jwt_set_alg jwt alg key len).2.alg = JWT_ALG_NONE ∧
      (jwt_set_alg jwt alg key len).2.key = none ∧
      (jwt_set_alg jwt alg key len).2.key_len = 0 := by
  unfold jwt_set_alg at h ⊢
  cases ha : jwt_alg_of_int alg with
  | none => simp [jwt_scrub_key]
  | some a =>
    cases a <;> simp only [ha] at h ⊢
    · by_cases hc : key.isSome = true ∨ len ≠ 0
      · simp [hc, jwt_scrub_key]
      · simp [hc] at h
    all_goals
      cases key with
      | none => simp [jwt_scrub_key]
      | some k =>
        by_cases hl : len > 0
        · simp [hl] at h
        · simp [hl, jwt_scrub_key]

/-- C10 at a token that holds HS256 and a key, asked for the algorithm none with a
key. -/
theorem jwt_set_alg_failure_scrubs_witness :
    (jwt_set_alg { alg := JWT_ALG_HS256, key := some [1, 2, 3], key_len := 3, grants := none }
        0 (some [9]) 1).1 ≠ 0 ∧
      (jwt_set_alg { alg := JWT_ALG_HS256, key := some [1, 2, 3], key_len := 3, grants := none }
        0 (some [9]) 1).2.alg = JWT_ALG_NONE :=
  ⟨by decide, (jwt_set_alg_failure_scrubs _ 0 (some [9]) 1 (by decide)).1⟩


/-! ## Object entries -/

/-- Reading a list of entries at the key of its first entry. -/
theorem lookup_cons_self (k : List Char) (v : json_t) (rest : List (List Char × json_t)) :
    ((k, v) :: rest).lookup k = some v := by
  simp [List.lookup]

/-- Reading a list of entries at a key other than that of its first entry. -/
theorem lookup_cons_ne (k k2 : List Char) (v : json_t) (rest : List (List Char × json_t))
    (h : k2 ≠ k) : ((k, v) :: rest).lookup k2 = rest.lookup k2 := by
  have hb : (k2 == k) = false := by simpa using h
  simp [List.lookup, hb]

/-- Reading an object after the entries of one key are dropped: that key is
absent, every other key reads as before. -/
theorem lookup_filter_ne (ms : List (List Char × json_t)) (k k2 : List Char) :
    (ms.filter (fun m => decide (m.1 ≠ k))).lookup k2 = if k2 = k then none else ms.lookup k2 := by
  induction ms with
  | nil => simp [List.lookup]
  | cons m rest ih =>
    obtain ⟨k0, v0⟩ := m
    by_cases h0 : k0 = k
    · subst h0
      simp only [List.filter, ne_eq, not_true_eq_false, decide_False, ih]
      by_cases h : k2 = k0
      · simp only [h, if_true]
      · simp only [h, if_false, lookup_cons_ne _ _ _ _ h]
    · have hd : decide ((k0, v0).1 ≠ k) = true := by simpa using h0
      simp only [List.filter, hd]
      by_cases h20 : k2 = k0
      · have : ¬ k2 = k := fun e => h0 (h20 ▸ e)
        simp only [h20, lookup_cons_self, if_neg h0]
      · simp only [lookup_cons_ne _ _ _ _ h20, ih]

/-- Dropping the entries of a key that is absent changes nothing. -/
theorem filter_ne_of_lookup_none (ms : List (List Char × json_t)) (k : List Char)
    (h : ms.lookup k = none) : ms.filter (fun m => decide (m.1 ≠ k)) = ms := by
  induction ms with
  | nil => rfl
  | cons m rest ih =>
    obtain ⟨k0, v0⟩ := m
    by_cases h0 : k = k0
    · subst h0
      rw [lookup_cons_self] at h
      cases h
    · rw [lookup_cons_ne _ _ _ _ h0] at h
      have hd : decide ((k0, v0).1 ≠ k) = true := by simpa using Ne.symm h0
      simp only [List.filter, hd, ih h]


/-! ## Claims about the token object -/

/-- C11. With allocation succeeding, `jwt_set_alg` returns 0 exactly when the
algorithm is none with a `NULL` key and `len == 0`, or the algorithm is one of
HS256, HS384, HS512, RS256 with a key that is not `NULL` and `len > 0`; every
other call, an `alg` outside the enumeration included, returns `EINVAL`.  After a
successful call the token holds the algorithm asked for, `key_len == len` and a
copy of the first `len` bytes of the key (no key for none); the claims are not
touched. -/
theorem jwt_set_alg_contract (jwt : jwt_t) (alg : Int) (key : Option (List Nat)) (len : Int) :
    ((jwt_set_alg jwt alg key len).1 = 0 ↔
      (jwt_alg_of_int alg = some JWT_ALG_NONE ∧ key = none ∧ len = 0) ∨
      ((jwt_alg_of_int alg = some JWT_ALG_HS256 ∨ jwt_alg_of_int alg = some JWT_ALG_HS384 ∨
          jwt_alg_of_int alg = some JWT_ALG_HS512 ∨ jwt_alg_of_int alg = some JWT_ALG_RS256) ∧
        key ≠ none ∧ len > 0)) ∧
    ((jwt_set_alg jwt alg key len).1 ≠ 0 → (jwt_set_alg jwt alg key len).1 = EINVAL) ∧
    ((jwt_set_alg jwt alg key len).1 = 0 →
      jwt_alg_of_int alg = some (jwt_set_alg jwt alg key len).2.alg ∧
      (jwt_set_alg jwt alg key len).2.key_len = len ∧
      (jwt_set_alg jwt alg key len).2.key = key.map (fun k => k.take len.toNat) ∧
      (jwt_set_alg jwt alg key len).2.grants = jwt.grants) := by
  unfold jwt_set_alg
  cases ha : jwt_alg_of_int alg with
  | none => simp [jwt_scrub_key, EINVAL]
  | some a =>
    cases a
    · cases key with
      | none =>
        by_cases hl : len = 0
        · simp [hl, jwt_scrub_key]
        · simp [hl, jwt_scrub_key, EINVAL]
      | some k => simp [jwt_scrub_key, EINVAL]
    all_goals
      cases key with
      | none => simp [jwt_scrub_key, EINVAL]
      | some k =>
        by_cases hl : len > 0
        · simp [hl, jwt_scrub_key]
        · simp [hl, jwt_scrub_key, EINVAL]

/-- After `jwt_set_alg`, successful or not, the algorithm is none exactly when the
key length is zero. -/
theorem jwt_set_alg_alg_key_len (jwt : jwt_t) (alg : Int) (key : Option (List Nat)) (len : Int) :
    (jwt_set_alg jwt alg key len).2.alg = JWT_ALG_NONE ↔
      (jwt_set_alg jwt alg key len).2.key_len = 0 := by
  unfold jwt_set_alg
  cases ha : jwt_alg_of_int alg with
  | none => simp [jwt_scrub_key]
  | some a =>
    cases a
    · by_cases hc : key.isSome = true ∨ len ≠ 0
      · simp [hc, jwt_scrub_key]
      · simp only [hc, if_false]
        have : len = 0 := by
          by_contra hne
          exact hc (Or.inr hne)
        simp [this]
    all_goals
      cases key with
      | none => simp [jwt_scrub_key]
      | some k =>
        by_cases hl : len > 0
        · simp only [hl, not_true_eq_false, if_false]
          constructor
          · intro h; cases h
          · intro h; simp only at h; omega
        · simp [hl, jwt_scrub_key]

/-- The grant operations leave the algorithm, the key and the key length alone. -/
theorem grant_operations_frame (E : Libs) (jwt : jwt_t) (grant val json : Option (List Char))
    (n : Int) :
    ((jwt_add_grant E jwt grant val).2.alg = jwt.alg ∧
      (jwt_add_grant E jwt grant val).2.key = jwt.key ∧
      (jwt_add_grant E jwt grant val).2.key_len = jwt.key_len) ∧
    ((jwt_add_grant_int jwt grant n).2.alg = jwt.alg ∧
      (jwt_add_grant_int jwt grant n).2.key = jwt.key ∧
      (jwt_add_grant_int jwt grant n).2.key_len = jwt.key_len) ∧
    ((jwt_add_grants_json E jwt json).2.alg = jwt.alg ∧
      (jwt_add_grants_json E jwt json).2.key = jwt.key ∧
      (jwt_add_grants_json E jwt json).2.key_len = jwt.key_len) ∧
    ((jwt_del_grant jwt grant).2.alg = jwt.alg ∧
      (jwt_del_grant jwt grant).2.key = jwt.key ∧
      (jwt_del_grant jwt grant).2.key_len = jwt.key_len) := by
  refine ⟨?_, ?_, ?_, ?_⟩
  · unfold jwt_add_grant
    split
    · split_ifs <;> simp
    · simp
  · unfold jwt_add_grant_int
    split
    · simp
    · split_ifs <;> simp
  · unfold jwt_add_grants_json
    split <;> simp
  · unfold jwt_del_grant
    split
    · simp
    · split_ifs <;> simp


/-- What `jwt_dup` does on a token without a key (`key_len == 0`) that has claims:
the copy has algorithm none, no key and the same claims. -/
theorem jwt_dup_no_key (jwt : jwt_t) (g : json_t) (hl : jwt.key_len = 0)
    (hg : jwt.grants = some g) :
    jwt_dup jwt =
      some (0, some { alg := JWT_ALG_NONE, key := none, key_len := 0, grants := some g }) := by
  simp [jwt_dup, hl, hg, json_deep_copy]

/-- C13 fails on the code.  For every token that holds a key (`key_len > 0`) and
claims, `jwt_dup` succeeds and the copy has the same key length, the same key
bytes and the same claims, but its algorithm is none whatever the algorithm of
the original: no statement of `jwt_dup` copies `alg`, so for a token with HS256,
HS384, HS512 or RS256 the copy is not a full copy. -/
theorem jwt_dup_drops_alg (jwt : jwt_t) (k : List Nat) (g : json_t)
    (hk : jwt.key = some k) (hl : 0 < jwt.key_len) (hg : jwt.grants = some g) :
    jwt_dup jwt =
      some (0, some { alg := JWT_ALG_NONE, key := some (k.take jwt.key_len.toNat),
                      key_len := jwt.key_len, grants := some g }) := by
  have h0 : jwt.key_len ≠ 0 := by omega
  have hn : ¬ jwt.key_len < 0 := by omega
  simp [jwt_dup, h0, hn, hk, hg, json_deep_copy]

/-- C13 at the token made by `jwt_new` and `jwt_set_alg` with HS256 and a key of
32 bytes: the original holds HS256, the copy holds none. -/
theorem jwt_dup_drops_alg_witness :
    (jwt_set_alg jwt_new 1 (some (List.replicate 32 7)) 32).2.alg = JWT_ALG_HS256 ∧
      jwt_dup (jwt_set_alg jwt_new 1 (some (List.replicate 32 7)) 32).2 =
        some (0, some { alg := JWT_ALG_NONE, key := some (List.replicate 32 7),
                        key_len := 32, grants := some (JSON_OBJECT []) }) :=
  ⟨by decide,
    jwt_dup_drops_alg (jwt_set_alg jwt_new 1 (some (List.replicate 32 7)) 32).2
      (List.replicate 32 7) (JSON_OBJECT []) (by rfl) (by decide) (by rfl)⟩

/-- C12 fails on the code.  The token made by `jwt_new`, `jwt_set_alg` with HS256
and a key of three bytes (which returns 0) and then `jwt_dup` has algorithm none
and key length 3: it is reachable and breaks "alg is none if and only if
`key_len` is zero". -/
theorem jwt_dup_breaks_alg_key_invariant :
    (jwt_set_alg jwt_new 1 (some [107, 101, 121]) 3).1 = 0 ∧
      ∃ t, jwt_dup (jwt_set_alg jwt_new 1 (some [107, 101, 121]) 3).2 = some (0, some t) ∧
        t.alg = JWT_ALG_NONE ∧ t.key_len = 3 ∧
        ¬ (t.alg = JWT_ALG_NONE ↔ t.key_len = 0) :=
  ⟨by decide,
    { alg := JWT_ALG_NONE, key := some [107, 101, 121], key_len := 3,
      grants := some (JSON_OBJECT []) },
    by rfl, rfl, rfl, by decide⟩


/-- A successful `jwt_verify_head` on a token whose key length is zero when it has
no key leaves the algorithm none exactly when the key length is zero. -/
theorem jwt_verify_head_alg_key_len (E : Libs) (jwt : jwt_t) (head : List Char)
    (hpre : jwt.key = none → jwt.key_len = 0) (h : (jwt_verify_head E jwt head).1 = 0) :
    (jwt_verify_head E jwt head).2.alg = JWT_ALG_NONE ↔
      (jwt_verify_head E jwt head).2.key_len = 0 := by
  unfold jwt_verify_head at h ⊢
  cases hjs : jwt_b64_decode E head with
  | none => simp [hjs, EINVAL] at h
  | some js =>
    simp only [hjs] at h ⊢
    cases hv : get_js_string E (some js) "alg".toList with
    | none =>
      simp only [hv, jwt_str_alg] at h
      simp [EINVAL] at h
    | some val =>
      simp only [hv] at h ⊢
      rcases jwt_str_alg_cases jwt val with hs | ⟨a, hs, ha⟩
      · simp [hs, EINVAL] at h
      · simp only [hs] at h ⊢
        by_cases hne : a = JWT_ALG_NONE
        · subst hne
          cases hkey : jwt.key with
          | none => simp [hkey, hpre hkey]
          | some k => simp [hkey, EINVAL] at h
        · cases hkey : jwt.key with
          | none => simp [hne, hkey, jwt_scrub_key]
          | some k =>
            simp only [ne_eq, not_true_eq_false, if_false, hne, not_false_eq_true, if_true, hkey,
              Option.isSome_some] at h ⊢
            by_cases hl : jwt.key_len > 0
            · simp only [hne, false_iff]
              omega
            · simp [hl, EINVAL] at h

/-- The function `jwt_parse_body` touches the claims only. -/
theorem jwt_parse_body_frame (E : Libs) (jwt : jwt_t) (body : List Char) :
    (jwt_parse_body E jwt body).2.alg = jwt.alg ∧
      (jwt_parse_body E jwt body).2.key_len = jwt.key_len := by
  unfold jwt_parse_body
  split <;> simp

/-- Every return of `jwt_decode` is of one of two kinds: a return value other than
zero with `NULL` in `*jwt`, or zero with a token whose algorithm is none exactly
when its key length is zero. -/
theorem jwt_decode_returns (E : Libs) (token : List Char) (key : List Nat) (key_len : Int)
    (r : Int) (t : Option jwt_t) (h : jwt_decode E token key key_len = some (r, t)) :
    (r ≠ 0 ∧ t = none) ∨
      (r = 0 ∧ ∃ new, t = some new ∧ (new.alg = JWT_ALG_NONE ↔ new.key_len = 0)) := by
  unfold jwt_decode at h
  cases hd : find_dot token with
  | none =>
    simp only [hd] at h
    cases h
    exact Or.inl ⟨by decide, rfl⟩
  | some p =>
    obtain ⟨head, rest⟩ := p
    simp only [hd] at h
    cases hb : find_dot rest with
    | none =>
      simp only [hb] at h
      cases h
      exact Or.inl ⟨by decide, rfl⟩
    | some q =>
      obtain ⟨body, sig⟩ := q
      simp only [hb] at h
      by_cases hneg : key_len < 0
      · rw [if_pos hneg] at h
        cases h
        exact Or.inr ⟨rfl, jwt_new, rfl, by simp [jwt_new]⟩
      · rw [if_neg hneg] at h
        have hpre : ∀ j : jwt_t,
            j = (if key_len ≠ 0 then
                  { jwt_new with key := some (key.take key_len.toNat), key_len := key_len }
                else jwt_new) → (j.key = none → j.key_len = 0) := by
          intro j hj
          by_cases hk : key_len ≠ 0
          · rw [if_pos hk] at hj
            subst hj
            intro hc
            cases hc
          · rw [if_neg hk] at hj
            subst hj
            intro _
            rfl
        generalize hj : (if key_len ≠ 0 then
            ({ jwt_new with key := some (key.take key_len.toNat), key_len := key_len } : jwt_t)
          else jwt_new) = j at h
        have hinv := jwt_verify_head_alg_key_len E j head (hpre j hj.symm)
        have hfr := jwt_parse_body_frame E (jwt_verify_head E j head).2 body
        generalize jwt_verify_head E j head = vh at h hinv hfr
        obtain ⟨ret1, new1⟩ := vh
        simp only at h hinv hfr
        by_cases h1 : ret1 ≠ 0
        · rw [if_pos h1] at h
          cases h
          exact Or.inl ⟨h1, rfl⟩
        · rw [if_neg h1] at h
          have h1z : ret1 = 0 := by
            by_contra hc
            exact h1 hc
          generalize jwt_parse_body E new1 body = pb at h hfr
          obtain ⟨ret2, new2⟩ := pb
          simp only at h hfr
          by_cases h2 : ret2 ≠ 0
          · rw [if_pos h2] at h
            cases h
            exact Or.inl ⟨h2, rfl⟩
          · rw [if_neg h2] at h
            generalize (if new2.alg ≠ JWT_ALG_NONE then
                jwt_verify_signature E new2 (head ++ '.' :: body) sig
              else if key_len > 0 then some EINVAL else some 0) = vs at h
            cases vs with
            | none => cases h
            | some ret3 =>
              simp only at h
              by_cases h3 : ret3 ≠ 0
              · rw [if_pos h3] at h
                cases h
                exact Or.inl ⟨h3, rfl⟩
              · rw [if_neg h3] at h
                cases h
                refine Or.inr ⟨rfl, new2, rfl, ?_⟩
                rw [hfr.1, hfr.2]
                exact hinv h1z


/-! ## More claims about `jwt_decode` -/

/-- A token in which the scan finds a separator has one `'.'` more than what
follows that separator. -/
theorem find_dot_count (t head rest : List Char) (h : find_dot t = some (head, rest)) :
    t.count '.' = rest.count '.' + 1 := by
  induction t generalizing head rest with
  | nil => simp [find_dot] at h
  | cons c t ih =>
    by_cases hc : c = '.'
    · simp only [find_dot, hc, if_true, Option.some.injEq, Prod.mk.injEq] at h
      rw [hc, List.count_cons_self, h.2]
    · simp only [find_dot, hc, if_false] at h
      cases hf : find_dot t with
      | none => simp [hf] at h
      | some p =>
        obtain ⟨seg, tail⟩ := p
        simp only [hf, Option.some.injEq, Prod.mk.injEq] at h
        rw [List.count_cons_of_ne (Ne.symm hc), ih seg tail hf, h.2]

/-- C18. A token string with fewer than two `'.'` characters is refused before
anything else is looked at: `jwt_decode` returns `EINVAL` and leaves `NULL` in
`*jwt`, for every key and every `key_len`. -/
theorem jwt_decode_two_separators (E : Libs) (token : List Char) (key : List Nat)
    (key_len : Int) (h : token.count '.' < 2) :
    jwt_decode E token key key_len = some (EINVAL, none) := by
  cases hd : find_dot token with
  | none => simp only [jwt_decode, hd]
  | some p =>
    obtain ⟨head, rest⟩ := p
    cases hb : find_dot rest with
    | none => simp only [jwt_decode, hd, hb]
    | some q =>
      obtain ⟨body, sig⟩ := q
      have h1 := find_dot_count _ _ _ hd
      have h2 := find_dot_count _ _ _ hb
      omega

/-- C18 at a token with one separator, with and without a key. -/
theorem jwt_decode_two_separators_witness :
    jwt_decode refLibs "eyJhbGciOiJub25lIn0.e30".toList [] 0 = some (EINVAL, none) ∧
      jwt_decode refLibs "eyJhbGciOiJub25lIn0.e30".toList [1, 2, 3] 3 = some (EINVAL, none) :=
  ⟨jwt_decode_two_separators refLibs "eyJhbGciOiJub25lIn0.e30".toList [] 0 (by decide),
    jwt_decode_two_separators refLibs "eyJhbGciOiJub25lIn0.e30".toList [1, 2, 3] 3 (by decide)⟩

/-- C19. A token whose decoded header has no "alg", or an "alg" that equals none
of "none", "HS256", "HS384", "HS512", "RS256" up to letter case, is refused:
`jwt_decode` returns `EINVAL` and leaves `NULL` in `*jwt`, for every key of any
length (`0 ≤ key_len`), every payload and every signature segment. -/
theorem jwt_decode_unknown_alg (E : Libs) (token : List Char) (key : List Nat)
    (key_len : Int) (js : json_t) (hk : 0 ≤ key_len)
    (hjs : jwt_b64_decode E (token.takeWhile (fun c => c ≠ '.')) = some js)
    (halg : ∀ val, get_js_string E (some js) "alg".toList = some val →
      ∀ a, strcasecmp val (jwt_alg_str a) ≠ 0) :
    jwt_decode E token key key_len = some (EINVAL, none) := by
  cases hd : find_dot token with
  | none => simp only [jwt_decode, hd]
  | some p =>
    obtain ⟨head, rest⟩ := p
    have hh := find_dot_takeWhile _ _ _ hd
    cases hb : find_dot rest with
    | none => simp only [jwt_decode, hd, hb]
    | some q =>
      obtain ⟨body, sig⟩ := q
      simp only [jwt_decode, hd, hb]
      have hneg : ¬ key_len < 0 := by omega
      subst hh
      rw [if_neg hneg]
      have hv : ∀ j : jwt_t,
          jwt_verify_head E j (token.takeWhile (fun c => c ≠ '.')) = (EINVAL, j) := by
        intro j
        unfold jwt_verify_head
        simp only [hjs]
        cases hg : get_js_string E (some js) "alg".toList with
        | none => simp only [jwt_str_alg]; rfl
        | some val =>
          have hn := halg val hg
          have h0 := hn JWT_ALG_NONE
          have h1 := hn JWT_ALG_HS256
          have h2 := hn JWT_ALG_HS384
          have h3 := hn JWT_ALG_HS512
          have h4 := hn JWT_ALG_RS256
          simp only [jwt_alg_str] at h0 h1 h2 h3 h4
          simp only [jwt_str_alg, h0, h1, h2, h3, h4, if_false]
          rfl
      simp only [hv]
      rfl

/-- C19 at a token whose header declares "ES256", with a key of 32 bytes, and at a
token whose header has no "alg", without a key. -/
theorem jwt_decode_unknown_alg_witness :
    jwt_decode refLibs "eyJ0eXAiOiJKV1QiLCJhbGciOiJFUzI1NiJ9.e30.c2ln".toList
        (List.replicate 32 7) 32 = some (EINVAL, none) ∧
      jwt_decode refLibs "eyJ0eXAiOiJKV1QifQ.e30.".toList [] 0 = some (EINVAL, none) :=
  ⟨jwt_decode_unknown_alg refLibs _ (List.replicate 32 7) 32
      (JSON_OBJECT [("typ".toList, JSON_STRING "JWT".toList),
        ("alg".toList, JSON_STRING "ES256".toList)])
      (by decide) (by rfl)
      (by
        intro val h
        have h2 : get_js_string refLibs
            (some (JSON_OBJECT [("typ".toList, JSON_STRING "JWT".toList),
              ("alg".toList, JSON_STRING "ES256".toList)])) "alg".toList =
            some "ES256".toList := rfl
        rw [h2] at h
        cases h
        intro a
        cases a <;> decide),
    jwt_decode_unknown_alg refLibs _ [] 0
      (JSON_OBJECT [("typ".toList, JSON_STRING "JWT".toList)])
      (by decide) (by rfl)
      (by
        intro val h
        have h2 : get_js_string refLibs
            (some (JSON_OBJECT [("typ".toList, JSON_STRING "JWT".toList)])) "alg".toList =
            none := rfl
        rw [h2] at h
        cases h)⟩


/-- C20 fails on the code.  Whenever `jwt_decode` returns, its return value is
other than zero exactly when `*jwt` is `NULL`; but it does not return for every
token and key.  For the HS256 token below, whose signature segment does not
match, and a key of 32 bytes, `jwt_verify_sha_hmac` releases its sink twice and
the call is undefined instead of returning `EINVAL` with `NULL` in `*jwt`. -/
theorem jwt_decode_out_pointer :
    (∀ (E : Libs) (token : List Char) (key : List Nat) (key_len r : Int) (t : Option jwt_t),
        jwt_decode E token key key_len = some (r, t) → (r ≠ 0 ↔ t = none)) ∧
      jwt_decode refLibs "eyJ0eXAiOiJKV1QiLCJhbGciOiJIUzI1NiJ9.e30.c2ln".toList
        (List.replicate 32 7) 32 = none := by
  refine ⟨?_, by rfl⟩
  intro E token key key_len r t h
  rcases jwt_decode_returns E token key key_len r t h with ⟨h1, h2⟩ | ⟨h1, new, h2, _⟩
  · exact ⟨fun _ => h2, fun _ => h1⟩
  · subst h1 h2
    simp

/-! ## Claims about the claim store -/

/-- The merge of the specification's example, evaluated: after
`jwt_add_grant(t, "x", "a")` and `jwt_add_grants_json` with an object text that
sets "x" to "b", `jwt_get_grant(t, "x")` returns "b". -/
theorem jwt_add_grants_json_example :
    jwt_get_grant refLibs
        (jwt_add_grants_json refLibs
          (jwt_add_grant refLibs jwt_new (some "x".toList) (some "a".toList)).2
          (some "\x7b\"x\":\"b\"\x7d".toList)).2
        (some "x".toList) = (0, some "b".toList) := by
  rfl

/-- C16 fails on the code.  The token holds "x" with the string value "a",
stored by `jwt_add_grant`: the claim is present and is no integer, and
`jwt_get_grant_int(t, "x")` returns 0, not -1. -/
theorem jwt_get_grant_int_string_claim :
    jwt_get_grant refLibs (jwt_add_grant refLibs jwt_new (some "x".toList) (some "a".toList)).2
        (some "x".toList) = (0, some "a".toList) ∧
      (jwt_get_grant_int (jwt_add_grant refLibs jwt_new (some "x".toList) (some "a".toList)).2
        (some "x".toList)).2 = 0 ∧
      (jwt_get_grant_int (jwt_add_grant refLibs jwt_new (some "x".toList) (some "a".toList)).2
        (some "x".toList)).2 ≠ -1 :=
  ⟨by rfl, by rfl, by decide⟩

/-- C16 as amended.  For every token and every name that is not empty,
`jwt_get_grant_int` returns the value of the claim when it is present and holds an
integer, -1 when it is absent, and 0 when it is present and holds anything else:
the value is read with `json_integer_value`, which yields 0 for what is not an
integer. -/
theorem jwt_get_grant_int_value (jwt : jwt_t) (name : List Char) (h : name ≠ []) :
    jwt_get_grant_int jwt (some name) =
      (0, match jwt.grants.bind (fun g => json_object_get g name) with
          | none => -1
          | some (JSON_INTEGER value) => value
          | some _ => 0) := by
  have hlen : ¬ name.length = 0 := by
    intro h0
    exact h (List.length_eq_zero.mp h0)
  simp only [jwt_get_grant_int, hlen, if_false, get_js_int]
  cases hg : jwt.grants.bind (fun g => json_object_get g name) with
  | none => rfl
  | some v => cases v <;> rfl

/-- C16 as amended, at a token with an integer claim, a string claim and a
boolean claim: present integer, absent, present string, present boolean. -/
theorem jwt_get_grant_int_value_witness :
    jwt_get_grant_int
        { jwt_new with grants := some (JSON_OBJECT
            [("iat".toList, JSON_INTEGER 1475980545), ("sub".toList, JSON_STRING "user0".toList),
              ("adm".toList, JSON_TRUE)]) }
        (some "iat".toList) = (0, 1475980545) ∧
      jwt_get_grant_int
        { jwt_new with grants := some (JSON_OBJECT
            [("iat".toList, JSON_INTEGER 1475980545), ("sub".toList, JSON_STRING "user0".toList),
              ("adm".toList, JSON_TRUE)]) }
        (some "exp".toList) = (0, -1) ∧
      jwt_get_grant_int
        { jwt_new with grants := some (JSON_OBJECT
            [("iat".toList, JSON_INTEGER 1475980545), ("sub".toList, JSON_STRING "user0".toList),
              ("adm".toList, JSON_TRUE)]) }
        (some "sub".toList) = (0, 0) ∧
      jwt_get_grant_int
        { jwt_new with grants := some (JSON_OBJECT
            [("iat".toList, JSON_INTEGER 1475980545), ("sub".toList, JSON_STRING "user0".toList),
              ("adm".toList, JSON_TRUE)]) }
        (some "adm".toList) = (0, 0) :=
  ⟨(jwt_get_grant_int_value _ "iat".toList (by decide)).trans (by rfl),
    (jwt_get_grant_int_value _ "exp".toList (by decide)).trans (by rfl),
    (jwt_get_grant_int_value _ "sub".toList (by decide)).trans (by rfl),
    (jwt_get_grant_int_value _ "adm".toList (by decide)).trans (by rfl)⟩

/-- C17. For every token and every name that is not empty, `jwt_del_grant` returns
0 and changes nothing but the claims; afterwards the name is absent from the
claims and every other name reads as before; if the name was absent the claims
are unchanged.  The algorithm, the key and the key length are as before. -/
theorem jwt_del_grant_removes (jwt : jwt_t) (name : List Char) (h : name ≠ []) :
    (jwt_del_grant jwt (some name)).1 = 0 ∧
      (jwt_del_grant jwt (some name)).2.alg = jwt.alg ∧
      (jwt_del_grant jwt (some name)).2.key = jwt.key ∧
      (jwt_del_grant jwt (some name)).2.key_len = jwt.key_len ∧
      (jwt_del_grant jwt (some name)).2.grants.bind (fun g => json_object_get g name) = none ∧
      (∀ other, other ≠ name →
        (jwt_del_grant jwt (some name)).2.grants.bind (fun g => json_object_get g other) =
          jwt.grants.bind (fun g => json_object_get g other)) ∧
      (jwt.grants.bind (fun g => json_object_get g name) = none →
        (jwt_del_grant jwt (some name)).2 = jwt) := by
  have hlen : ¬ name.length = 0 := by
    intro h0
    exact h (List.length_eq_zero.mp h0)
  obtain ⟨alg, key, key_len, grants⟩ := jwt
  simp only [jwt_del_grant, hlen, if_false, true_and]
  cases grants with
  | none => exact ⟨rfl, fun _ _ => rfl, fun _ => rfl⟩
  | some g =>
    cases g with
    | JSON_OBJECT members =>
      cases hl : members.lookup name with
      | none =>
        simp only [json_object_del, hl, Option.isSome_none, Bool.false_eq_true, if_false,
          Option.bind, json_object_get, implies_true, true_and, and_self]
      | some v =>
        refine ⟨?_, ?_, ?_⟩
        · simp only [json_object_del, hl, Option.isSome_some, if_true, Option.bind,
            json_object_get, lookup_filter_ne, if_true]
        · intro other ho
          simp only [json_object_del, hl, Option.isSome_some, if_true, Option.bind,
            json_object_get, lookup_filter_ne, ho, if_false]
        · intro habs
          simp only [Option.bind, json_object_get, hl] at habs
          cases habs
    | _ => exact ⟨rfl, fun _ _ => rfl, fun _ => rfl⟩

/-- C17 at a token with HS256, a key and two claims: deleting "x" leaves "y", and
deleting the absent "z" leaves the token as it is. -/
theorem jwt_del_grant_removes_witness :
    jwt_del_grant
        { alg := JWT_ALG_HS256, key := some [1, 2, 3], key_len := 3, grants := some (JSON_OBJECT
            [("x".toList, JSON_STRING "a".toList), ("y".toList, JSON_INTEGER 7)]) }
        (some "x".toList) =
      (0, { alg := JWT_ALG_HS256, key := some [1, 2, 3], key_len := 3,
            grants := some (JSON_OBJECT [("y".toList, JSON_INTEGER 7)]) }) ∧
    (jwt_del_grant
        { alg := JWT_ALG_HS256, key := some [1, 2, 3], key_len := 3, grants := some (JSON_OBJECT
            [("x".toList, JSON_STRING "a".toList), ("y".toList, JSON_INTEGER 7)]) }
        (some "z".toList)).2 =
      { alg := JWT_ALG_HS256, key := some [1, 2, 3], key_len := 3, grants := some (JSON_OBJECT
          [("x".toList, JSON_STRING "a".toList), ("y".toList, JSON_INTEGER 7)]) } :=
  ⟨by rfl,
    (jwt_del_grant_removes
      { alg := JWT_ALG_HS256, key := some [1, 2, 3], key_len := 3, grants := some (JSON_OBJECT
          [("x".toList, JSON_STRING "a".toList), ("y".toList, JSON_INTEGER 7)]) }
      "z".toList (by decide)).2.2.2.2.2.2 (by rfl)⟩


/-! ## Claims about the codec -/

/-- The substitution of the decode side, `'-'` to `'+'` and `'_'` to `'/'`. -/
theorem b64_normalise_eq (s : List Char) :
    b64_normalise s =
      s.map (fun c => if c = '-' then '+' else if c = '_' then '/' else c) ++
        List.replicate ((4 - s.length % 4) % 4) '=' := by
  unfold b64_normalise
  simp only [List.length_map]
  have h4 : s.length % 4 < 4 := Nat.mod_lt _ (by decide)
  by_cases hz : s.length % 4 = 0
  · simp [hz]
  · have h1 : 4 - s.length % 4 < 4 := by omega
    rw [if_pos h1, Nat.mod_eq_of_lt h1]

/-- C27. The normalisation shared by `jwt_b64_decode` and `bin_b64_decode`, for
every input `s` of length `n`: the result has the least multiple of 4 that is at
least `n` as its length; its first `n` characters are `s` with `'-'` replaced by
`'+'` and `'_'` by `'/'`; what follows is `'='` only; an input whose length is a
multiple of 4 gets no padding. -/
theorem b64_normalise_shape (s : List Char) :
    (b64_normalise s).length = (s.length + 3) / 4 * 4 ∧
      ((b64_normalise s).length % 4 = 0 ∧ s.length ≤ (b64_normalise s).length ∧
        (b64_normalise s).length < s.length + 4) ∧
      (b64_normalise s).take s.length =
        s.map (fun c => if c = '-' then '+' else if c = '_' then '/' else c) ∧
      (∀ c ∈ (b64_normalise s).drop s.length, c = '=') ∧
      (s.length % 4 = 0 → b64_normalise s =
        s.map (fun c => if c = '-' then '+' else if c = '_' then '/' else c)) := by
  rw [b64_normalise_eq]
  have hlen : (s.map (fun c => if c = '-' then '+' else if c = '_' then '/' else c)).length =
      s.length := List.length_map _ _
  refine ⟨?_, ⟨?_, ?_, ?_⟩, ?_, ?_, ?_⟩
  · simp only [List.length_append, List.length_map, List.length_replicate]
    omega
  · simp only [List.length_append, List.length_map, List.length_replicate]
    omega
  · simp only [List.length_append, List.length_map, List.length_replicate]
    omega
  · simp only [List.length_append, List.length_map, List.length_replicate]
    omega
  · rw [List.take_append_of_le_length (by rw [hlen]), List.take_of_length_le (by rw [hlen])]
  · intro c hc
    rw [List.drop_append_of_le_length (by rw [hlen]), List.drop_of_length_le (by rw [hlen]),
      List.nil_append] at hc
    exact List.eq_of_mem_replicate hc
  · intro h0
    simp [h0]


/-- The header of every algorithm but none is a whole number of groups of three
bytes (27 bytes), so that its base64 text carries no padding. -/
theorem spec_header_secured_length (a : jwt_alg_t) (h : a ≠ JWT_ALG_NONE) :
    ((spec_header a).map byte_of_char).length = 27 := by
  cases a
  · exact absurd rfl h
  all_goals decide

/-- The substitution yields none of `'+'`, `'/'`, and yields `'='` only from `'='`. -/
theorem uri_subst_range (c : Char) :
    uri_subst c ≠ '+' ∧ uri_subst c ≠ '/' ∧ (uri_subst c = '=' → c = '=') := by
  unfold uri_subst
  by_cases h1 : c = '+'
  · simp only [h1, if_true]
    decide
  · by_cases h2 : c = '/'
    · simp only [h1, h2, if_true, if_false]
      decide
    · simp only [h1, h2, if_false]
      exact ⟨h1, h2, id⟩

/-- C30. For every string `s` in which no character other than `'='` follows the
first `'='`, `base64uri_encode` yields `s` with `'+'` replaced by `'-'`, `'/'` by
`'_'` and the trailing run of `'='` removed: the result contains none of `'+'`,
`'/'`, `'='` and its length is that of `s` less the number of `'='`.  The
signature buffer (the base64 text of any bytes) has that shape, and so has the
buffer that holds header, separator and payload of a token with an algorithm
other than none, whose header of 27 bytes encodes without padding. -/
theorem base64uri_encode_trailing_run (s : List Char)
    (h : ∀ c ∈ s.dropWhile (fun c => decide (c ≠ '=')), c = '=') :
    (base64uri_encode s = (s.takeWhile (fun c => decide (c ≠ '='))).map uri_subst ∧
      base64uri_encode s = spec_base64uri_encode s ∧
      '+' ∉ base64uri_encode s ∧ '/' ∉ base64uri_encode s ∧ '=' ∉ base64uri_encode s ∧
      (base64uri_encode s).length = s.length - s.count '=') ∧
    (∀ sig : List Nat, ∀ c ∈ (EVP_EncodeBlock sig).dropWhile (fun c => decide (c ≠ '=')),
      c = '=') ∧
    (∀ (a : jwt_alg_t) (serial : List Nat), a ≠ JWT_ALG_NONE →
      ∀ c ∈ (EVP_EncodeBlock ((spec_header a).map byte_of_char) ++ ".".toList ++
          EVP_EncodeBlock serial).dropWhile (fun c => decide (c ≠ '=')), c = '=') := by
  have key : ∀ xs pad : List Char, '=' ∉ xs → (∀ c ∈ pad, c = '=') →
      (xs ++ pad).dropWhile (fun c => decide (c ≠ '=')) = pad := by
    intro xs pad hx hp
    induction xs with
    | nil =>
      cases pad with
      | nil => rfl
      | cons c r =>
        have hc : c = '=' := hp c (by simp)
        simp [List.dropWhile, hc]
    | cons c r ih =>
      have hc : c ≠ '=' := fun e => hx (by simp [e])
      have hr : '=' ∉ r := fun e => hx (by simp [e])
      simp only [List.cons_append, List.dropWhile, hc, ne_eq, not_false_eq_true, decide_True]
      exact ih hr
  refine ⟨?_, ?_, ?_⟩
  · have hsplit : s = s.takeWhile (fun c => decide (c ≠ '=')) ++
        s.dropWhile (fun c => decide (c ≠ '=')) := (List.takeWhile_append_dropWhile _ _).symm
    have hx : '=' ∉ s.takeWhile (fun c => decide (c ≠ '=')) := by
      intro hmem
      have := List.mem_takeWhile_imp hmem
      simp at this
    have henc : base64uri_encode s =
        (s.takeWhile (fun c => decide (c ≠ '='))).map uri_subst := by
      conv_lhs => rw [hsplit]
      exact base64uri_encode_trailing _ _ hx h
    have hfilter : s.filter (fun c => decide (c ≠ '=')) =
        s.takeWhile (fun c => decide (c ≠ '=')) := by
      conv_lhs => rw [hsplit]
      rw [List.filter_append]
      have h1 : (s.takeWhile (fun c => decide (c ≠ '='))).filter (fun c => decide (c ≠ '=')) =
          s.takeWhile (fun c => decide (c ≠ '=')) := by
        rw [List.filter_eq_self]
        intro c hc
        have := List.mem_takeWhile_imp hc
        simpa using this
      have h2 : (s.dropWhile (fun c => decide (c ≠ '='))).filter (fun c => decide (c ≠ '=')) =
          [] := by
        rw [List.filter_eq_nil_iff]
        intro c hc
        simp [h c hc]
      rw [h1, h2, List.append_nil]
    have hcount : s.count '=' = (s.dropWhile (fun c => decide (c ≠ '='))).length := by
      conv_lhs => rw [hsplit]
      rw [List.count_append, List.count_eq_zero_of_not_mem hx, Nat.zero_add]
      exact List.count_eq_length.mpr (fun c hc => (h c hc).symm)
    have hlen : s.length = (s.takeWhile (fun c => decide (c ≠ '='))).length +
        (s.dropWhile (fun c => decide (c ≠ '='))).length := by
      conv_lhs => rw [hsplit]
      exact List.length_append _ _
    refine ⟨henc, ?_, ?_, ?_, ?_, ?_⟩
    · rw [henc, spec_base64uri_encode, hfilter]
    · rw [henc]
      intro hmem
      obtain ⟨c, _, hc⟩ := List.mem_map.mp hmem
      exact (uri_subst_range c).1 hc
    · rw [henc]
      intro hmem
      obtain ⟨c, _, hc⟩ := List.mem_map.mp hmem
      exact (uri_subst_range c).2.1 hc
    · rw [henc]
      intro hmem
      obtain ⟨c, hcm, hc⟩ := List.mem_map.mp hmem
      exact hx ((uri_subst_range c).2.2 hc ▸ hcm)
    · rw [henc, List.length_map, hcount]
      omega
  · intro sig
    obtain ⟨body, pad, he, hb, hp, _, _⟩ := EVP_EncodeBlock_split sig
    rw [he, key body pad hb hp]
    exact hp
  · intro a serial ha
    obtain ⟨b1, p1, he1, hb1, _, _, hz1⟩ := EVP_EncodeBlock_split ((spec_header a).map byte_of_char)
    obtain ⟨b2, p2, he2, hb2, hp2, _, _⟩ := EVP_EncodeBlock_split serial
    have hp1 := hz1 (by rw [spec_header_secured_length a ha])
    subst hp1
    rw [he1, he2, List.append_nil, ← List.append_assoc, key (b1 ++ ".".toList ++ b2) p2 _ hp2]
    · exact hp2
    · intro hmem
      simp only [List.mem_append] at hmem
      rcases hmem with (h1 | h1) | h1
      · exact hb1 h1
      · exact absurd h1 (by decide)
      · exact hb2 h1

/-- C30 at the base64 text of the two bytes 251 and 255, which holds `'+'`, `'/'`
and one `'='` at its end. -/
theorem base64uri_encode_trailing_run_witness :
    EVP_EncodeBlock [251, 255] = "+/8=".toList ∧ base64uri_encode "+/8=".toList = "-_8".toList :=
  ⟨by decide,
    ((base64uri_encode_trailing_run "+/8=".toList (by decide)).1.1).trans (by decide)⟩

/-- C26 fails on the code.  The buffer that `jwt_encode_bio` hands to
`base64uri_encode` for a token with algorithm none and empty claims is the base64
text of the header (14 bytes, hence one `'='`), the separator and the base64 text
of the payload.  The `'='` stands in the middle: the function leaves it in
place and cuts the last character, where the claim has the `'='` deleted and all
other characters kept.  The loop stores only at `'+'` and `'/'`; it has no
statement that moves another character down to the write index. -/
theorem base64uri_encode_inner_pad :
    EVP_EncodeBlock ((spec_header JWT_ALG_NONE).map byte_of_char) ++ ".".toList ++
        EVP_EncodeBlock ("\x7b\x7d".toList.map byte_of_char) = "eyJhbGciOiJub25lIn0=.e30=".toList ∧
      base64uri_encode "eyJhbGciOiJub25lIn0=.e30=".toList = "eyJhbGciOiJub25lIn0=.e3".toList ∧
      spec_base64uri_encode "eyJhbGciOiJub25lIn0=.e30=".toList = "eyJhbGciOiJub25lIn0.e30".toList ∧
      base64uri_encode "eyJhbGciOiJub25lIn0=.e30=".toList ≠
        spec_base64uri_encode "eyJhbGciOiJub25lIn0=.e30=".toList ∧
      base64uri_encode "a=b".toList = "a=".toList ∧
      base64uri_encode "=+".toList = "-".toList ∧
      spec_base64uri_encode "a=b".toList = "ab".toList := by
  refine ⟨by decide, by decide, by decide, by decide, by decide, by decide, by decide⟩


/-! ## Claims about the algorithm labels -/

/-- Two strings that agree after case folding compare equal under `strcasecmp`. -/
theorem strcasecmp_of_map_tolower (s l : List Char) (h : s.map tolower = l.map tolower) :
    strcasecmp s l = 0 := by
  induction s generalizing l with
  | nil =>
    cases l with
    | nil => rfl
    | cons d r => simp at h
  | cons c r ih =>
    cases l with
    | nil => simp at h
    | cons d u =>
      simp only [List.map_cons, List.cons.injEq] at h
      simp only [strcasecmp, h.1, if_true]
      exact ih u h.2

/-- A string without NUL that `strcasecmp` equates with a label agrees with that
label after case folding. -/
theorem map_tolower_of_strcasecmp (s : List Char) (a : jwt_alg_t) (hs : ∀ c ∈ s, c.toNat ≠ 0)
    (h : strcasecmp s (jwt_alg_str a) = 0) : s.map tolower = (jwt_alg_str a).map tolower :=
  strcasecmp_fold s s (jwt_alg_str a) hs (jwt_alg_str_no_nul a) (strcasecmp_self s) h

/-- C22. The labels and `jwt_str_alg` match up to letter case, one to one.  For
every C string `s`: when `s` is a letter-case variant of the label of a tag `a`
(the two agree after folding the letters), `jwt_str_alg(t, s)` returns 0 and stores
`a`, leaving the rest of the token alone; the labels of two distinct tags differ,
also after folding; and when `s` is a variant of no label, `jwt_str_alg` returns
`EINVAL` and leaves the token as it is. -/
theorem jwt_str_alg_bijection (jwt : jwt_t) (s : List Char) (hs : ∀ c ∈ s, c.toNat ≠ 0) :
    (∀ a, s.map tolower = (jwt_alg_str a).map tolower →
      jwt_str_alg jwt (some s) = (0, { jwt with alg := a })) ∧
    (∀ a b, a ≠ b → jwt_alg_str a ≠ jwt_alg_str b ∧
      (jwt_alg_str a).map tolower ≠ (jwt_alg_str b).map tolower) ∧
    ((∀ a, s.map tolower ≠ (jwt_alg_str a).map tolower) →
      jwt_str_alg jwt (some s) = (EINVAL, jwt)) := by
  refine ⟨?_, ?_, ?_⟩
  · intro a h
    exact jwt_str_alg_label jwt s a (strcasecmp_of_map_tolower _ _ h)
  · intro a b hab
    refine ⟨fun h => hab (jwt_alg_str_fold_inj a b (by rw [h])), fun h => ?_⟩
    exact hab (jwt_alg_str_fold_inj a b h)
  · intro hno
    have key : ∀ a, strcasecmp s (jwt_alg_str a) ≠ 0 := fun a h =>
      hno a (map_tolower_of_strcasecmp s a hs h)
    have h0 := key JWT_ALG_NONE
    have h1 := key JWT_ALG_HS256
    have h2 := key JWT_ALG_HS384
    have h3 := key JWT_ALG_HS512
    have h4 := key JWT_ALG_RS256
    simp only [jwt_alg_str] at h0 h1 h2 h3 h4
    simp only [jwt_str_alg, h0, h1, h2, h3, h4, if_false]

/-- C22 at the strings "hS256", a variant of the label of HS256, and "ES256", a
variant of no label, on a token that holds RS256. -/
theorem jwt_str_alg_bijection_witness :
    jwt_str_alg { alg := JWT_ALG_RS256, key := none, key_len := 0, grants := none }
        (some "hS256".toList) =
      (0, { alg := JWT_ALG_HS256, key := none, key_len := 0, grants := none }) ∧
    jwt_str_alg { alg := JWT_ALG_RS256, key := none, key_len := 0, grants := none }
        (some "ES256".toList) =
      (EINVAL, { alg := JWT_ALG_RS256, key := none, key_len := 0, grants := none }) :=
  ⟨(jwt_str_alg_bijection _ "hS256".toList (by decide)).1 JWT_ALG_HS256 (by decide),
    (jwt_str_alg_bijection _ "ES256".toList (by decide)).2.2 (by intro a; cases a <;> decide)⟩

/-! ## More claims about the claim store -/

/-- C28. For every token and every name that is not empty, `jwt_get_grant` returns
the string itself when the claim holds a string, what `json_dumps` with
`JSON_COMPACT | JSON_ENCODE_ANY` makes of the value when the claim holds anything
else, and `NULL` when the claim is absent.  Consequently `jwt_add_grant` returns
`EEXIST` and changes nothing whenever the name is present with a string, or with
a value of another type that `json_dumps` prints. -/
theorem jwt_get_grant_value (E : Libs) (jwt : jwt_t) (name : List Char) (h : name ≠ []) :
    jwt_get_grant E jwt (some name) =
      (0, match jwt.grants.bind (fun g => json_object_get g name) with
          | none => none
          | some (JSON_STRING value) => some value
          | some v => E.json_dumps v (JSON_COMPACT ||| JSON_ENCODE_ANY)) ∧
    (∀ v val, jwt.grants.bind (fun g => json_object_get g name) = some v →
      ((∃ s, v = JSON_STRING s) ∨ (E.json_dumps v (JSON_COMPACT ||| JSON_ENCODE_ANY)).isSome) →
      jwt_add_grant E jwt (some name) (some val) = (EEXIST, jwt)) := by
  have hlen : ¬ name.length = 0 := by
    intro h0
    exact h (List.length_eq_zero.mp h0)
  have hget : get_js_string E jwt.grants name =
      match jwt.grants.bind (fun g => json_object_get g name) with
      | none => none
      | some (JSON_STRING value) => some value
      | some v => E.json_dumps v (JSON_COMPACT ||| JSON_ENCODE_ANY) := by
    unfold get_js_string
    cases hg : jwt.grants.bind (fun g => json_object_get g name) with
    | none => rfl
    | some v => cases v <;> rfl
  refine ⟨?_, ?_⟩
  · simp only [jwt_get_grant, hlen, if_false, hget]
  · intro v val hv hp
    have hsome : (get_js_string E jwt.grants name).isSome = true := by
      rw [hget, hv]
      rcases hp with ⟨s, rfl⟩ | hp
      · rfl
      · cases v <;> first | rfl | exact hp
    simp only [jwt_add_grant, hlen, if_false, hsome, if_true]

/-- C28 at a token with an integer claim and a string claim: the digits of the
integer, the string, `NULL` for an absent name, and `EEXIST` from `jwt_add_grant`
on the integer claim. -/
theorem jwt_get_grant_value_witness :
    jwt_get_grant refLibs
        { jwt_new with grants := some (JSON_OBJECT
            [("iat".toList, JSON_INTEGER 1475980545), ("sub".toList, JSON_STRING "user0".toList)]) }
        (some "iat".toList) = (0, some "1475980545".toList) ∧
      jwt_get_grant refLibs
        { jwt_new with grants := some (JSON_OBJECT
            [("iat".toList, JSON_INTEGER 1475980545), ("sub".toList, JSON_STRING "user0".toList)]) }
        (some "sub".toList) = (0, some "user0".toList) ∧
      jwt_get_grant refLibs
        { jwt_new with grants := some (JSON_OBJECT
            [("iat".toList, JSON_INTEGER 1475980545), ("sub".toList, JSON_STRING "user0".toList)]) }
        (some "exp".toList) = (0, none) ∧
      (jwt_add_grant refLibs
        { jwt_new with grants := some (JSON_OBJECT
            [("iat".toList, JSON_INTEGER 1475980545), ("sub".toList, JSON_STRING "user0".toList)]) }
        (some "iat".toList) (some "now".toList)).1 = EEXIST :=
  ⟨(jwt_get_grant_value refLibs _ "iat".toList (by decide)).1.trans (by rfl),
    (jwt_get_grant_value refLibs _ "sub".toList (by decide)).1.trans (by rfl),
    (jwt_get_grant_value refLibs _ "exp".toList (by decide)).1.trans (by rfl),
    congrArg Prod.fst ((jwt_get_grant_value refLibs
      { jwt_new with grants := some (JSON_OBJECT
          [("iat".toList, JSON_INTEGER 1475980545), ("sub".toList, JSON_STRING "user0".toList)]) }
      "iat".toList (by decide)).2 (JSON_INTEGER 1475980545) "now".toList (by rfl)
      (Or.inr (by rfl)))⟩


/-- The reference `json_loads` returns an object or an array, never a scalar. -/
theorem ref_json_loads_root (text : List Char) (flags : Nat) (v : json_t)
    (h : ref_json_loads text flags = some v) :
    json_is_object v = true ∨ json_is_array v = true := by
  unfold ref_json_loads at h
  split at h
  · split at h
    · cases h; exact Or.inl rfl
    · cases h
  · split at h
    · cases h; exact Or.inr rfl
    · cases h
  · cases h

/-- C24 fails on the code.  The payload segment of this token is the base64url
text of `[]`; `jwt_decode` without a key returns 0 and hands back a token whose
claims are a JSON array. -/
theorem jwt_decode_array_root :
    jwt_decode refLibs "eyJhbGciOiJub25lIn0.W10.".toList [] 0 =
      some (0, some { alg := JWT_ALG_NONE, key := none, key_len := 0,
                      grants := some (JSON_ARRAY []) }) := by
  rfl

/-- The claims of a token that `jwt_decode` hands back are the empty object of
`jwt_new` or what `jwt_b64_decode` made of a segment of the token. -/
theorem jwt_decode_grants (E : Libs) (token : List Char) (key : List Nat) (key_len : Int)
    (t : jwt_t) (h : jwt_decode E token key key_len = some (0, some t)) :
    t.grants = some (JSON_OBJECT []) ∨
      ∃ body g, jwt_b64_decode E body = some g ∧ t.grants = some g := by
  unfold jwt_decode at h
  cases hd : find_dot token with
  | none =>
    simp only [hd] at h
    cases h
  | some p =>
    obtain ⟨head, rest⟩ := p
    simp only [hd] at h
    cases hb : find_dot rest with
    | none =>
      simp only [hb] at h
      cases h
    | some q =>
      obtain ⟨body, sig⟩ := q
      simp only [hb] at h
      by_cases hneg : key_len < 0
      · rw [if_pos hneg] at h
        cases h
        exact Or.inl rfl
      · rw [if_neg hneg] at h
        generalize jwt_verify_head E _ head = vh at h
        obtain ⟨ret1, new1⟩ := vh
        simp only at h
        by_cases h1 : ret1 ≠ 0
        · rw [if_pos h1] at h
          cases h
        · rw [if_neg h1] at h
          have hpb : jwt_parse_body E new1 body =
              match jwt_b64_decode E body with
              | none => (EINVAL, { new1 with grants := none })
              | some js => (0, { new1 with grants := some js }) := rfl
          cases hjs : jwt_b64_decode E body with
          | none =>
            rw [hjs] at hpb
            rw [hpb] at h
            simp [EINVAL] at h
          | some g =>
            rw [hjs] at hpb
            rw [hpb] at h
            simp only [ne_eq, not_true_eq_false, if_false] at h
            generalize (if ¬ new1.alg = JWT_ALG_NONE then
                jwt_verify_signature E { new1 with grants := some g } (head ++ '.' :: body) sig
              else if key_len > 0 then some EINVAL else some 0) = vs at h
            cases vs with
            | none => cases h
            | some ret3 =>
              simp only at h
              by_cases h3 : ret3 = 0
              · simp only [h3, not_true_eq_false, if_false, Option.some.injEq, Prod.mk.injEq,
                  true_and] at h
                subst h
                exact Or.inr ⟨body, g, hjs, rfl⟩
              · simp only [h3, not_false_eq_true, if_true, Option.some.injEq, Prod.mk.injEq] at h
                exact h.1.elim

/-- C24 as amended.  The root of the claims of a token made by `jwt_new` is a
JSON object and every grant operation keeps it one.  The claims of a token that
a successful `jwt_decode` hands back are what the payload segment parsed to:
with a `json_loads` that accepts an object or an array at the root and nothing
else, an object or an array, never a scalar; `jwt_decode` does not look at
the type of the root. -/
theorem claims_root (E : Libs)
    (hE : ∀ text v, E.json_loads text 0 = some v →
      json_is_object v = true ∨ json_is_array v = true) :
    (∃ m, jwt_new.grants = some (JSON_OBJECT m)) ∧
    (∀ (jwt : jwt_t) (grant val json : Option (List Char)) (n : Int),
      (∃ m, jwt.grants = some (JSON_OBJECT m)) →
        (∃ m, (jwt_add_grant E jwt grant val).2.grants = some (JSON_OBJECT m)) ∧
        (∃ m, (jwt_add_grant_int jwt grant n).2.grants = some (JSON_OBJECT m)) ∧
        (∃ m, (jwt_add_grants_json E jwt json).2.grants = some (JSON_OBJECT m)) ∧
        (∃ m, (jwt_del_grant jwt grant).2.grants = some (JSON_OBJECT m))) ∧
    (∀ (token : List Char) (key : List Nat) (key_len : Int) (t : jwt_t),
      jwt_decode E token key key_len = some (0, some t) →
        ∃ g, t.grants = some g ∧ (json_is_object g = true ∨ json_is_array g = true)) := by
  refine ⟨⟨[], rfl⟩, ?_, ?_⟩
  · intro jwt grant val json n ⟨m, hm⟩
    have hset : ∀ (k : List Char) (v : Option json_t),
        ∃ m2, (json_object_set_new (some (JSON_OBJECT m)) k v).2 = some (JSON_OBJECT m2) := by
      intro k v
      unfold json_object_set_new
      by_cases hu : utf8_check_string k = true
      · rw [if_pos hu]
        cases v with
        | none => exact ⟨m, rfl⟩
        | some w => exact ⟨_, rfl⟩
      · rw [if_neg hu]
        exact ⟨m, rfl⟩
    refine ⟨?_, ?_, ?_, ?_⟩
    · unfold jwt_add_grant
      split
      · split_ifs
        · exact ⟨m, hm⟩
        · exact ⟨m, hm⟩
        · rw [hm]
          exact hset _ _
      · exact ⟨m, hm⟩
    · unfold jwt_add_grant_int
      split
      · exact ⟨m, hm⟩
      · split_ifs
        · exact ⟨m, hm⟩
        · exact ⟨m, hm⟩
        · rw [hm]
          exact hset _ _
    · unfold jwt_add_grants_json
      split
      · exact ⟨m, hm⟩
      · rename_i grants _
        rw [hm]
        cases grants <;> exact ⟨_, rfl⟩
    · unfold jwt_del_grant
      split
      · exact ⟨m, hm⟩
      · split_ifs
        · exact ⟨m, hm⟩
        · rw [hm]
          rename_i g _
          by_cases hl : (m.lookup g).isSome = true
          · exact ⟨m.filter (fun e => decide (e.1 ≠ g)), by simp only [json_object_del, hl, if_true]⟩
          · exact ⟨m, by simp [json_object_del, hl]⟩
  · intro token key key_len t h
    rcases jwt_decode_grants E token key key_len t h with h0 | ⟨body, g, hb, hg⟩
    · exact ⟨_, h0, Or.inl rfl⟩
    · refine ⟨g, hg, ?_⟩
      unfold jwt_b64_decode at hb
      simp only at hb
      split_ifs at hb
      exact hE _ _ hb

/-- C24 as amended, at the reference instance: a token with a claim added, and
the token decoded from a payload that is the text of the empty array. -/
theorem claims_root_witness :
    (∃ m, (jwt_add_grant refLibs jwt_new (some "x".toList) (some "a".toList)).2.grants =
        some (JSON_OBJECT m)) ∧
      jwt_decode refLibs "eyJhbGciOiJub25lIn0.W10.".toList [] 0 =
        some (0, some { alg := JWT_ALG_NONE, key := none, key_len := 0,
                        grants := some (JSON_ARRAY []) }) ∧
      (∃ g, ({ alg := JWT_ALG_NONE, key := none, key_len := 0,
               grants := some (JSON_ARRAY []) } : jwt_t).grants = some g ∧
        (json_is_object g = true ∨ json_is_array g = true)) :=
  ⟨((claims_root refLibs (fun text v h => ref_json_loads_root text 0 v h)).2.1 jwt_new
      (some "x".toList) (some "a".toList) none 0 ⟨[], rfl⟩).1,
    by rfl,
    (claims_root refLibs (fun text v h => ref_json_loads_root text 0 v h)).2.2
      "eyJhbGciOiJub25lIn0.W10.".toList [] 0
      { alg := JWT_ALG_NONE, key := none, key_len := 0, grants := some (JSON_ARRAY []) } (by rfl)⟩


/-! ## The codec round trip -/

/-- The substitution of the decode side maps the URL-safe alphabet back onto the
standard one. -/
theorem b64_unsubst_b64url_char (n : Nat) :
    (fun c : Char => if c = '-' then '+' else if c = '_' then '/' else c) (b64url_char n) =
      conv_bin2ascii n := by
  unfold conv_bin2ascii b64url_char
  have h : n % 64 < 64 := Nat.mod_lt _ (by decide)
  generalize n % 64 = i at h
  interval_cases i <;> decide

/-- The normalisation of `bin_b64_decode` turns the unpadded base64url text of a
byte string back into its padded base64 text. -/
theorem b64_normalise_B64U (bs : List Nat) : b64_normalise (B64U bs) = EVP_EncodeBlock bs := by
  rw [b64_normalise_eq]
  induction bs using EVP_EncodeBlock.induct with
  | case1 a b c rest ih =>
    have hl : (B64U (a :: b :: c :: rest)).length % 4 = (B64U rest).length % 4 := by
      simp only [B64U, List.length_cons]
      omega
    rw [hl]
    simp only [B64U, EVP_EncodeBlock, List.map_cons, List.cons_append, ← ih,
      b64_unsubst_b64url_char]
  | case2 a b => simp [B64U, EVP_EncodeBlock, b64_unsubst_b64url_char]
  | case3 a => simp [B64U, EVP_EncodeBlock, b64_unsubst_b64url_char]
  | case4 => rfl

/-- The base64 value of a base64 character is the six-bit group it stands for. -/
theorem conv_ascii2bin_conv_bin2ascii (n : Nat) :
    conv_ascii2bin (conv_bin2ascii n) = some (n % 64) := by
  unfold conv_bin2ascii
  have h : n % 64 < 64 := Nat.mod_lt _ (by decide)
  generalize n % 64 = i at h
  interval_cases i <;> decide

/-- The padding count looks at the last two characters only. -/
theorem b64_padding_append (pre text : List Char) (h : 2 ≤ text.length) :
    b64_padding (pre ++ text) = b64_padding text := by
  unfold b64_padding
  rw [List.reverse_append]
  cases hr : text.reverse with
  | nil =>
    have := congrArg List.length hr
    rw [List.length_reverse, List.length_nil] at this
    omega
  | cons x tl =>
    cases tl with
    | nil =>
      have := congrArg List.length hr
      rw [List.length_reverse, List.length_cons, List.length_nil] at this
      omega
    | cons y tl2 =>
      simp only [List.cons_append]
      by_cases hx : x = '='
      · by_cases hy : y = '='
        · subst hx hy; rfl
        · subst hx
          cases tl2 <;> simp [hy]
      · cases tl2 <;> simp [hx]

/-- The length of the padded base64 text. -/
theorem EVP_EncodeBlock_length (bs : List Nat) :
    (EVP_EncodeBlock bs).length = (bs.length + 2) / 3 * 4 := by
  induction bs using EVP_EncodeBlock.induct with
  | case1 a b c rest ih =>
    simp only [EVP_EncodeBlock, List.length_cons, ih]
    omega
  | case2 a b => simp [EVP_EncodeBlock]
  | case3 a => simp [EVP_EncodeBlock]
  | case4 => rfl

/-- Decoding the blocks of a padded base64 text gives the bytes back, followed by
a zero byte for each padding character. -/
theorem EVP_DecodeBlock_EVP_EncodeBlock (bs : List Nat) (hb : ∀ x ∈ bs, x < 256) :
    EVP_DecodeBlock (EVP_EncodeBlock bs) =
      some (bs ++ List.replicate ((3 - bs.length % 3) % 3) 0) := by
  induction bs using EVP_EncodeBlock.induct with
  | case1 a b c rest ih =>
    have ha : a < 256 := hb a (by simp)
    have hb2 : b < 256 := hb b (by simp)
    have hc : c < 256 := hb c (by simp)
    have ih2 := ih (fun x hx => hb x (by simp [hx]))
    have hl : (a :: b :: c :: rest).length % 3 = rest.length % 3 := by
      simp only [List.length_cons]
      omega
    rw [hl]
    simp only [EVP_EncodeBlock, EVP_DecodeBlock, conv_ascii2bin_conv_bin2ascii, ih2,
      List.cons_append, Option.some.injEq, List.cons.injEq, and_true]
    refine ⟨?_, ?_, ?_⟩ <;> omega
  | case2 a b =>
    have ha : a < 256 := hb a (by simp)
    have hb2 : b < 256 := hb b (by simp)
    have hpad : conv_ascii2bin '=' = some 0 := by decide
    simp only [EVP_EncodeBlock, EVP_DecodeBlock, conv_ascii2bin_conv_bin2ascii, hpad,
      List.length_cons, List.length_nil, List.cons_append, List.nil_append, Option.some.injEq]
    have e1 : a / 4 % 64 * 4 + (a % 4 * 16 + b / 16) % 64 / 16 = a := by omega
    have e2 : (a % 4 * 16 + b / 16) % 64 % 16 * 16 + b % 16 * 4 % 64 / 4 = b := by omega
    have e3 : b % 16 * 4 % 64 % 4 * 64 + 0 = 0 := by omega
    rw [e1, e2, e3]
    rfl
  | case3 a =>
    have ha : a < 256 := hb a (by simp)
    have hpad : conv_ascii2bin '=' = some 0 := by decide
    simp only [EVP_EncodeBlock, EVP_DecodeBlock, conv_ascii2bin_conv_bin2ascii, hpad,
      List.length_cons, List.length_nil, List.cons_append, List.nil_append, Option.some.injEq]
    have e1 : a / 4 % 64 * 4 + a % 4 * 16 % 64 / 16 = a := by omega
    have e2 : a % 4 * 16 % 64 % 16 * 16 + 0 / 4 = 0 := by omega
    rw [e1, e2]
    rfl
  | case4 => rfl

/-- The padding count of a padded base64 text. -/
theorem b64_padding_EVP_EncodeBlock (bs : List Nat) :
    b64_padding (EVP_EncodeBlock bs) = (3 - bs.length % 3) % 3 := by
  induction bs using EVP_EncodeBlock.induct with
  | case1 a b c rest ih =>
    have hl : (a :: b :: c :: rest).length % 3 = rest.length % 3 := by
      simp only [List.length_cons]
      omega
    rw [hl, ← ih]
    cases rest with
    | nil =>
      have h4 := conv_bin2ascii_ne_pad (c % 64)
      simp only [EVP_EncodeBlock, b64_padding, List.reverse_cons, List.reverse_nil,
        List.nil_append, List.cons_append]
      split
      · rename_i heq
        simp only [List.cons.injEq] at heq
        exact absurd heq.1 h4
      · rename_i heq
        simp only [List.cons.injEq] at heq
        exact absurd heq.1 h4
      · rfl
    | cons d rest2 =>
      have hlen : 2 ≤ (EVP_EncodeBlock (d :: rest2)).length := by
        rw [EVP_EncodeBlock_length]
        simp only [List.length_cons]
        omega
      have := b64_padding_append
        [conv_bin2ascii (a / 4), conv_bin2ascii (a % 4 * 16 + b / 16),
          conv_bin2ascii (b % 16 * 4 + c / 64), conv_bin2ascii (c % 64)]
        (EVP_EncodeBlock (d :: rest2)) hlen
      simpa [EVP_EncodeBlock] using this
  | case2 a b =>
    have h3 := conv_bin2ascii_ne_pad (b % 16 * 4)
    simp only [EVP_EncodeBlock, b64_padding, List.reverse_cons, List.reverse_nil,
      List.nil_append, List.cons_append]
    split
    · rename_i heq
      simp only [List.cons.injEq] at heq
      exact absurd heq.2.1 h3
    · rfl
    · rename_i _ hno
      exact (hno _ rfl).elim
  | case3 a => rfl
  | case4 => rfl

/-- The reference base64 reader gives back the bytes of a padded base64 text. -/
theorem ref_b64_read_EVP_EncodeBlock (bs : List Nat) (hb : ∀ x ∈ bs, x < 256) :
    ref_b64_read (EVP_EncodeBlock bs) = bs := by
  unfold ref_b64_read
  rw [EVP_DecodeBlock_EVP_EncodeBlock bs hb, b64_padding_EVP_EncodeBlock]
  simp

/-- C23. The codec round trip.  For every byte string `b` that the base64 reader
gives back from the padded text `EVP_EncodeBlock b` (as the reference reader does
for every byte string): the encoding of `b`, standard base64 followed by
`base64uri_encode`, is normalised and padded again by the decode side to
`EVP_EncodeBlock b` itself, and reading that text gives `b`.  The function
`bin_b64_decode` as a whole hands back `b` for every `b` that is not empty; the
text of the empty byte string is empty, and `bin_b64_decode` returns -1 for it
before it reads. -/
theorem b64_round_trip (E : Libs) (b : List Nat) (hread : E.b64_read (EVP_EncodeBlock b) = b) :
    b64_normalise (base64uri_encode (EVP_EncodeBlock b)) = EVP_EncodeBlock b ∧
      E.b64_read (b64_normalise (base64uri_encode (EVP_EncodeBlock b))) = b ∧
      (b ≠ [] → bin_b64_decode E (base64uri_encode (EVP_EncodeBlock b)) = some b) ∧
      (b = [] → bin_b64_decode E (base64uri_encode (EVP_EncodeBlock b)) = none) := by
  have hn : b64_normalise (base64uri_encode (EVP_EncodeBlock b)) = EVP_EncodeBlock b := by
    rw [base64uri_encode_EVP_EncodeBlock, b64_normalise_B64U]
  refine ⟨hn, by rw [hn, hread], ?_, ?_⟩
  · intro hne
    have hpos : ¬ (((EVP_EncodeBlock b).length : Int) ≤ 0) := by
      have := EVP_EncodeBlock_ne_nil b hne
      have hl : 0 < (EVP_EncodeBlock b).length := List.length_pos.mpr this
      omega
    simp only [bin_b64_decode, hn, hpos, if_false, hread]
  · intro he
    subst he
    rfl

/-- C23 at the bytes 251, 255, 0, 62, whose text holds both characters that the
URL-safe alphabet replaces. -/
theorem b64_round_trip_witness :
    base64uri_encode (EVP_EncodeBlock [251, 255, 0, 62]) = "-_8APg".toList ∧
      refLibs.b64_read (b64_normalise "-_8APg".toList) = [251, 255, 0, 62] ∧
      bin_b64_decode refLibs "-_8APg".toList = some [251, 255, 0, 62] :=
  ⟨by decide,
    (b64_round_trip refLibs [251, 255, 0, 62]
      (ref_b64_read_EVP_EncodeBlock [251, 255, 0, 62] (by decide))).2.1,
    (b64_round_trip refLibs [251, 255, 0, 62]
      (ref_b64_read_EVP_EncodeBlock [251, 255, 0, 62] (by decide))).2.2.1 (by decide)⟩


/-! ## Sorted keys -/

/-- Swapping the arguments of `strcmp` changes the sign of the result. -/
theorem strcmp_swap (a b : List Char) : strcmp b a = - strcmp a b := by
  induction a generalizing b with
  | nil =>
    cases b with
    | nil => rfl
    | cons d s => simp [strcmp]
  | cons c r ih =>
    cases b with
    | nil => simp [strcmp]
    | cons d s =>
      simp only [strcmp]
      by_cases h : c = d
      · subst h
        simp only [if_true]
        exact ih s
      · have h2 : ¬ d = c := fun e => h e.symm
        simp only [h, h2, if_false]
        omega

/-- On strings without NUL, `strcmp a b ≤ 0` is transitive. -/
theorem strcmp_trans (a b c : List Char) (ha : ∀ x ∈ a, x.toNat ≠ 0) (hb : ∀ x ∈ b, x.toNat ≠ 0)
    (h1 : strcmp a b ≤ 0) (h2 : strcmp b c ≤ 0) : strcmp a c ≤ 0 := by
  induction a generalizing b c with
  | nil =>
    cases c with
    | nil => simp [strcmp]
    | cons z cs =>
      simp only [strcmp]
      omega
  | cons x as ih =>
    have hx : x.toNat ≠ 0 := ha x (by simp)
    cases b with
    | nil =>
      simp only [strcmp] at h1
      omega
    | cons y bs =>
      have hy : y.toNat ≠ 0 := hb y (by simp)
      cases c with
      | nil =>
        simp only [strcmp] at h2
        omega
      | cons z cs =>
        simp only [strcmp] at h1 h2 ⊢
        by_cases hxy : x = y
        · subst hxy
          simp only [if_true] at h1
          by_cases hxz : x = z
          · subst hxz
            simp only [if_true] at h2 ⊢
            exact ih bs cs (fun t ht => ha t (by simp [ht])) (fun t ht => hb t (by simp [ht])) h1 h2
          · simp only [hxz, if_false] at h2 ⊢
            exact h2
        · simp only [hxy, if_false] at h1
          have hlt : x.toNat < y.toNat := by
            have : x.toNat ≠ y.toNat := fun e => hxy (char_toNat_inj _ _ e)
            omega
          by_cases hyz : y = z
          · subst hyz
            simp only [hxy, if_false]
            omega
          · simp only [hyz, if_false] at h2
            have hxz : ¬ x = z := by
              intro e
              subst e
              omega
            simp only [hxz, if_false]
            omega

/-- Inserting an entry into a list keeps the entries. -/
theorem json_members_insert_perm (m : List Char × json_t) (l : List (List Char × json_t)) :
    (json_members_insert m l).Perm (m :: l) := by
  induction l with
  | nil => exact List.Perm.refl _
  | cons m0 rest ih =>
    unfold json_members_insert
    by_cases h : json_key_le m.1 m0.1 = true
    · rw [if_pos h]
    · rw [if_neg h]
      exact (List.Perm.cons m0 ih).trans (List.Perm.swap m m0 rest)

/-- Sorting keeps the entries. -/
theorem json_members_sort_perm (l : List (List Char × json_t)) : (json_members_sort l).Perm l := by
  induction l with
  | nil => exact List.Perm.refl _
  | cons m rest ih =>
    have : json_members_sort (m :: rest) = json_members_insert m (json_members_sort rest) := rfl
    rw [this]
    exact (json_members_insert_perm m _).trans (List.Perm.cons m ih)

/-- Inserting an entry into a list in key order leaves it in key order. -/
theorem json_members_insert_sorted (m : List Char × json_t) (l : List (List Char × json_t))
    (hm : ∀ x ∈ m.1, x.toNat ≠ 0) (hl : ∀ e ∈ l, ∀ x ∈ e.1, x.toNat ≠ 0)
    (hs : l.Pairwise (fun a b => strcmp a.1 b.1 ≤ 0)) :
    (json_members_insert m l).Pairwise (fun a b => strcmp a.1 b.1 ≤ 0) := by
  induction l with
  | nil => exact List.pairwise_singleton _ _
  | cons m0 rest ih =>
    unfold json_members_insert
    have hs2 := List.pairwise_cons.mp hs
    by_cases h : json_key_le m.1 m0.1 = true
    · rw [if_pos h]
      have hle : strcmp m.1 m0.1 ≤ 0 := by simpa [json_key_le] using h
      refine List.pairwise_cons.mpr ⟨?_, hs⟩
      intro e he
      rcases List.mem_cons.mp he with rfl | he
      · exact hle
      · exact strcmp_trans _ _ _ hm (hl m0 (by simp)) hle (hs2.1 e he)
    · rw [if_neg h]
      have hgt : ¬ strcmp m.1 m0.1 ≤ 0 := by simpa [json_key_le] using h
      have hle : strcmp m0.1 m.1 ≤ 0 := by
        rw [strcmp_swap]
        omega
      refine List.pairwise_cons.mpr ⟨?_, ih (fun e he => hl e (by simp [he])) hs2.2⟩
      intro e he
      rcases List.mem_cons.mp ((json_members_insert_perm m rest).subset he) with rfl | he
      · exact hle
      · exact hs2.1 e he

/-- A sorted list of entries whose keys hold no NUL is in key order. -/
theorem json_members_sort_sorted (l : List (List Char × json_t))
    (hl : ∀ e ∈ l, ∀ x ∈ e.1, x.toNat ≠ 0) :
    (json_members_sort l).Pairwise (fun a b => strcmp a.1 b.1 ≤ 0) := by
  induction l with
  | nil => exact List.Pairwise.nil
  | cons m rest ih =>
    have : json_members_sort (m :: rest) = json_members_insert m (json_members_sort rest) := rfl
    rw [this]
    refine json_members_insert_sorted m _ (hl m (by simp)) ?_
      (ih (fun e he => hl e (by simp [he])))
    intro e he
    exact hl e (by simp [(json_members_sort_perm rest).subset he])

/-- Two lists with the same entries, pairwise distinct keys that hold no NUL, both
in key order, are the same list. -/
theorem eq_of_perm_of_key_order (l1 l2 : List (List Char × json_t)) (hp : l1.Perm l2)
    (hn : (l1.map Prod.fst).Nodup) (hl : ∀ e ∈ l1, ∀ x ∈ e.1, x.toNat ≠ 0)
    (h1 : l1.Pairwise (fun a b => strcmp a.1 b.1 ≤ 0))
    (h2 : l2.Pairwise (fun a b => strcmp a.1 b.1 ≤ 0)) : l1 = l2 := by
  induction l1 generalizing l2 with
  | nil => exact (List.Perm.nil_eq hp)
  | cons a r1 ih =>
    cases l2 with
    | nil => exact absurd (List.Perm.length_eq hp) (by simp)
    | cons b r2 =>
      have hn' : (a.1 :: r1.map Prod.fst).Nodup := hn
      have hn1 := List.nodup_cons.mp hn'
      have h1c := List.pairwise_cons.mp h1
      have h2c := List.pairwise_cons.mp h2
      have hab : a = b := by
        have hb_mem : b ∈ a :: r1 := hp.symm.subset (by simp)
        have ha_mem : a ∈ b :: r2 := hp.subset (by simp)
        rcases List.mem_cons.mp hb_mem with e | hb1
        · exact e.symm
        · rcases List.mem_cons.mp ha_mem with e | ha2
          · exact e
          · have hle1 : strcmp a.1 b.1 ≤ 0 := h1c.1 b hb1
            have hle2 : strcmp b.1 a.1 ≤ 0 := h2c.1 a ha2
            have h0 : strcmp a.1 b.1 = 0 := by
              rw [strcmp_swap] at hle2
              omega
            have hkey : a.1 = b.1 :=
              (strcmp_eq_zero_iff _ _ (hl a (by simp)) (hl b (by simp [hb1]))).mp h0
            exact absurd (List.mem_map.mpr ⟨b, hb1, hkey.symm⟩) hn1.1
      subst hab
      rw [ih r2 (List.Perm.cons_inv hp) hn1.2 (fun e he => hl e (by simp [he])) h1c.2 h2c.2]

/-- Sorting two lists with the same entries, whose keys are pairwise distinct and
hold no NUL, gives the same list. -/
theorem json_members_sort_eq_of_perm (l1 l2 : List (List Char × json_t)) (hp : l1.Perm l2)
    (hn : (l1.map Prod.fst).Nodup) (hl : ∀ e ∈ l1, ∀ x ∈ e.1, x.toNat ≠ 0) :
    json_members_sort l1 = json_members_sort l2 := by
  have hl2 : ∀ e ∈ l2, ∀ x ∈ e.1, x.toNat ≠ 0 := fun e he => hl e (hp.symm.subset he)
  have hp1 := json_members_sort_perm l1
  have hp2 := json_members_sort_perm l2
  refine eq_of_perm_of_key_order _ _ (hp1.trans (hp.trans hp2.symm)) ?_ ?_
    (json_members_sort_sorted l1 hl) (json_members_sort_sorted l2 hl2)
  · exact (List.Perm.nodup_iff (List.Perm.map Prod.fst hp1)).mpr hn
  · intro e he
    exact hl e (hp1.subset he)

/-- The reference printer with `JSON_SORT_KEYS` writes the same text for the same
entries in any order. -/
theorem ref_json_dumps_sorted (l1 l2 : List (List Char × json_t)) (flags : Nat)
    (hf : flags / JSON_SORT_KEYS % 2 = 1) (hp : l1.Perm l2)
    (hn : (l1.map Prod.fst).Nodup) (hl : ∀ e ∈ l1, ∀ x ∈ e.1, x.toNat ≠ 0) :
    ref_json_dumps (JSON_OBJECT l1) flags = ref_json_dumps (JSON_OBJECT l2) flags := by
  simp only [ref_json_dumps, hf, decide_True, json_write_value, if_true,
    json_members_sort_eq_of_perm l1 l2 hp hn hl]


/-! ## Determinism of the encoder -/

/-- The function `jwt_sign` reads the algorithm, the key and the key length of the
token and nothing else. -/
theorem jwt_sign_congr (E : Libs) (alg : jwt_alg_t) (key : Option (List Nat)) (key_len : Int)
    (g1 g2 : Option json_t) (out : BIO_chain) (h : BIO_handle) (str : List Char) :
    jwt_sign E { alg := alg, key := key, key_len := key_len, grants := g1 } out h str =
      jwt_sign E { alg := alg, key := key, key_len := key_len, grants := g2 } out h str := by
  cases alg <;> rfl

/-- The function `jwt_encode_str` reads the claims through their sorted, compact
dump only. -/
theorem jwt_encode_str_congr (E : Libs) (alg : jwt_alg_t) (key : Option (List Nat))
    (key_len : Int) (g1 g2 : Option json_t)
    (hd : g1.bind (fun g => E.json_dumps g (JSON_SORT_KEYS ||| JSON_COMPACT)) =
      g2.bind (fun g => E.json_dumps g (JSON_SORT_KEYS ||| JSON_COMPACT))) :
    jwt_encode_str E { alg := alg, key := key, key_len := key_len, grants := g1 } =
      jwt_encode_str E { alg := alg, key := key, key_len := key_len, grants := g2 } := by
  unfold jwt_encode_str jwt_encode_bio
  simp only [jwt_encode_bio_first, hd, jwt_sign_congr E alg key key_len g1 g2]

/-- C21 fails on the code for a key shorter than the digest.  Two HS384 tokens with
the one-byte key "k" whose claims "iss" and "sub" were added in opposite orders:
`jwt_sign_sha_hmac` declares `res[jwt->key_len]`, an array of one byte, and `HMAC`
stores the 48 bytes of the digest in it, so that neither call of `jwt_encode_str`
has a defined result and no byte-equal output is produced.  For HS256, HS384 and
HS512 with a key that fills the result array the property holds: two tokens with
the same algorithm, the same key and key length, and claims that are objects with
the same entries in any order (keys pairwise distinct) both encode to a string, the
same for both, under a printer that writes the same text for the same entries with
`JSON_SORT_KEYS` (as the reference printer does, `ref_json_dumps_sorted`).  Nothing
is stated for the algorithm NONE, where `jwt_encode_bio` writes `buf[-1]`. -/
theorem jwt_encode_str_deterministic :
    (jwt_add_grant refLibs (jwt_add_grant refLibs
        (jwt_set_alg jwt_new 2 (some [107]) 1).2
        (some "iss".toList) (some "a".toList)).2 (some "sub".toList) (some "b".toList)) =
      (0, { alg := JWT_ALG_HS384, key := some [107], key_len := 1,
            grants := some (JSON_OBJECT [("iss".toList, JSON_STRING "a".toList),
              ("sub".toList, JSON_STRING "b".toList)]) }) ∧
    (jwt_add_grant refLibs (jwt_add_grant refLibs
        (jwt_set_alg jwt_new 2 (some [107]) 1).2
        (some "sub".toList) (some "b".toList)).2 (some "iss".toList) (some "a".toList)) =
      (0, { alg := JWT_ALG_HS384, key := some [107], key_len := 1,
            grants := some (JSON_OBJECT [("sub".toList, JSON_STRING "b".toList),
              ("iss".toList, JSON_STRING "a".toList)]) }) ∧
    jwt_encode_str refLibs
        { alg := JWT_ALG_HS384, key := some [107], key_len := 1,
          grants := some (JSON_OBJECT [("iss".toList, JSON_STRING "a".toList),
            ("sub".toList, JSON_STRING "b".toList)]) } = none ∧
    jwt_encode_str refLibs
        { alg := JWT_ALG_HS384, key := some [107], key_len := 1,
          grants := some (JSON_OBJECT [("sub".toList, JSON_STRING "b".toList),
            ("iss".toList, JSON_STRING "a".toList)]) } = none ∧
    (∀ (E : Libs) (t1 t2 : jwt_t) (m1 m2 : List (List Char × json_t)) (md : EVP_MD)
        (serial : List Char),
      (∀ l1 l2 : List (List Char × json_t), l1.Perm l2 → (l1.map Prod.fst).Nodup →
        (∀ e ∈ l1, ∀ x ∈ e.1, x.toNat ≠ 0) →
        E.json_dumps (JSON_OBJECT l1) (JSON_SORT_KEYS ||| JSON_COMPACT) =
          E.json_dumps (JSON_OBJECT l2) (JSON_SORT_KEYS ||| JSON_COMPACT)) →
      t1.alg = t2.alg → t1.key = t2.key → t1.key_len = t2.key_len →
      t1.grants = some (JSON_OBJECT m1) → t2.grants = some (JSON_OBJECT m2) →
      m1.Perm m2 → (m1.map Prod.fst).Nodup → (∀ e ∈ m1, ∀ x ∈ e.1, x.toNat ≠ 0) →
      hmac_md t1.alg = some md → (EVP_MD_size md : Int) ≤ t1.key_len →
      E.json_dumps (JSON_OBJECT m1) (JSON_SORT_KEYS ||| JSON_COMPACT) = some serial →
      ∃ s, jwt_encode_str E t1 = some (some s) ∧ jwt_encode_str E t2 = some (some s)) := by
  refine ⟨by rfl, by rfl, by rfl, by rfl, ?_⟩
  intro E t1 t2 m1 m2 md serial hE halg hkey hlen hg1 hg2 hp hn hl hmd hfit hs
  have hd := hE m1 m2 hp hn hl
  have heq : jwt_encode_str E t1 = jwt_encode_str E t2 := by
    obtain ⟨a1, k1, n1, g1⟩ := t1
    obtain ⟨a2, k2, n2, g2⟩ := t2
    simp only at halg hkey hlen hg1 hg2
    subst halg hkey hlen hg1 hg2
    exact jwt_encode_str_congr E _ _ _ _ _ (by simp only [Option.bind, hd])
  have h1 := jwt_encode_str_hmac E t1 md serial hmd hfit (by rw [hg1]; exact hs)
  exact ⟨_, h1, heq ▸ h1⟩

/-- Two HS256 tokens with a key of 32 bytes whose claims "iss" and "sub" were added
in opposite orders encode to a string, the same for both. -/
theorem jwt_encode_str_deterministic_example :
    ∃ s, jwt_encode_str refLibs
        (jwt_add_grant refLibs (jwt_add_grant refLibs
          (jwt_set_alg jwt_new 1 (some (List.replicate 32 7)) 32).2
          (some "iss".toList) (some "a".toList)).2 (some "sub".toList) (some "b".toList)).2 =
        some (some s) ∧
      jwt_encode_str refLibs
        (jwt_add_grant refLibs (jwt_add_grant refLibs
          (jwt_set_alg jwt_new 1 (some (List.replicate 32 7)) 32).2
          (some "sub".toList) (some "b".toList)).2 (some "iss".toList) (some "a".toList)).2 =
        some (some s) := by
  have h1 := jwt_encode_str_hmac refLibs
    (jwt_add_grant refLibs (jwt_add_grant refLibs
      (jwt_set_alg jwt_new 1 (some (List.replicate 32 7)) 32).2
      (some "iss".toList) (some "a".toList)).2 (some "sub".toList) (some "b".toList)).2
    EVP_sha256 "\x7b\"iss\":\"a\",\"sub\":\"b\"\x7d".toList (by rfl) (by decide) (by rfl)
  have h2 := jwt_encode_str_hmac refLibs
    (jwt_add_grant refLibs (jwt_add_grant refLibs
      (jwt_set_alg jwt_new 1 (some (List.replicate 32 7)) 32).2
      (some "sub".toList) (some "b".toList)).2 (some "iss".toList) (some "a".toList)).2
    EVP_sha256 "\x7b\"iss\":\"a\",\"sub\":\"b\"\x7d".toList (by rfl) (by decide) (by rfl)
  exact ⟨_, h1, h2⟩


/-! ## Key scrubbing -/

/-- The function `jwt_decode` is `jwt_decode_new` followed by the statements at
`decode_done`: the token is stored in `*jwt` when `ret` is zero. -/
theorem jwt_decode_eq (E : Libs) (token : List Char) (key : List Nat) (key_len : Int) :
    jwt_decode E token key key_len =
      (jwt_decode_new E token key key_len).map
        (fun r => if r.1 ≠ 0 then (r.1, none) else (0, r.2)) := by
  unfold jwt_decode jwt_decode_new
  cases find_dot token with
  | none => rfl
  | some p =>
    obtain ⟨head, rest⟩ := p
    simp only
    cases find_dot rest with
    | none => rfl
    | some q =>
      obtain ⟨body, sig⟩ := q
      simp only
      by_cases hneg : key_len < 0
      · rw [if_pos hneg, if_pos hneg]
        rfl
      · rw [if_neg hneg, if_neg hneg]
        generalize jwt_verify_head E _ head = vh
        obtain ⟨ret1, new1⟩ := vh
        simp only
        by_cases h1 : ret1 ≠ 0
        · rw [if_pos h1, if_pos h1]
          simp only [Option.map]
          rw [if_pos h1]
        · rw [if_neg h1, if_neg h1]
          generalize jwt_parse_body E new1 body = pb
          obtain ⟨ret2, new2⟩ := pb
          simp only
          by_cases h2 : ret2 ≠ 0
          · rw [if_pos h2, if_pos h2]
            simp only [Option.map]
            rw [if_pos h2]
          · rw [if_neg h2, if_neg h2]
            generalize (if new2.alg ≠ JWT_ALG_NONE then
                jwt_verify_signature E new2 (head ++ '.' :: body) sig
              else if key_len > 0 then some EINVAL else some 0) = vs
            cases vs with
            | none => rfl
            | some ret3 =>
              by_cases h3 : ret3 ≠ 0
              · simp only [Option.map]
                rw [if_pos h3, if_pos h3]
              · have h3z : ret3 = 0 := by
                  by_contra hc
                  exact h3 hc
                subst h3z
                rfl

/-- The function `jwt_verify_head` leaves the key buffer alone, and the key length
too when there is a buffer. -/
theorem jwt_verify_head_key (E : Libs) (jwt : jwt_t) (head : List Char) :
    (jwt_verify_head E jwt head).2.key = jwt.key ∧
      (jwt.key.isSome = true → (jwt_verify_head E jwt head).2.key_len = jwt.key_len) := by
  unfold jwt_verify_head
  cases jwt_b64_decode E head with
  | none => exact ⟨rfl, fun _ => rfl⟩
  | some js =>
    simp only
    cases hv : get_js_string E (some js) "alg".toList with
    | none => exact ⟨rfl, fun _ => rfl⟩
    | some val =>
      rcases jwt_str_alg_cases jwt val with hs | ⟨a, hs, _⟩
      · rw [hs]
        simp only [EINVAL]
        exact ⟨rfl, fun _ => rfl⟩
      · rw [hs]
        simp only [ne_eq, not_true_eq_false, if_false]
        cases hk : jwt.key with
        | none =>
          by_cases ha : a = JWT_ALG_NONE
          · simp [ha, hk]
          · simp [ha, hk, jwt_scrub_key]
        | some k =>
          by_cases ha : a = JWT_ALG_NONE
          · simp [ha, hk]
          · simp [ha, hk]

/-- The function `jwt_parse_body` leaves the key buffer and the key length alone. -/
theorem jwt_parse_body_key (E : Libs) (jwt : jwt_t) (body : List Char) :
    (jwt_parse_body E jwt body).2.key = jwt.key ∧
      (jwt_parse_body E jwt body).2.key_len = jwt.key_len := by
  unfold jwt_parse_body
  split <;> exact ⟨rfl, rfl⟩

/-- What `jwt_scrub_key` releases of a token whose key buffer holds `key_len`
bytes: that many zero bytes. -/
theorem jwt_scrub_key_free_zero (jwt : jwt_t) (k : List Nat) (hk : jwt.key = some k)
    (hlen : (k.length : Int) = jwt.key_len) :
    jwt_scrub_key_free jwt = some (some (List.replicate k.length 0)) := by
  unfold jwt_scrub_key_free
  have h1 : ¬ (jwt.key_len < 0 ∨ (k.length : Int) < jwt.key_len) := by omega
  have h2 : jwt.key_len.toNat = k.length := by omega
  simp only [hk, h1, if_false, h2, List.drop_length, List.append_nil]

/-- At `decode_done` the token of `jwt_decode`, if there is one, has no key buffer
or a buffer of `key_len` bytes. -/
theorem jwt_decode_new_key (E : Libs) (token : List Char) (key : List Nat) (key_len : Int)
    (hkey : key_len ≤ (key.length : Int)) (ret : Int) (new : jwt_t)
    (h : jwt_decode_new E token key key_len = some (ret, some new)) :
    new.key = none ∨ ∃ k, new.key = some k ∧ (k.length : Int) = new.key_len ∧
      new.key_len = key_len := by
  unfold jwt_decode_new at h
  cases hd : find_dot token with
  | none =>
    simp only [hd] at h
    cases h
  | some p =>
    obtain ⟨head, rest⟩ := p
    simp only [hd] at h
    cases hb : find_dot rest with
    | none =>
      simp only [hb] at h
      cases h
    | some q =>
      obtain ⟨body, sig⟩ := q
      simp only [hb] at h
      by_cases hneg : key_len < 0
      · rw [if_pos hneg] at h
        cases h
        exact Or.inl rfl
      · rw [if_neg hneg] at h
        generalize hj : (if key_len ≠ 0 then
            ({ jwt_new with key := some (key.take key_len.toNat), key_len := key_len } : jwt_t)
          else jwt_new) = j at h
        have hjk : j.key = none ∨ ∃ k, j.key = some k ∧ (k.length : Int) = j.key_len ∧
            j.key_len = key_len := by
          by_cases hk0 : key_len ≠ 0
          · rw [if_pos hk0] at hj
            subst hj
            refine Or.inr ⟨key.take key_len.toNat, rfl, ?_, rfl⟩
            simp only [List.length_take]
            omega
          · rw [if_neg hk0] at hj
            subst hj
            exact Or.inl rfl
        have hvk := jwt_verify_head_key E j head
        have hpk := jwt_parse_body_key E (jwt_verify_head E j head).2 body
        generalize jwt_verify_head E j head = vh at h hvk hpk
        obtain ⟨ret1, new1⟩ := vh
        simp only at h hvk hpk
        have h1k : new1.key = none ∨ ∃ k, new1.key = some k ∧ (k.length : Int) = new1.key_len ∧
            new1.key_len = key_len := by
          rcases hjk with hn | ⟨k, hk, hl, hl2⟩
          · exact Or.inl (hvk.1.trans hn)
          · have := hvk.2 (by rw [hk]; rfl)
            exact Or.inr ⟨k, hvk.1.trans hk, by rw [this]; exact hl, by rw [this]; exact hl2⟩
        by_cases h1 : ret1 ≠ 0
        · rw [if_pos h1] at h
          cases h
          exact h1k
        · rw [if_neg h1] at h
          generalize jwt_parse_body E new1 body = pb at h hpk
          obtain ⟨ret2, new2⟩ := pb
          simp only at h hpk
          have h2k : new2.key = none ∨ ∃ k, new2.key = some k ∧
              (k.length : Int) = new2.key_len ∧ new2.key_len = key_len := by
            rw [hpk.1, hpk.2]
            exact h1k
          by_cases h2 : ret2 ≠ 0
          · rw [if_pos h2] at h
            cases h
            exact h2k
          · rw [if_neg h2] at h
            generalize (if new2.alg ≠ JWT_ALG_NONE then
                jwt_verify_signature E new2 (head ++ '.' :: body) sig
              else if key_len > 0 then some EINVAL else some 0) = vs at h
            cases vs with
            | none => cases h
            | some ret3 =>
              cases h
              exact h2k

/-- After `jwt_set_alg` with a caller's buffer of at least `len` bytes, the key
buffer of the token, if it has one, holds `key_len` bytes. -/
theorem jwt_set_alg_key_buffer (jwt : jwt_t) (alg : Int) (key : Option (List Nat)) (len : Int)
    (k2 : List Nat) (hkey : ∀ k, key = some k → len ≤ (k.length : Int))
    (h : (jwt_set_alg jwt alg key len).2.key = some k2) :
    (k2.length : Int) = (jwt_set_alg jwt alg key len).2.key_len := by
  unfold jwt_set_alg at h ⊢
  cases ha : jwt_alg_of_int alg with
  | none =>
    simp only [ha, jwt_scrub_key] at h
    cases h
  | some a =>
    cases a
    · simp only [ha] at h
      split_ifs at h <;> simp [jwt_scrub_key] at h
    all_goals
      simp only [ha] at h ⊢
      cases key with
      | none =>
        simp only [jwt_scrub_key] at h
        cases h
      | some k =>
        have hk := hkey k rfl
        by_cases hl : len > 0
        · simp only [hl, not_true_eq_false, if_false, Option.some.injEq] at h ⊢
          rw [← h, List.length_take]
          omega
        · simp only [hl, not_false_eq_true, if_true, jwt_scrub_key] at h
          cases h

/-- C25. Key scrubbing.  The key buffer of a token is released by the call
`free(jwt->key)` of `jwt_scrub_key` and nowhere else, and `memset` has filled it
with zero before.  For every token whose key buffer holds `key_len` bytes, what
`jwt_scrub_key`, `jwt_free` and `jwt_set_alg` (with any arguments) release is a
buffer of that many zero bytes; and whenever `jwt_decode`, called with a key of at
least `key_len` bytes, releases the key buffer of its partial token, that buffer
holds `key_len` zero bytes.  No byte of a key is left in a released buffer. -/
theorem key_buffer_scrubbed (jwt : jwt_t) (k : List Nat) (hk : jwt.key = some k)
    (hlen : (k.length : Int) = jwt.key_len) :
    (jwt_scrub_key_free jwt = some (some (List.replicate k.length 0)) ∧
      jwt_free (some jwt) = some (some (List.replicate k.length 0)) ∧
      (∀ alg key len, jwt_set_alg_free jwt alg key len =
        some (some (List.replicate k.length 0)))) ∧
    (∀ (E : Libs) (token : List Char) (key : List Nat) (key_len : Int) (buf : List Nat),
      key_len ≤ (key.length : Int) → jwt_decode_free E token key key_len = some (some buf) →
        buf = List.replicate key_len.toNat 0) := by
  have hz := jwt_scrub_key_free_zero jwt k hk hlen
  refine ⟨⟨hz, hz, fun _ _ _ => hz⟩, ?_⟩
  intro E token key key_len buf hkey h
  unfold jwt_decode_free at h
  cases hn : jwt_decode_new E token key key_len with
  | none =>
    rw [hn] at h
    cases h
  | some r =>
    obtain ⟨ret, new⟩ := r
    rw [hn] at h
    simp only at h
    by_cases hr : ret ≠ 0
    · rw [if_pos hr] at h
      cases new with
      | none => cases h
      | some t =>
        rcases jwt_decode_new_key E token key key_len hkey ret t hn with hnone | ⟨k2, hk2, hl2, hl3⟩
        · simp only [jwt_free, jwt_scrub_key_free, hnone] at h
          cases h
        · have := jwt_scrub_key_free_zero t k2 hk2 hl2
          simp only [jwt_free] at h
          rw [this] at h
          cases h
          congr 1
          omega
    · rw [if_neg hr] at h
      cases h

/-- C25 at a token with HS256 and the key 1, 2, 3, and at `jwt_decode` refusing a
token whose header declares the algorithm none while the caller passes the key
1, 2, 3: each releases three zero bytes. -/
theorem key_buffer_scrubbed_witness :
    jwt_free (some { alg := JWT_ALG_HS256, key := some [1, 2, 3], key_len := 3,
                     grants := some (JSON_OBJECT []) }) = some (some [0, 0, 0]) ∧
      jwt_set_alg_free { alg := JWT_ALG_HS256, key := some [1, 2, 3], key_len := 3,
                         grants := some (JSON_OBJECT []) } 0 none 0 = some (some [0, 0, 0]) ∧
      jwt_decode_free refLibs "eyJhbGciOiJub25lIn0.e30.".toList [1, 2, 3] 3 =
        some (some [0, 0, 0]) :=
  ⟨(key_buffer_scrubbed { alg := JWT_ALG_HS256, key := some [1, 2, 3], key_len := 3,
                          grants := some (JSON_OBJECT []) } [1, 2, 3] rfl (by decide)).1.2.1,
    (key_buffer_scrubbed { alg := JWT_ALG_HS256, key := some [1, 2, 3], key_len := 3,
                           grants := some (JSON_OBJECT []) } [1, 2, 3] rfl (by decide)).1.2.2
      0 none 0,
    by rfl⟩

end Jwt
